import Mathlib

/-!
ABWProfilePatches: tag patcher, low-pass kernels, smoothing and intent classification.

A shallow embedding of `Create_CGATS_for_ABW_Routines.cpp` and `PatchFilter.cpp`.

* `vector<char>` is a list of natural numbers, one per byte; `(uint8_t)` is `% 256`.
* `double` is modelled by the rationals: the statements below are about exact arithmetic,
  with one exception.  The index of the percentile tables (line 223) is cast to `int`, so
  there a rounding error can change the result: that expression is evaluated in IEEE 754
  binary64, each operation rounded to nearest, ties to even (`to_double`).
* A read or a write outside a vector, which C++ leaves undefined, is an explicit failure
  (`PatchError.undefined_access` in the patcher, `none` in the filters).
* Files are not modelled: the patcher is a function of the contents of its two files, and its
  result is the buffer it hands to `write_binary_file`.
* The colour conversions of `color_conversions.h` are parameters of the constructor.

The definitions come first, the theorems follow.
-/

namespace ABW

/-! ## Binary tag patcher (`Create_CGATS_for_ABW_Routines.cpp`, lines 378-469) -/

/-- Contents of a `vector<char>`. -/
abbrev Buffer := List Nat

/-- Ways in which `replace_icc1_A2B1_with_icc2_A2B1` does not reach its last line. -/
inductive PatchError where
  /-- `std::map::at` did not find the tag (`std::out_of_range`). -/
  | out_of_range
  /-- The `std::invalid_argument` thrown when the two A2B1 sizes differ. -/
  | different_sizes
  /-- An access outside a buffer: no behaviour is defined by the language. -/
  | undefined_access
deriving DecidableEq, Repr

deriving instance DecidableEq for Except

/-- Dereference of `pc[p]`. -/
def read_byte (pc : Buffer) (p : Nat) : Except PatchError Nat :=
  match pc[p]? with
  | some b => .ok b
  | none => .error .undefined_access

/-- The call `endian32(pc + p)`: the four bytes at `p .. p+3`, most significant first, as a
`uint32_t`. -/
def endian32 (pc : Buffer) (p : Nat) : Except PatchError Nat := do
  let b0 ← read_byte pc p
  let b1 ← read_byte pc (p + 1)
  let b2 ← read_byte pc (p + 2)
  let b3 ← read_byte pc (p + 3)
  let ret := ((b0 % 256) <<< 24) % 2 ^ 32
  let ret := ret ||| ((b1 % 256) <<< 16)
  let ret := ret ||| ((b2 % 256) <<< 8)
  let ret := ret ||| (b3 % 256)
  pure ret

/-- The struct `Tags`: a four character id, an offset and a size. -/
structure Tags where
  id : List Nat
  offset : Nat
  size : Nat
deriving DecidableEq, Repr

/-- The `std::map<std::string, Tags>`, as the list of its values (one per key). -/
abbrev TagMap := List Tags

/-- The assignment `ret[tag.id] = tag`: replaces the value stored under the key, or adds it. -/
def map_assign : TagMap → Tags → TagMap
  | [], t => [t]
  | x :: xs, t => if x.id = t.id then t :: xs else x :: map_assign xs t

/-- The lookup `tags.at(id)`, which throws `std::out_of_range` on a miss. -/
def map_at (m : TagMap) (id : List Nat) : Except PatchError Tags :=
  match m.find? (fun t => decide (t.id = id)) with
  | some t => .ok t
  | none => .error .out_of_range

/-- The string constructor `string(p, p + 4)`: the four characters at `p .. p+3`. -/
def read_id (pc : Buffer) (p : Nat) : Except PatchError (List Nat) := do
  let c0 ← read_byte pc p
  let c1 ← read_byte pc (p + 1)
  let c2 ← read_byte pc (p + 2)
  let c3 ← read_byte pc (p + 3)
  pure [c0, c1, c2, c3]

/-- One iteration of the loop of `get_tags`. -/
def get_tags_step (pstart : Buffer) (ret : TagMap) (i : Nat) : Except PatchError TagMap := do
  let p := 132 + 12 * i
  let id ← read_id pstart p
  let offset ← endian32 pstart (p + 4)
  let size ← endian32 pstart (p + 8)
  pure (map_assign ret ⟨id, offset, size⟩)

/-- The function `get_tags`: parses the tag directory that starts at byte 128. -/
def get_tags (pstart : Buffer) : Except PatchError TagMap := do
  let tagcount ← endian32 pstart 128
  (List.range tagcount).foldlM (get_tags_step pstart) []

/-- The struct `WPandA2B1`. -/
structure WPandA2B1 where
  wp_offset : Nat
  wp_size : Nat
  atob1_offset : Nat
  atob1_size : Nat
deriving DecidableEq, Repr

/-- The characters of the literal "A2B1". -/
def id_A2B1 : List Nat := [65, 50, 66, 49]

/-- The characters of the literal "wtpt". -/
def id_wtpt : List Nat := [119, 116, 112, 116]

/-- The function `get_WP_and_A2B1_info`. -/
def get_WP_and_A2B1_info (pc : Buffer) : Except PatchError WPandA2B1 := do
  let tags ← get_tags pc
  let a2b1 ← map_at tags id_A2B1
  let wtpt ← map_at tags id_wtpt
  pure { atob1_offset := a2b1.offset, atob1_size := a2b1.size,
         wp_offset := wtpt.offset, wp_size := wtpt.size }

/-- The call `std::copy(src + first, src + first + n, dst + d_first)` on two distinct vectors:
byte `d_first + k` of `dst` becomes byte `first + k` of `src` for every `k < n`. -/
def std_copy (src : Buffer) (first n : Nat) (dst : Buffer) (d_first : Nat) :
    Except PatchError Buffer :=
  if first + n ≤ src.length ∧ d_first + n ≤ dst.length then
    .ok (dst.take d_first ++ ((src.drop first).take n ++ dst.drop (d_first + n)))
  else
    .error .undefined_access

/-- The function `replace_icc1_A2B1_with_icc2_A2B1` on the contents `buf1` of the destination
file and `buf2` of the source file.  The value returned is the buffer handed to the only call
of `write_binary_file`, the last statement of the function. -/
def replace_icc1_A2B1_with_icc2_A2B1 (buf1 buf2 : Buffer) : Except PatchError Buffer := do
  let info1 ← get_WP_and_A2B1_info buf1
  let info2 ← get_WP_and_A2B1_info buf2
  if info1.atob1_size ≠ info2.atob1_size then
    throw PatchError.different_sizes
  let buf1 ← std_copy buf2 info2.atob1_offset info2.atob1_size buf1 info1.atob1_offset
  let buf1 ← std_copy buf2 info2.wp_offset info2.wp_size buf1 info1.wp_offset
  pure buf1

/-- The buffers handed to `write_binary_file` during one run, in order: the call is the last
statement, reached only when nothing was thrown before. -/
def buffers_written (r : Except PatchError Buffer) : List Buffer :=
  match r with
  | .ok p => [p]
  | .error _ => []

/-- The run ended in a C++ exception. -/
def throws (r : Except PatchError Buffer) : Prop :=
  r = .error .out_of_range ∨ r = .error .different_sizes

/-- The directory map holds an entry for the tag `id`. -/
def has_tag (m : TagMap) (id : List Nat) : Prop := ∃ t, t ∈ m ∧ t.id = id

/-- A profile with a two-entry directory: A2B1 at 156 (4 bytes) and wtpt at 160 of the
given size, followed by the given payload. -/
def sample_profile (wtpt_size : Nat) (payload : List Nat) : Buffer :=
  List.replicate 128 0 ++ [0, 0, 0, 2]
    ++ [65, 50, 66, 49, 0, 0, 0, 156, 0, 0, 0, 4]
    ++ [119, 116, 112, 116, 0, 0, 0, 160, 0, 0, 0, wtpt_size]
    ++ payload

/-- A destination profile for the examples: A2B1 is bytes 156-159, wtpt is bytes 160-163,
and four more bytes follow. -/
def sample_dest : Buffer := sample_profile 4 [1, 2, 3, 4, 5, 6, 7, 8, 9, 9, 9, 9]

/-- A source profile with the directory of `sample_dest` and another payload. -/
def sample_source : Buffer := sample_profile 4 [11, 12, 13, 14, 15, 16, 17, 18, 19, 19, 19, 19]

/-- A source profile whose wtpt tag is 8 bytes long (bytes 160-167), while A2B1 has the
4 bytes of `sample_dest`. -/
def sample_source_long_wtpt : Buffer :=
  sample_profile 8 [11, 12, 13, 14, 15, 16, 17, 18, 19, 19, 19, 19]

/-! ## Low-pass kernels and smoothing (`PatchFilter.cpp`, lines 31-77) -/

/-- The statement `ret[i + ii] += v1[i] * v2[ii]` of `convolve`. -/
def convolve_add (v1 v2 : List ℚ) (i : Nat) (ret : List ℚ) (ii : Nat) : List ℚ :=
  ret.set (i + ii) (ret.getD (i + ii) 0 + v1.getD i 0 * v2.getD ii 0)

/-- The inner loop of `convolve`, over the entries of `v2`. -/
def convolve_row (v1 v2 : List ℚ) (ret : List ℚ) (i : Nat) : List ℚ :=
  (List.range v2.length).foldl (convolve_add v1 v2 i) ret

/-- The function `convolve`: a zero-filled vector of `v1.size() + v2.size() - 1` entries, to
which every product `v1[i] * v2[ii]` is added at index `i + ii`.  Every caller passes two
non-empty vectors, so the unsigned size does not wrap and every index is in range. -/
def convolve (v1 v2 : List ℚ) : List ℚ :=
  (List.range v1.length).foldl (convolve_row v1 v2)
    (List.replicate (v1.length + v2.length - 1) 0)

/-- The loop of `make_lowpass`: `ret = {1}` convolved `n - 1` times with `{1, 1}`. -/
def binomial_row (n : Nat) : List ℚ :=
  (List.range (n - 1)).foldl (fun ret _ => convolve ret [1, 1]) [1]

/-- The function `make_lowpass(n, xcenter)` of `PatchFilter.cpp`: the binomial row of `n`
entries, its entry `n / 2` replaced by `.001` when `xcenter` is set, divided by its sum
(`std::accumulate` from `0.0`). -/
def make_lowpass (n : Nat) (xcenter : Bool) : List ℚ :=
  let ret := binomial_row n
  let ret := if xcenter then ret.set (n / 2) (1 / 1000) else ret
  let s := ret.foldl (fun a x => a + x) 0
  ret.map (fun x => x / s)

/-- The function `make_lowpass(n)` of `Create_CGATS_for_ABW_Routines.cpp`, which has no
`xcenter` parameter. -/
def make_lowpass_routines (n : Nat) : List ℚ :=
  let ret := binomial_row n
  let s := ret.foldl (fun a x => a + x) 0
  ret.map (fun x => x / s)

/-- The type `V3 = array<double, 3>`. -/
structure V3 where
  x0 : ℚ
  x1 : ℚ
  x2 : ℚ
deriving DecidableEq

/-- The element `a[ii]` for `ii` in 0, 1, 2 (no other index is used). -/
def V3.get (a : V3) (ii : Nat) : ℚ :=
  match ii with
  | 0 => a.x0
  | 1 => a.x1
  | _ => a.x2

/-- The assignment `a[ii] = x` for `ii` in 0, 1, 2 (no other index is used). -/
def V3.set (a : V3) (ii : Nat) (x : ℚ) : V3 :=
  match ii with
  | 0 => { a with x0 := x }
  | 1 => { a with x1 := x }
  | _ => { a with x2 := x }

/-- A value-initialised `V3`. -/
def V3.zero : V3 := ⟨0, 0, 0⟩

/-- The call `std::inner_product(f.begin(), f.begin() + n, v.begin() + first2, 0.0)`. -/
def inner_product (f : List ℚ) (n : Nat) (v : List ℚ) (first2 : Nat) : Option ℚ :=
  (List.range n).foldlM (fun acc j => do
    let a ← f[j]?
    let b ← v[first2 + j]?
    pure (acc + a * b)) 0

/-- The assignment `ret[k][ii] = x`. -/
def set_channel (ret : List V3) (k ii : Nat) (x : ℚ) : Option (List V3) :=
  match ret[k]? with
  | some a => some (ret.set k (a.set ii x))
  | none => none

/-- Body of the first inner loop of `smooth`. -/
def smooth_main_step (f : List ℚ) (n : Nat) (v : List ℚ) (ii : Nat) (ret : List V3) (i : Nat) :
    Option (List V3) := do
  let s ← inner_product f n v i
  set_channel ret (i + n / 2) ii s

/-- Body of the second inner loop of `smooth`, which handles the two ends; `size1` is
`ret1.size()`. -/
def smooth_edge_step (xcenter : Bool) (v : List ℚ) (size1 ii : Nat) (ret : List V3) (i : Nat) :
    Option (List V3) := do
  let f := make_lowpass (i * 2 - 1) xcenter
  let s ← inner_product f f.length v 0
  let ret ← set_channel ret (i - 1) ii s
  let first2 ← if f.length ≤ v.length then some (v.length - f.length) else none
  let s ← inner_product f f.length v first2
  if size1 < i then none else set_channel ret (size1 - i) ii s

/-- Body of the loop over the three channels in `smooth`.  The bound `v.size() - n + 1` of the
first inner loop is unsigned: when `n > v.size() + 1` it wraps around and the first iteration
already reads past the end of `v`. -/
def smooth_channel (f : List ℚ) (n : Nat) (xcenter : Bool) (v3 : List V3) (ret : List V3)
    (ii : Nat) : Option (List V3) :=
  let v := v3.map (fun x => x.get ii)
  if v.length + 1 < n then none
  else do
    let ret ← (List.range (v.length + 1 - n)).foldlM (smooth_main_step f n v ii) ret
    (List.range' 1 (n / 2)).foldlM (smooth_edge_step xcenter v v3.length ii) ret

/-- The function `smooth(v3, n, xcenter)` of `PatchFilter.cpp`. -/
def smooth (v3 : List V3) (n : Nat) (xcenter : Bool) : Option (List V3) :=
  let ret := List.replicate v3.length V3.zero
  let f := make_lowpass n xcenter
  [0, 1, 2].foldlM (smooth_channel f n xcenter v3) ret

/-- The value of `std::inner_product` of the whole kernel `f` with the entries of `v` from
index `start` on, when every read is in range: the sum of `f[j] * v[start + j]`. -/
def window_dot (f v : List ℚ) (start : Nat) : ℚ :=
  ((List.range f.length).map (fun j => f[j]?.getD 0 * v[start + j]?.getD 0)).sum

/-- Half-width of the kernel that `smooth` with kernel size `2 * h + 1` applies at position `j`
of `N`: `h` in the middle, and the distance to the nearer end within `h` of an end. -/
def window_half (N h j : Nat) : Nat := min h (min j (N - 1 - j))

/-- The value that `smooth` with kernel size `2 * h + 1` stores at position `j` of one
channel `v`: the kernel of half-width `window_half`, centred on `j`. -/
def smooth_entry (v : List ℚ) (h : Nat) (xcenter : Bool) (j : Nat) : ℚ :=
  window_dot (make_lowpass (2 * window_half v.length h j + 1) xcenter) v
    (j - window_half v.length h j)

/-- Channel `ii` of a sequence of `V3`. -/
def channel (v3 : List V3) (ii : Nat) : List ℚ := v3.map (fun x => x.get ii)

/-- The input of `N` entries that is 1 in every channel at position `p` and 0 elsewhere. -/
def impulse (N p : Nat) : List V3 :=
  (List.range N).map (fun j => if j = p then (⟨1, 1, 1⟩ : V3) else ⟨0, 0, 0⟩)

/-- The weight that output `i` of `smooth` places on the input sample at position `p`, for
inputs of length `N` and kernel size `k`: `smooth` is linear in its input
(`smooth_linear` below), so the weight is the output at `i` for the impulse at `p`. -/
def smooth_weight (N k : Nat) (xcenter : Bool) (i p : Nat) : ℚ :=
  match smooth (impulse N p) k xcenter with
  | some out => (out.getD i V3.zero).x0
  | none => 0

/-- The total weight that output `i` of `smooth` places on the samples other than `i`. -/
def others_weight (N k : Nat) (xcenter : Bool) (i : Nat) : ℚ :=
  (((List.range N).filter (fun p => decide (p ≠ i))).map (smooth_weight N k xcenter i)).sum

/-! ## The constructor of `PatchFilter` (`PatchFilter.cpp`, lines 86-165) -/

/-- The type `V6 = array<double, 6>`: an RGB triple followed by a Lab triple. -/
structure V6 where
  x0 : ℚ
  x1 : ℚ
  x2 : ℚ
  x3 : ℚ
  x4 : ℚ
  x5 : ℚ
deriving DecidableEq

/-- The expression `*((V3*)&x + 1)`: the Lab half of a `V6`. -/
def V6.lab (x : V6) : V3 := ⟨x.x3, x.x4, x.x5⟩

/-- The enumeration `PatchFilter::Intent`. -/
inductive Intent where
  | ABS
  | REL
  | RELBPC
deriving DecidableEq, Repr

/-- The colour conversions of `color_conversions.h`, which the constructor calls and whose
code is not part of these sources: they are parameters of the model. -/
structure Conversions where
  sRGB_to_Lab : V3 → V3
  Lab_to_XYZ : V3 → V3
  XYZ_to_Lab : V3 → V3

/-- The sum of two `V3` (`operator+`). -/
def V3.add (a b : V3) : V3 := ⟨a.x0 + b.x0, a.x1 + b.x1, a.x2 + b.x2⟩

/-- The product of a scalar and a `V3` (`operator*`). -/
def V3.smul (c : ℚ) (a : V3) : V3 := ⟨c * a.x0, c * a.x1, c * a.x2⟩

/-- The data members of `PatchFilter` that the constructor fills. -/
structure PatchFilter where
  ND : Int
  L_sRGB : List ℚ
  sRGB_xyz : List V3
  L_projected : List ℚ
  lab : List V3
  labf : List V3
  labfx : List V3
  lab5 : List V3
  intent : Intent

/-- The conversion `(int)` of a `size_t`. -/
def to_int (x : Nat) : Int :=
  if x % 2 ^ 32 < 2 ^ 31 then ((x % 2 ^ 32 : Nat) : Int) else ((x % 2 ^ 32 : Nat) : Int) - 2 ^ 32

/-- The member initialiser `ND{ 255 / (int)(vin.size() - 1) }`; the subtraction is unsigned
and a division by zero has no defined result. -/
def ND_init (size : Nat) : Option Int :=
  let d := to_int ((size + 2 ^ 64 - 1) % 2 ^ 64)
  if d = 0 then none else some (Int.tdiv 255 d)

/-- The kernel size `ND > 1 ? 3 : 9` passed to both calls of `smooth`. -/
def kernel_size (ND : Int) : Nat := if ND > 1 then 3 else 9

/-- The construction of `lab5`: `labf` itself when it has 52 entries, otherwise the entries
`labf[i]` for `i = 0, 5, ..., 255`. -/
def resample5 (labf : List V3) : Option (List V3) :=
  if labf.length = 52 then some labf
  else (List.range 52).mapM (fun k => labf[5 * k]?)

/-- The test of the first `if` of the classification: black point compensation. -/
def relbpc_test (L r1 r2 r3 : ℚ) : Bool :=
  (decide (L < 5) && decide (r1 > 3 / 10))
    || (decide (L ≥ 5) && decide (L < 10) && decide (r2 > 3 / 10))
    || (decide (L ≥ 10) && decide (r3 > 3 / 10))

/-- The three-way branch of the constructor (lines 117-164), as the intent it assigns: the
tests are made in this order on the entries 0, 1, 2, 3, 50 and 51 of `lab5`. -/
def classify (p0 p1 p2 p3 p50 p51 : V3) : Intent :=
  if relbpc_test p0.x0 (p1.x0 - p0.x0) (p2.x0 - p0.x0) (p3.x0 - p0.x0) then Intent.RELBPC
  else if p51.x0 - p50.x0 > 3 / 10 then Intent.REL
  else Intent.ABS

/-- The value `xyz` that the loop of the taken branch converts to `L_projected[i]`, where `s`
is `sRGB_xyz[i]`. -/
def projected_xyz (intent : Intent) (black white s : V3) : V3 :=
  match intent with
  | Intent.RELBPC => V3.add black (V3.smul (white.x1 - black.x1) s)
  | Intent.REL => if white.x1 * s.x1 < black.x1 then black else V3.smul white.x1 s
  | Intent.ABS => if s.x1 < black.x1 then black else if s.x1 > white.x1 then white else s

/-- The constructor `PatchFilter::PatchFilter(vin)`.  The entries 0, 1, 2, 3, 50 and 51 of
`lab5` are read after `xyz5[51]`, so with at least 52 entries present. -/
def PatchFilter.construct (cc : Conversions) (vin : List V6) : Option PatchFilter := do
  let ND ← ND_init vin.length
  let L_sRGB := (List.range 52).map (fun (i : Nat) =>
    (cc.sRGB_to_Lab ⟨(i : ℚ) * 5, (i : ℚ) * 5, (i : ℚ) * 5⟩).x0)
  let sRGB_xyz := L_sRGB.map (fun l => cc.Lab_to_XYZ ⟨l, 0, 0⟩)
  let lab := vin.map V6.lab
  let labf ← smooth lab (kernel_size ND) false
  let labfx ← smooth lab (kernel_size ND) true
  let lab5 ← resample5 labf
  let xyz5 := lab5.map cc.Lab_to_XYZ
  let white ← xyz5[51]?
  let black ← xyz5[0]?
  let p0 ← lab5[0]?
  let p1 ← lab5[1]?
  let p2 ← lab5[2]?
  let p3 ← lab5[3]?
  let p50 ← lab5[50]?
  let p51 ← lab5[51]?
  let intent := classify p0 p1 p2 p3 p50 p51
  pure { ND := ND, L_sRGB := L_sRGB, sRGB_xyz := sRGB_xyz, lab := lab, labf := labf,
         labfx := labfx, lab5 := lab5, intent := intent,
         L_projected := sRGB_xyz.map (fun s =>
           (cc.XYZ_to_Lab (projected_xyz intent black white s)).x0) }

/-- A neutral ramp entry with gray level `g` and lightness `l`. -/
def gray (g l : ℚ) : V6 := ⟨g, g, g, l, 0, 0⟩

/-- Conversions that leave every triple as it is, to run the constructor on examples. -/
def id_conversions : Conversions := ⟨id, id, id⟩

/-- A neutral ramp of 52 entries (gray levels 0, 5, ..., 255) whose lightness is 2.0 at
entry 0, 2.5 at entry 1, 2.1 at entry 2 and `i + 1` at every later entry `i`. -/
def ramp_dip : List V6 :=
  (List.range 52).map (fun (i : Nat) =>
    gray ((i : ℚ) * 5) (if i = 0 then 2 else if i = 1 then 5 / 2 else if i = 2 then 21 / 10
      else (i : ℚ) + 1))

/-- The lightness `L*` of entry `k` of a Lab ramp. -/
def Lstar (lab5 : List V3) (k : Nat) : ℚ := (lab5.getD k V3.zero).x0

/-- The RELBPC rule in the words of the specification: the black point `L*` is below 5 and
the rise from index 0 to 1 exceeds 0.3, or it is in [5, 10) and the rise from 0 to 2 exceeds
0.3, or it is at least 10 and the rise from 0 to 3 exceeds 0.3. -/
def relbpc_rule (lab5 : List V3) : Prop :=
  (Lstar lab5 0 < 5 ∧ Lstar lab5 1 - Lstar lab5 0 > 3 / 10) ∨
  (5 ≤ Lstar lab5 0 ∧ Lstar lab5 0 < 10 ∧ Lstar lab5 2 - Lstar lab5 0 > 3 / 10) ∨
  (10 ≤ Lstar lab5 0 ∧ Lstar lab5 3 - Lstar lab5 0 > 3 / 10)

/-- The REL rule in the words of the specification: the rise from index 50 to 51 exceeds
0.3. -/
def rel_rule (lab5 : List V3) : Prop := Lstar lab5 51 - Lstar lab5 50 > 3 / 10

/-! ## Further ramps and accessors for the constructor -/

/-- Failures of the measurement routines: the exceptions they throw, and accesses outside a
vector, for which the language defines no behaviour. -/
inductive ProcessError where
  /-- The text "patches must all be neutrals, ie(N,N,N)". -/
  | not_neutral
  /-- The text "Measurements are missing RGB(0,0,0)". -/
  | missing_black
  /-- The text "Measurements are missing RGB(255,255,255)". -/
  | missing_white
  /-- The text "Patch file must be evenly spaced neutrals". -/
  | uneven_spacing
  /-- The text "B&W Must be either 52 or 256 evenly spaced RGB values from 0:255". -/
  | bad_ramp_length
  /-- The text "Illegal first argument." -/
  | illegal_count
  /-- An access outside a vector. -/
  | undefined_access
deriving DecidableEq, Repr

/-- The assignment `x[2] = x[1] = 0`. -/
def V3.zero_ab (x : V3) : V3 := ⟨x.x0, 0, 0⟩

/-- The type `V6` value-initialised. -/
def V6.zero : V6 := ⟨0, 0, 0, 0, 0, 0⟩

/-- The element `v[i]` of a vector of `V3`. -/
def at3 (v : List V3) (i : Nat) : Except ProcessError V3 :=
  match v[i]? with
  | some x => .ok x
  | none => .error .undefined_access

/-- The copy `labfq` of `labf` that `get_dE00_split` works on. -/
def labfq (pf : PatchFilter) (zero_ab : Bool) : List V3 :=
  if zero_ab then pf.labf.map V3.zero_ab else pf.labf

/-- Body of the loop of `get_dE00_split`:
`deltaE2000((labfq[i - spread] + labfq[i + spread]) * .5, labfq[i])`. -/
def dE00_split_step (deltaE2000 : V3 → V3 → ℚ) (q : List V3) (spread i : Nat) :
    Except ProcessError ℚ := do
  let a ← at3 q (i - spread)
  let b ← at3 q (i + spread)
  let c ← at3 q i
  pure (deltaE2000 (V3.smul (1 / 2) (V3.add a b)) c)

/-- The member function `PatchFilter::get_dE00_split(spread, zero_ab)`; `deltaE2000` belongs
to `color_conversions.h` and is a parameter.  The loop runs `i` from `spread` up to
`lab.size() - spread`, excluded. -/
def get_dE00_split (deltaE2000 : V3 → V3 → ℚ) (pf : PatchFilter) (spread : Nat)
    (zero_ab : Bool) : Except ProcessError (List ℚ) :=
  if pf.lab.length ≠ 52 ∧ pf.lab.length ≠ 256 then .error .bad_ramp_length
  else
    let spread := if pf.lab.length = 52 then spread / 5 else spread
    (List.range' spread (pf.lab.length - spread - spread)).mapM
      (dE00_split_step deltaE2000 (labfq pf zero_ab) spread)

/-- The member function `PatchFilter::get_rgblab5(zero_ab)`: one entry per entry of `labf`,
with the gray level `i * ND`. -/
def get_rgblab5 (pf : PatchFilter) (zero_ab : Bool) : List V6 :=
  (List.range pf.labf.length).map (fun (i : Nat) =>
    let i_d : ℚ := (((i : Int) * pf.ND : Int) : ℚ)
    let x := pf.labf.getD i V3.zero
    if zero_ab then (⟨i_d, i_d, i_d, x.x0, 0, 0⟩ : V6)
    else ⟨i_d, i_d, i_d, x.x0, x.x1, x.x2⟩)

/-- A neutral ramp of 256 entries (gray levels 0, 1, ..., 255) with lightness `i / 3` at
entry `i`. -/
def ramp256 : List V6 :=
  (List.range 256).map (fun (i : Nat) => gray (i : ℚ) ((i : ℚ) / 3))

/-- A colour difference to run examples with: the distance of the two lightness values. -/
def abs_dL (a b : V3) : ℚ := |a.x0 - b.x0|

/-! ## The percentile tables (`Create_CGATS_for_ABW_Routines.cpp`, lines 219-227) -/

/-- The member `LabStats::percents`. -/
def percents : List ℚ := [50, 75, 90, 95, 98, 100]

/-- The cast `(int)` of a `double`: truncation toward zero. -/
def trunc_int (x : ℚ) : Int := if 0 ≤ x then ⌊x⌋ else ⌈x⌉

/-- The call `sort(dE.begin(), dE.end())`: the values in ascending order. -/
def sort_asc (l : List ℚ) : List ℚ := l.insertionSort (fun a b => a ≤ b)

/-! ### Arithmetic in `double` for the index of line 223 -/

/-- Search for the position of the highest set bit of `n`, with a bound on the number of
halvings. -/
def log2_loop : Nat → Nat → Nat
  | 0, _ => 0
  | fuel + 1, n => if 2 ≤ n then log2_loop fuel (n / 2) + 1 else 0

/-- The position of the highest set bit of `n`: the `e` with `2^e <= n < 2^(e+1)`. -/
def log2_floor (n : Nat) : Nat := log2_loop n n

/-- The power `2^e` for an integer exponent `e`. -/
def pow2 (e : Int) : ℚ := if 0 ≤ e then (2 : ℚ) ^ e.toNat else 1 / (2 : ℚ) ^ (-e).toNat

/-- The binary exponent of a positive rational `x`: the `e` with `2^e <= x < 2^(e+1)`. -/
def binade (x : ℚ) : Int :=
  let e0 : Int := (log2_floor x.num.natAbs : Int) - (log2_floor x.den : Int)
  if x < pow2 e0 then e0 - 1 else e0

/-- Rounding of a rational to an integer: to the nearest, a tie to the even one. -/
def round_even (m : ℚ) : Int :=
  if m - (⌊m⌋ : ℚ) < 1 / 2 then ⌊m⌋
  else if 1 / 2 < m - (⌊m⌋ : ℚ) then ⌊m⌋ + 1
  else if ⌊m⌋ % 2 = 0 then ⌊m⌋ else ⌊m⌋ + 1

/-- The `double` (IEEE 754 binary64: 53 significant bits, rounding to nearest, ties to even)
that a real value is rounded to, as a rational.  Overflow and subnormal numbers are left
out: the values rounded here lie between `2^-7` and `2^40`. -/
def to_double (x : ℚ) : ℚ :=
  if x = 0 then 0
  else if 0 < x then (round_even (x / pow2 (binade x - 52)) : ℚ) * pow2 (binade x - 52)
  else -((round_even (-x / pow2 (binade (-x) - 52)) : ℚ) * pow2 (binade (-x) - 52))

/-- The cast `(int)` of a `double`: truncation toward zero, defined only when the truncated
value is an `int` (32 bits). -/
def int_of_double (x : ℚ) : Option Int :=
  if -(2 : ℚ) ^ 31 - 1 < x ∧ x < (2 : ℚ) ^ 31 then some (trunc_int x) else none

/-! ### The index and the table -/

/-- The expression `(int)((.01 * dE.size() * ret.percents[i]) + .5) - 1`, evaluated in
`double` from left to right: the constant `.01` and the size are converted to `double`, and
each of the two products and the sum is rounded to `double` (no fused multiply-add, no
extended precision); `p` is the `double` `ret.percents[i]`, and `.5` is a `double` as it
stands.  The result is `none` when the cast is undefined. -/
def percent_loc (size : Nat) (p : ℚ) : Option Int :=
  (int_of_double
    (to_double (to_double (to_double (to_double (1 / 100) * to_double (size : ℚ)) * p)
      + 1 / 2))).map (fun loc => loc - 1)

/-- The element `dE[loc]` for an `int` index. -/
def at_int (dE : List ℚ) (loc : Int) : Option ℚ :=
  if 0 ≤ loc then dE[loc.toNat]? else none

/-- The lambda `fill_percents(dE, percent)`: one entry per percent level. -/
def fill_percents (dE : List ℚ) : Option (List ℚ) :=
  percents.mapM (fun p =>
    (percent_loc (sort_asc dE).length p).bind (fun loc => at_int (sort_asc dE) loc))

/-! ## Synthesis of colour patches (`PatchFilter.cpp`, lines 242-258, and `Create_CGATS_for_ABW_Routines.cpp`, lines 277-315) -/

/-- The difference of two `V3` (`operator-`). -/
def V3.sub (a b : V3) : V3 := ⟨a.x0 - b.x0, a.x1 - b.x1, a.x2 - b.x2⟩

/-- The function `find_lab_interpolation(v, x)`.  The iterator `low` is the one before the
first entry with `arg[0] >= x` (before `end()` when there is none); `low[0]` and `low[1]` are
dereferenced.  A zero `deltaR` gives a non-finite `double`, which has no rational value:
`none` as well. -/
def find_lab_interpolation (v : List V6) (x : Int) : Option V3 :=
  if x = 0 then (v[0]?).map V6.lab
  else
    let k := v.findIdx (fun arg => decide (arg.x0 ≥ (x : ℚ)))
    if k = 0 then none
    else do
      let low0 ← v[k - 1]?
      let low1 ← v[k]?
      let deltaLab := V3.sub low1.lab low0.lab
      let deltaR := low1.x0 - low0.x0
      if deltaR = 0 then none
      else
        let deltaLAdj := V3.smul (((x : ℚ) - low0.x0) / deltaR) deltaLab
        pure (V3.add low0.lab deltaLAdj)

/-- The index triples `(i, ii, iii)` of the three nested loops of `make_rgb_synth`, in the
order in which the loops visit them. -/
def loop_triples : List (Nat × Nat × Nat) :=
  (List.range 6).flatMap (fun i => (List.range 6).flatMap (fun ii =>
    (List.range 6).map (fun iii => (i, ii, iii))))

/-- The test `i != ii || i != iii` of `make_rgb_synth`. -/
def not_neutral (t : Nat × Nat × Nat) : Bool := decide (t.1 ≠ t.2.1 ∨ t.1 ≠ t.2.2)

/-- The first loop of `make_rgb_synth`: `sRGB_Steps[i] = L_to_sG(lab_est[0])` with `lab_est`
interpolated at the gray level `i * 51`; `L_to_sG` belongs to `color_conversions.h` and is a
parameter. -/
def sRGB_Steps (L_to_sG : ℚ → ℚ) (rgblab : List V6) : Option (List ℚ) :=
  (List.range 6).mapM (fun (i : Nat) =>
    (find_lab_interpolation rgblab ((i : Int) * 51)).map (fun lab_est => L_to_sG lab_est.x0))

/-- The entry that `make_rgb_synth` synthesizes for the index triple `t`.  In the tint
variant `near` is the first entry of `rgblab_bw` with `x[3] > lab[0]`, and it is
dereferenced. -/
def synth_entry (cc : Conversions) (rgblab_bw : List V6) (steps : List ℚ) (color : Bool)
    (t : Nat × Nat × Nat) : Option V6 := do
  let s0 ← steps[t.1]?
  let s1 ← steps[t.2.1]?
  let s2 ← steps[t.2.2]?
  let lab := cc.sRGB_to_Lab ⟨s0, s1, s2⟩
  if color then do
    let near ← rgblab_bw.find? (fun x => decide (x.x3 > lab.x0))
    pure ⟨(t.1 : ℚ) * 51, (t.2.1 : ℚ) * 51, (t.2.2 : ℚ) * 51, lab.x0, lab.x1 + near.lab.x1,
      lab.x2 + near.lab.x2⟩
  else
    pure ⟨(t.1 : ℚ) * 51, (t.2.1 : ℚ) * 51, (t.2.2 : ℚ) * 51, lab.x0, lab.x1, lab.x2⟩

/-- Body of the innermost loop of `make_rgb_synth` on the state `(rgblab, index)`. -/
def synth_step (cc : Conversions) (rgblab_bw : List V6) (steps : List ℚ) (color : Bool)
    (st : List V6 × Nat) (t : Nat × Nat × Nat) : Option (List V6 × Nat) :=
  if not_neutral t then do
    let entry ← synth_entry cc rgblab_bw steps color t
    if st.2 < st.1.length then some (st.1.set st.2 entry, st.2 + 1) else none
  else some st

/-- The function `make_rgb_synth(pf, color)`. -/
def make_rgb_synth (cc : Conversions) (L_to_sG : ℚ → ℚ) (pf : PatchFilter) (color : Bool) :
    Option (List V6) := do
  let rgblab_bw := get_rgblab5 pf (!color)
  let index := rgblab_bw.length
  let rgblab := rgblab_bw ++ List.replicate (6 * 6 * 6 - 6) V6.zero
  let steps ← sRGB_Steps L_to_sG rgblab
  let st ← loop_triples.foldlM (synth_step cc rgblab_bw steps color) (rgblab, index)
  pure st.1

/-- Conversions to run examples with: the lightness of an RGB triple is the mean of its
components. -/
def mean_conversions : Conversions :=
  ⟨fun v => ⟨(v.x0 + v.x1 + v.x2) / 3, v.x1 - v.x0, v.x2 - v.x0⟩, id, id⟩

/-- A ramp of 52 entries with lightness `2 i` and chroma `a* = i`, `b* = -i` at entry `i`. -/
def ramp_tint : List V6 :=
  (List.range 52).map (fun (i : Nat) =>
    (⟨(i : ℚ) * 5, (i : ℚ) * 5, (i : ℚ) * 5, 2 * (i : ℚ), (i : ℚ), -(i : ℚ)⟩ : V6))

/-- The lexicographic order on the loop counters `(i, ii, iii)`. -/
def lex_lt (a b : Nat × Nat × Nat) : Prop :=
  a.1 < b.1 ∨ (a.1 = b.1 ∧ (a.2.1 < b.2.1 ∨ (a.2.1 = b.2.1 ∧ a.2.2 < b.2.2)))

instance (a b : Nat × Nat × Nat) : Decidable (lex_lt a b) := by
  unfold lex_lt
  infer_instance

/-- The distance of two lightness values. -/
def dist_L (a b : ℚ) : ℚ := if a ≤ b then b - a else a - b

/-- The Lab value that `make_rgb_synth` computes for the loop counters `t`:
`sRGB_to_Lab(V3(sRGB_Steps[i], sRGB_Steps[ii], sRGB_Steps[iii]))`. -/
def synth_lab (cc : Conversions) (steps : List ℚ) (t : Nat × Nat × Nat) : V3 :=
  cc.sRGB_to_Lab ⟨steps.getD t.1 0, steps.getD t.2.1 0, steps.getD t.2.2 0⟩

/-! ## The patch request file (`Create_CGATS_for_ABW_Routines.cpp`, lines 253-274) -/

/-- Body of the outer loop of `make_RGB_for_ABW` for the gray level `i`: with
`randomize_and_repeat > 1` the inner loop pushes `V3{i, i, i}` once for every `ii` from 0 up
to `randomize_and_repeat`, excluded; otherwise it is pushed once. -/
def push_neut (randomize_and_repeat : Int) (neut : List V3) (i : ℚ) : List V3 :=
  if randomize_and_repeat > 1 then
    (List.range randomize_and_repeat.toNat).foldl (fun acc _ => acc ++ [(⟨i, i, i⟩ : V3)]) neut
  else neut ++ [⟨i, i, i⟩]

/-- The outer loop `for (double i = 0; i <= 255; i += count == 52 ? 5 : 1)` of
`make_RGB_for_ABW`, started at `i` with the vector `neut`, with a bound on the number of
iterations: `none` when the bound is reached before the loop ends. -/
def neut_loop (count randomize_and_repeat : Int) : Nat → ℚ → List V3 → Option (List V3)
  | 0, _, _ => none
  | fuel + 1, i, neut =>
    if i ≤ 255 then
      neut_loop count randomize_and_repeat fuel (i + (if count = 52 then 5 else 1))
        (push_neut randomize_and_repeat neut i)
    else some neut

/-- The function `make_RGB_for_ABW(filename, count, randomize_and_repeat)`: the exception it
throws, or the file name and the patches it passes to `write_cgats_rgb`.  The permutation
that `std::shuffle` applies with the generator `std::mt19937()` is a parameter.  The outer
`none` stands for a loop that has not ended within the bound of 1000 iterations. -/
def make_RGB_for_ABW (shuffle : List V3 → List V3) (filename : String) (count : Int)
    (randomize_and_repeat : Int) : Option (Except ProcessError (String × List V3)) :=
  if count ≠ 52 ∧ count ≠ 256 then some (.error .illegal_count)
  else
    (neut_loop count randomize_and_repeat 1000 0 []).map (fun neut =>
      if randomize_and_repeat > 0 then
        .ok ("Repeat_" ++ toString randomize_and_repeat ++ "x_" ++ filename, shuffle neut)
      else .ok (filename, neut))

/-- The gray levels that `make_RGB_for_ABW` generates for `count`: `count` levels spaced by 5
for 52 and by 1 otherwise. -/
def gray_levels (count : Int) : List ℚ :=
  (List.range count.toNat).map (fun (k : Nat) => (k : ℚ) * (if count = 52 then 5 else 1))

/-- The number of patches of each gray level: `max(1, randomize_and_repeat)`. -/
def repeat_factor (randomize_and_repeat : Int) : Nat := (max 1 randomize_and_repeat).toNat

/-! ## The measurement file (`Create_CGATS_for_ABW_Routines.cpp`, lines 63-87 and 166-250) -/

/-- Modelled from the spec: the running-statistics accumulator of one Lab channel, as far as
it is read here: the sample count `n()` and the standard deviation `std()`. -/
structure Statistics where
  n : Nat
  std : ℚ
deriving DecidableEq

/-- Modelled from the spec: a `DuplicateStats` is the averaged patch `rgb_lab` and, for each
of the three Lab channels, an accumulator (`lab[0]`, `lab[1]`, `lab[2]`). -/
structure DuplicateStats where
  rgb_lab : V6
  lab0 : Statistics
  lab1 : Statistics
  lab2 : Statistics
deriving DecidableEq

/-- The structure `LabStats`. -/
structure LabStats where
  rgblab_neutral : List V6
  rgblab_tint : List V6
  distributionp_ab0_15 : List ℚ
  distributionp_ab0_5 : List ℚ
  distributionp_15 : List ℚ
  distributionp_5 : List ℚ
  distributionp_std_L : List ℚ
  distributionp_std_a : List ℚ
  distributionp_std_b : List ℚ
  white_point : V3
  black_point : V3
  lab_average : V3
  repeats : Int
  lab : List V3
  rgb : List ℚ
  patch_filter : PatchFilter

/-- The sum of two `V6` (`operator+`). -/
def V6.add (a b : V6) : V6 :=
  ⟨a.x0 + b.x0, a.x1 + b.x1, a.x2 + b.x2, a.x3 + b.x3, a.x4 + b.x4, a.x5 + b.x5⟩

/-- The difference of two `V6` (`operator-`). -/
def V6.sub (a b : V6) : V6 :=
  ⟨a.x0 - b.x0, a.x1 - b.x1, a.x2 - b.x2, a.x3 - b.x3, a.x4 - b.x4, a.x5 - b.x5⟩

/-- The product of a scalar and a `V6` (`operator*`). -/
def V6.smul (c : ℚ) (a : V6) : V6 :=
  ⟨c * a.x0, c * a.x1, c * a.x2, c * a.x3, c * a.x4, c * a.x5⟩

/-- The function `round` on a `V6`: only the first three entries are rounded,
`a[i] = T(int(a[i] + .5))`. -/
def round6 (a : V6) : V6 :=
  ⟨(trunc_int (a.x0 + 1 / 2) : ℚ), (trunc_int (a.x1 + 1 / 2) : ℚ),
    (trunc_int (a.x2 + 1 / 2) : ℚ), a.x3, a.x4, a.x5⟩

/-- The element `v[i]` of a vector of `V6`. -/
def at6 (v : List V6) (i : Nat) : Except ProcessError V6 :=
  match v[i]? with
  | some x => .ok x
  | none => .error .undefined_access

/-- A result that exists only when the behaviour is defined. -/
def defined {α : Type} (o : Option α) : Except ProcessError α :=
  match o with
  | some x => .ok x
  | none => .error .undefined_access

/-- Modelled from the spec: the helper `validate(condition, message)` makes the call fail
with the message when the condition does not hold. -/
def validate (condition : Bool) (message : ProcessError) : Except ProcessError Unit :=
  if condition then .ok () else .error message

/-- The library function `fmod(x, y)`: `x` minus `y` times the quotient truncated toward
zero; not a number (`none`) when `y` is zero. -/
def fmod (x y : ℚ) : Option ℚ :=
  if y = 0 then none else some (x - y * (trunc_int (x / y) : ℚ))

/-- Body of the interpolation loop of `process_cgats_measurement_file` for the index `i`,
on the vector `x` built so far. -/
def interpolate_step (rgb_lab : List V6) (n : Nat) (x : List V6) (i : Nat) :
    Except ProcessError (List V6) := do
  let cur ← at6 rgb_lab i
  let x := x ++ [cur]
  if i < n - 1 then do
    let next ← at6 rgb_lab (i + 1)
    if cur.x0 + 1 < next.x0 then
      let rgb_diff := trunc_int (next.x0 - cur.x0)
      let diff := V6.smul (1 / (rgb_diff : ℚ)) (V6.sub next cur)
      pure (x ++ (List.range' 1 (rgb_diff.toNat - 1)).map (fun (ii : Nat) =>
        round6 (V6.add cur (V6.smul (ii : ℚ) diff))))
    else pure x
  else pure x

/-- The test `x[0] != x[1] || x[0] != x[2] || fmod(x[0], 255/(n-1)) != 0.0` of
`process_cgats_measurement_file`; the division `255/(n-1)` is one of unsigned integers, and
a value that is not a number differs from `0.0`. -/
def spacing_fault (n : Nat) (x : V6) : Bool :=
  decide (x.x0 ≠ x.x1) || decide (x.x0 ≠ x.x2) ||
    decide (fmod x.x0 ((255 / (n - 1) : Nat) : ℚ) ≠ some 0)

/-- The first part of `process_cgats_measurement_file` (lines 166-203): the deduplicated
entries `rgb_lab2` and the ramp `rgb_lab` that has passed the checks.  The measurements
`vals` read from the file and the function `remove_duplicates` (of `cgats.h`) are
parameters.  The size `n` is the one of the ramp before the interpolation. -/
def neutral_ramp (remove_duplicates : List V6 → List DuplicateStats) (vals : List V6) :
    Except ProcessError (List DuplicateStats × List V6) := do
  let valsN := vals.filter (fun arg => decide (arg.x0 = arg.x1 ∧ arg.x0 = arg.x2))
  validate (decide (valsN.length = vals.length)) .not_neutral
  let rgb_lab2 := remove_duplicates valsN
  let rgb_lab := rgb_lab2.map DuplicateStats.rgb_lab
  let first ← at6 rgb_lab 0
  validate (decide (first.x0 = 0)) .missing_black
  let last ← at6 rgb_lab (rgb_lab.length - 1)
  validate (decide (last.x0 = 255)) .missing_white
  let n := rgb_lab.length
  let rgb_lab ←
    if n ≠ 52 ∧ n ≠ 256 then (List.range n).foldlM (interpolate_step rgb_lab n) []
    else pure rgb_lab
  if n - 1 = 0 then .error .undefined_access
  else if rgb_lab.any (spacing_fault n) then .error .uneven_spacing
  else pure (rgb_lab2, rgb_lab)

/-- The loop that accumulates `lab_average`. -/
def lab_average (rgb_lab : List V6) : V3 :=
  rgb_lab.foldl (fun (acc : V3) (x : V6) =>
    (⟨acc.x0 + x.x3 / (rgb_lab.length : ℚ), acc.x1 + x.x4 / (rgb_lab.length : ℚ),
      acc.x2 + x.x5 / (rgb_lab.length : ℚ)⟩ : V3)) V3.zero

/-- The three tables of the spreads (lines 233-247): filled when every deduplicated entry
has at least two samples, left empty otherwise. -/
def fill_std (rgb_lab2 : List DuplicateStats) :
    Except ProcessError (List ℚ × List ℚ × List ℚ) :=
  if rgb_lab2.all (fun x => decide (x.lab0.n ≥ 2)) then do
    let std_L ← defined (fill_percents (rgb_lab2.map (fun x => x.lab0.std)))
    let std_a ← defined (fill_percents (rgb_lab2.map (fun x => x.lab1.std)))
    let std_b ← defined (fill_percents (rgb_lab2.map (fun x => x.lab2.std)))
    pure (std_L, std_a, std_b)
  else pure ([], [], [])

/-- One of the four calls `fill_percents(pf.get_dE00_split(spread, zero_ab), ret.percents)`. -/
def fill_dE (deltaE2000 : V3 → V3 → ℚ) (pf : PatchFilter) (spread : Nat) (zero_ab : Bool) :
    Except ProcessError (List ℚ) := do
  let dE ← get_dE00_split deltaE2000 pf spread zero_ab
  defined (fill_percents dE)

/-- The second part of `process_cgats_measurement_file` (lines 205-249), from the ramp that
has passed the checks. -/
def fill_stats (cc : Conversions) (L_to_sG : ℚ → ℚ) (deltaE2000 : V3 → V3 → ℚ)
    (rgb_lab2 : List DuplicateStats) (rgb_lab : List V6) : Except ProcessError LabStats := do
  let pb ← at6 rgb_lab 0
  let pw ← at6 rgb_lab (rgb_lab.length - 1)
  let pf ← defined (PatchFilter.construct cc rgb_lab)
  let rgblab_neutral ← defined (make_rgb_synth cc L_to_sG pf false)
  let rgblab_tint ← defined (make_rgb_synth cc L_to_sG pf true)
  let distributionp_5 ← fill_dE deltaE2000 pf 5 false
  let distributionp_15 ← fill_dE deltaE2000 pf 15 false
  let distributionp_ab0_5 ← fill_dE deltaE2000 pf 5 true
  let distributionp_ab0_15 ← fill_dE deltaE2000 pf 15 true
  let first ← defined rgb_lab2[0]?
  let std ← fill_std rgb_lab2
  pure { rgblab_neutral := rgblab_neutral, rgblab_tint := rgblab_tint,
         distributionp_ab0_15 := distributionp_ab0_15,
         distributionp_ab0_5 := distributionp_ab0_5,
         distributionp_15 := distributionp_15, distributionp_5 := distributionp_5,
         distributionp_std_L := std.1, distributionp_std_a := std.2.1,
         distributionp_std_b := std.2.2,
         white_point := pw.lab, black_point := pb.lab, lab_average := lab_average rgb_lab,
         repeats := (first.lab0.n : Int), lab := [], rgb := [], patch_filter := pf }

/-- The function `process_cgats_measurement_file(filename)`, on the measurements `vals` that
`read_cgats_rgblab(filename)` returns; the functions of `color_conversions.h` and `cgats.h` are
parameters. -/
def process_cgats_measurement_file (cc : Conversions) (L_to_sG : ℚ → ℚ)
    (deltaE2000 : V3 → V3 → ℚ) (remove_duplicates : List V6 → List DuplicateStats)
    (vals : List V6) : Except ProcessError LabStats := do
  let ramp ← neutral_ramp remove_duplicates vals
  fill_stats cc L_to_sG deltaE2000 ramp.1 ramp.2

/-- An aggregation to run examples with, for measurements given in ascending order of the
gray level, `k` in a row for each level: one entry for each group of `k`, with the mean of
the group and the sample count `k`; the spread reported is the largest distance from the
mean. -/
def group_stats (k : Nat) (vals : List V6) : List DuplicateStats :=
  (List.range (vals.length / k)).map (fun (g : Nat) =>
    let grp := (vals.drop (g * k)).take k
    let mean : V6 := V6.smul (1 / (k : ℚ)) (grp.foldl V6.add V6.zero)
    let spread := fun (f : V6 → ℚ) => (grp.map (fun x => |f x - f mean|)).foldl max 0
    (⟨mean, ⟨k, spread V6.x3⟩, ⟨k, spread V6.x4⟩, ⟨k, spread V6.x5⟩⟩ : DuplicateStats))

/-- Measurements of six gray levels 0, 51, ..., 255, one each. -/
def ramp6 : List V6 :=
  (List.range 6).map (fun (i : Nat) => gray ((i : ℚ) * 51) ((i : ℚ) * 20))

/-- Measurements of the 52 gray levels of `ramp_tint`, three for each level, that differ in
lightness by one half. -/
def ramp_tint3 : List V6 :=
  ramp_tint.flatMap (fun x =>
    [(⟨x.x0, x.x1, x.x2, x.x3 - 1 / 2, x.x4, x.x5⟩ : V6), x,
      ⟨x.x0, x.x1, x.x2, x.x3 + 1 / 2, x.x4, x.x5⟩])

/-- The ramp `rgb_lab` of `process_cgats_measurement_file` before the checks (lines 170-178):
the averaged patches of the deduplicated neutral measurements. -/
def dedup_ramp (remove_duplicates : List V6 → List DuplicateStats) (vals : List V6) : List V6 :=
  (remove_duplicates
    (vals.filter (fun arg => decide (arg.x0 = arg.x1 ∧ arg.x0 = arg.x2)))).map
    DuplicateStats.rgb_lab

/-- Measurements of 52 gray levels, one each, that are 0, 5, ..., 255 except for the level
51 in place of 50. -/
def ramp_off : List V6 :=
  (List.range 52).map (fun (i : Nat) =>
    gray (if i = 10 then 51 else (i : ℚ) * 5) (2 * (i : ℚ)))

/-! ## The positions that `smooth` assigns (`PatchFilter.cpp`, lines 66-74) -/

/-- The positions of `ret` that one pass of the channel loop of `smooth` assigns, in the
order of the assignments: `i + n / 2` for every `i` of the first inner loop, then `i - 1` and
`ret1.size() - i` for every `i` of the second. -/
def smooth_writes (N n : Nat) : List Nat :=
  (List.range (N + 1 - n)).map (fun i => i + n / 2) ++
    (List.range' 1 (n / 2)).flatMap (fun i => [i - 1, N - i])

/-- A sequence of five Lab values to run `smooth` on. -/
def five_labs : List V3 :=
  [⟨10, 1, -1⟩, ⟨30, 0, 2⟩, ⟨20, -3, 0⟩, ⟨60, 4, 4⟩, ⟨100, 0, -5⟩]

/-! ## The layout of the tag directory (`Create_CGATS_for_ABW_Routines.cpp`, lines 378-415) -/

/-- The big-endian value of the four bytes `b0 b1 b2 b3`. -/
def be32 (b0 b1 b2 b3 : Nat) : Nat := b0 * 2 ^ 24 + b1 * 2 ^ 16 + b2 * 2 ^ 8 + b3

/-- The byte at position `p` of a buffer as an unsigned value, `(uint8_t)pc[p]`. -/
def byte_at (pc : Buffer) (p : Nat) : Nat := pc.getD p 0 % 256

/-- The big-endian 32-bit integer at the bytes `p .. p+3` of a buffer. -/
def be32_at (pc : Buffer) (p : Nat) : Nat :=
  be32 (byte_at pc p) (byte_at pc (p + 1)) (byte_at pc (p + 2)) (byte_at pc (p + 3))

/-- The entry count of the directory: the big-endian integer at the bytes 128..131. -/
def dir_count (pc : Buffer) : Nat := be32_at pc 128

/-- Entry `i` of the directory: the 12 bytes at `132 + 12 i`, made of a 4-byte id, a
big-endian offset and a big-endian length. -/
def dir_entry (pc : Buffer) (i : Nat) : Tags :=
  ⟨[pc.getD (132 + 12 * i) 0, pc.getD (132 + 12 * i + 1) 0, pc.getD (132 + 12 * i + 2) 0,
      pc.getD (132 + 12 * i + 3) 0],
    be32_at pc (132 + 12 * i + 4), be32_at pc (132 + 12 * i + 8)⟩

/-! ## Examples for the interpolation -/

/-- A ramp of two entries with the gray levels 0 and 10 and the same Lab value. -/
def flat_pair : List V6 := [gray 0 50, gray 10 50]

/-- A ramp of three entries with the gray levels 0, 10, 20 and the lightness 0, 30, 40. -/
def three_levels : List V6 := [gray 0 0, gray 10 30, gray 20 40]

/-! ## The table of `print_stats` (`Create_CGATS_for_ABW_Routines.cpp`, lines 334-351) -/

/-- The element `v[i]` of a vector of `double`. -/
def atq (v : List ℚ) (i : Nat) : Except ProcessError ℚ :=
  match v[i]? with
  | some x => .ok x
  | none => .error .undefined_access

/-- Body of the loop of `print_stats` over the percent levels: the values passed to `printf`
for the level `i`, eight when `repeats >= 2` and five otherwise. -/
def print_stats_row (stats : LabStats) (i : Nat) : Except ProcessError (List ℚ) := do
  let p ← atq percents i
  let d5 ← atq stats.distributionp_5 i
  let d15 ← atq stats.distributionp_15 i
  let ab0_5 ← atq stats.distributionp_ab0_5 i
  let ab0_15 ← atq stats.distributionp_ab0_15 i
  if stats.repeats ≥ 2 then do
    let std_L ← atq stats.distributionp_std_L i
    let std_a ← atq stats.distributionp_std_a i
    let std_b ← atq stats.distributionp_std_b i
    pure [p, d5, d15, ab0_5, ab0_15, std_L, std_a, std_b]
  else pure [p, d5, d15, ab0_5, ab0_15]

/-- The loop of `print_stats` over the percent levels: the rows it prints. -/
def print_stats_table (stats : LabStats) : Except ProcessError (List (List ℚ)) :=
  (List.range percents.length).mapM (print_stats_row stats)

/-- Modelled from the spec: the aggregation of the measurements that share a gray level, one
entry for each distinct level in ascending order, with the mean of its measurements and
their count; in place of the standard deviation, which need not be rational, the spread
reported is the largest distance from the mean. -/
def level_stats (vals : List V6) : List DuplicateStats :=
  ((sort_asc (vals.map V6.x0)).dedup).map (fun g =>
    let grp := vals.filter (fun x => decide (x.x0 = g))
    let mean : V6 := V6.smul (1 / (grp.length : ℚ)) (grp.foldl V6.add V6.zero)
    let spread := fun (f : V6 → ℚ) => (grp.map (fun x => |f x - f mean|)).foldl max 0
    (⟨mean, ⟨grp.length, spread V6.x3⟩, ⟨grp.length, spread V6.x4⟩,
      ⟨grp.length, spread V6.x5⟩⟩ : DuplicateStats))

/-- Measurements of the 52 gray levels of `ramp_tint`, one for each level except for the
level 0, which is measured twice. -/
def ramp_first_twice : List V6 := V6.zero :: ramp_tint

/-! ## Theorems: binary tag patcher -/

theorem map_at_eq_error (m : TagMap) (id : List Nat) (e : PatchError) (t : Tags) :
    map_at m id ≠ .error .different_sizes ∧ map_at m id ≠ .error .undefined_access ∧
    (map_at m id = .ok t → t ∈ m ∧ t.id = id) ∧
    (map_at m id = .error e → e = .out_of_range ∧ ¬ has_tag m id) := by
  unfold map_at
  cases h : m.find? (fun t => decide (t.id = id)) with
  | none =>
    simp only [List.find?_eq_none, decide_eq_true_eq] at h
    refine ⟨by simp, by simp, by simp, ?_⟩
    intro he
    refine ⟨by simpa using he.symm, ?_⟩
    rintro ⟨t, ht, hid⟩
    exact h t ht hid
  | some x =>
    refine ⟨by simp, by simp, ?_, by simp⟩
    intro hx
    have hx2 : x = t := by simpa using hx
    subst hx2
    have h1 := List.mem_of_find?_eq_some h
    have h2 := List.find?_some h
    exact ⟨h1, by simpa using h2⟩

theorem map_at_ok_of_has_tag (m : TagMap) (id : List Nat) (h : has_tag m id) :
    ∃ t, map_at m id = .ok t := by
  cases hm : map_at m id with
  | ok t => exact ⟨t, rfl⟩
  | error e => exact absurd h ((map_at_eq_error m id e ⟨[], 0, 0⟩).2.2.2 hm).2

theorem has_tag_of_map_at (m : TagMap) (id : List Nat) (t : Tags) (h : map_at m id = .ok t) :
    has_tag m id :=
  ⟨t, (map_at_eq_error m id .out_of_range t).2.2.1 h⟩

theorem info_of_tags (pc : Buffer) (tags : TagMap) (a w : Tags)
    (h : get_tags pc = .ok tags) (ha : map_at tags id_A2B1 = .ok a)
    (hw : map_at tags id_wtpt = .ok w) :
    get_WP_and_A2B1_info pc = .ok ⟨w.offset, w.size, a.offset, a.size⟩ := by
  simp only [get_WP_and_A2B1_info, h, ha, hw, bind, Except.bind, pure, Except.pure]

theorem std_copy_ok (src : Buffer) (first n : Nat) (dst : Buffer) (d : Nat)
    (hs : first + n ≤ src.length) (hd : d + n ≤ dst.length) :
    ∃ P, std_copy src first n dst d = .ok P ∧ P.length = dst.length ∧
      ∀ i, P[i]? = if d ≤ i ∧ i < d + n then src[first + (i - d)]? else dst[i]? := by
  refine ⟨dst.take d ++ ((src.drop first).take n ++ dst.drop (d + n)),
    by simp [std_copy, hs, hd], ?_, ?_⟩
  · simp only [List.length_append, List.length_take, List.length_drop]
    omega
  · intro i
    by_cases h1 : i < d
    · have : ¬ (d ≤ i ∧ i < d + n) := by omega
      rw [if_neg this, List.getElem?_append_left (by simp; omega), List.getElem?_take_of_lt h1]
    · by_cases h2 : i < d + n
      · have : d ≤ i ∧ i < d + n := by omega
        rw [if_pos this, List.getElem?_append_right (by simp; omega)]
        have hl : (List.take d dst).length = d := by simp; omega
        rw [hl, List.getElem?_append_left (by simp; omega),
          List.getElem?_take_of_lt (by omega), List.getElem?_drop]
      · have : ¬ (d ≤ i ∧ i < d + n) := by omega
        rw [if_neg this, List.getElem?_append_right (by simp; omega)]
        have hl : (List.take d dst).length = d := by simp; omega
        rw [hl, List.getElem?_append_right (by simp; omega)]
        have hl2 : (List.take n (List.drop first src)).length = n := by simp; omega
        rw [hl2, List.getElem?_drop]
        congr 1
        omega

theorem replace_of_info (D S : Buffer) (i1 i2 : WPandA2B1)
    (h1 : get_WP_and_A2B1_info D = .ok i1) (h2 : get_WP_and_A2B1_info S = .ok i2) :
    replace_icc1_A2B1_with_icc2_A2B1 D S =
      if i1.atob1_size ≠ i2.atob1_size then .error .different_sizes
      else (std_copy S i2.atob1_offset i2.atob1_size D i1.atob1_offset).bind
        (fun b => std_copy S i2.wp_offset i2.wp_size b i1.wp_offset) := by
  unfold replace_icc1_A2B1_with_icc2_A2B1
  simp only [h1, h2, bind, Except.bind, pure, Except.pure]
  split
  · rfl
  · cases std_copy S i2.atob1_offset i2.atob1_size D i1.atob1_offset with
    | error e => rfl
    | ok b =>
      simp only []
      cases std_copy S i2.wp_offset i2.wp_size b i1.wp_offset <;> rfl

/-- C1: when the destination `D` and the source `S` have the same tag directory, which holds
A2B1 (entry `a`) and wtpt (entry `w`), and both tag ranges lie inside both buffers, the buffer
`P` that `replace_icc1_A2B1_with_icc2_A2B1` writes back has the length of `D`, equals `S` on
every byte of the A2B1 range and of the wtpt range, and equals `D` on every other byte.  (That
the ranges do not overlap each other or the directory is not needed.) -/
theorem replace_same_directory (D S : Buffer) (tags : TagMap) (a w : Tags)
    (hD : get_tags D = .ok tags) (hS : get_tags S = .ok tags)
    (ha : map_at tags id_A2B1 = .ok a) (hw : map_at tags id_wtpt = .ok w)
    (haD : a.offset + a.size ≤ D.length) (haS : a.offset + a.size ≤ S.length)
    (hwD : w.offset + w.size ≤ D.length) (hwS : w.offset + w.size ≤ S.length) :
    ∃ P, replace_icc1_A2B1_with_icc2_A2B1 D S = .ok P ∧ P.length = D.length ∧
      ∀ i, i < D.length →
        P[i]? = if (a.offset ≤ i ∧ i < a.offset + a.size) ∨ (w.offset ≤ i ∧ i < w.offset + w.size)
                then S[i]? else D[i]? := by
  rw [replace_of_info D S _ _ (info_of_tags D tags a w hD ha hw)
    (info_of_tags S tags a w hS ha hw)]
  obtain ⟨P1, hP1, hl1, hg1⟩ := std_copy_ok S a.offset a.size D a.offset haS haD
  obtain ⟨P2, hP2, hl2, hg2⟩ := std_copy_ok S w.offset w.size P1 w.offset hwS (by omega)
  refine ⟨P2, ?_, by omega, ?_⟩
  · simp only [ne_eq, not_true_eq_false, if_false, hP1, Except.bind, hP2]
  · intro i _
    rw [hg2 i, hg1 i]
    by_cases h1 : w.offset ≤ i ∧ i < w.offset + w.size
    · rw [if_pos h1, if_pos (Or.inr h1)]
      congr 1
      omega
    · rw [if_neg h1]
      by_cases h2 : a.offset ≤ i ∧ i < a.offset + a.size
      · rw [if_pos h2, if_pos (Or.inl h2)]
        congr 1
        omega
      · rw [if_neg h2, if_neg (by tauto)]

set_option maxRecDepth 100000 in
/-- Witness of C1: two profiles with the directory A2B1 at 156 (4 bytes), wtpt at 160
(4 bytes) and different payloads. -/
theorem replace_same_directory_witness :
    get_tags sample_dest = .ok [⟨id_A2B1, 156, 4⟩, ⟨id_wtpt, 160, 4⟩] ∧
    get_tags sample_source = .ok [⟨id_A2B1, 156, 4⟩, ⟨id_wtpt, 160, 4⟩] ∧
    ∃ P, replace_icc1_A2B1_with_icc2_A2B1 sample_dest sample_source = .ok P ∧
      P.length = sample_dest.length ∧
      ∀ i, i < sample_dest.length →
        P[i]? = if (156 ≤ i ∧ i < 156 + 4) ∨ (160 ≤ i ∧ i < 160 + 4)
                then sample_source[i]? else sample_dest[i]? :=
  ⟨by decide, by decide,
    replace_same_directory sample_dest sample_source
      [⟨id_A2B1, 156, 4⟩, ⟨id_wtpt, 160, 4⟩] ⟨id_A2B1, 156, 4⟩ ⟨id_wtpt, 160, 4⟩
      (by decide) (by decide) (by decide) (by decide) (by decide) (by decide) (by decide)
      (by decide)⟩

theorem info_error_of_missing (pc : Buffer) (tags : TagMap) (h : get_tags pc = .ok tags)
    (hm : ¬ has_tag tags id_A2B1 ∨ ¬ has_tag tags id_wtpt) :
    get_WP_and_A2B1_info pc = .error .out_of_range := by
  cases ha : map_at tags id_A2B1 with
  | error e =>
    have he := ((map_at_eq_error tags id_A2B1 e ⟨[], 0, 0⟩).2.2.2 ha).1
    subst he
    simp only [get_WP_and_A2B1_info, h, ha, bind, Except.bind]
  | ok a =>
    cases hw : map_at tags id_wtpt with
    | error e =>
      have he := ((map_at_eq_error tags id_wtpt e ⟨[], 0, 0⟩).2.2.2 hw).1
      subst he
      simp only [get_WP_and_A2B1_info, h, ha, hw, bind, Except.bind]
    | ok w =>
      rcases hm with hm | hm
      · exact absurd (has_tag_of_map_at tags id_A2B1 a ha) hm
      · exact absurd (has_tag_of_map_at tags id_wtpt w hw) hm

theorem replace_error_left (D S : Buffer) (e : PatchError)
    (h : get_WP_and_A2B1_info D = .error e) :
    replace_icc1_A2B1_with_icc2_A2B1 D S = .error e := by
  simp only [replace_icc1_A2B1_with_icc2_A2B1, h, bind, Except.bind]

theorem replace_error_right (D S : Buffer) (i1 : WPandA2B1) (e : PatchError)
    (h1 : get_WP_and_A2B1_info D = .ok i1) (h : get_WP_and_A2B1_info S = .error e) :
    replace_icc1_A2B1_with_icc2_A2B1 D S = .error e := by
  simp only [replace_icc1_A2B1_with_icc2_A2B1, h1, h, bind, Except.bind]

theorem std_copy_not_throws (src : Buffer) (first n : Nat) (dst : Buffer) (d : Nat) :
    (∃ P, std_copy src first n dst d = .ok P ∧ P.length = dst.length) ∨
      std_copy src first n dst d = .error .undefined_access := by
  unfold std_copy
  split
  · rename_i h
    left
    refine ⟨_, rfl, ?_⟩
    simp only [List.length_append, List.length_take, List.length_drop]
    omega
  · right; rfl

/-- C2: for a destination `D` and a source `S` whose tag directories can be read (as `tD` and
`tS`), `replace_icc1_A2B1_with_icc2_A2B1` throws if and only if A2B1 or wtpt is missing from
`tD` or from `tS`, or both hold A2B1 with different sizes; when it throws nothing is written;
and when the four tags are present, the A2B1 sizes are equal and the copied ranges lie inside
the buffers, it does not fail and the patched destination is written exactly once. -/
theorem replace_throws_iff (D S : Buffer) (tD tS : TagMap)
    (hD : get_tags D = .ok tD) (hS : get_tags S = .ok tS) :
    (throws (replace_icc1_A2B1_with_icc2_A2B1 D S) ↔
      (¬ has_tag tD id_A2B1 ∨ ¬ has_tag tD id_wtpt ∨ ¬ has_tag tS id_A2B1 ∨ ¬ has_tag tS id_wtpt
        ∨ ∃ a1 a2, map_at tD id_A2B1 = .ok a1 ∧ map_at tS id_A2B1 = .ok a2
            ∧ a1.size ≠ a2.size)) ∧
    (throws (replace_icc1_A2B1_with_icc2_A2B1 D S) →
      buffers_written (replace_icc1_A2B1_with_icc2_A2B1 D S) = []) ∧
    (∀ a1 w1 a2 w2, map_at tD id_A2B1 = .ok a1 → map_at tD id_wtpt = .ok w1 →
      map_at tS id_A2B1 = .ok a2 → map_at tS id_wtpt = .ok w2 → a1.size = a2.size →
      a2.offset + a2.size ≤ S.length → a1.offset + a2.size ≤ D.length →
      w2.offset + w2.size ≤ S.length → w1.offset + w2.size ≤ D.length →
      ∃ P, replace_icc1_A2B1_with_icc2_A2B1 D S = .ok P ∧
        buffers_written (replace_icc1_A2B1_with_icc2_A2B1 D S) = [P]) := by
  refine ⟨?_, ?_, ?_⟩
  · by_cases hmD : ¬ has_tag tD id_A2B1 ∨ ¬ has_tag tD id_wtpt
    · have h1 := replace_error_left D S _ (info_error_of_missing D tD hD hmD)
      constructor
      · intro _
        rcases hmD with h | h
        · exact Or.inl h
        · exact Or.inr (Or.inl h)
      · intro _
        exact Or.inl h1
    · have hmD1 : has_tag tD id_A2B1 := by tauto
      have hmD2 : has_tag tD id_wtpt := by tauto
      obtain ⟨a1, ha1⟩ := map_at_ok_of_has_tag tD id_A2B1 hmD1
      obtain ⟨w1, hw1⟩ := map_at_ok_of_has_tag tD id_wtpt hmD2
      have hi1 := info_of_tags D tD a1 w1 hD ha1 hw1
      by_cases hmS : ¬ has_tag tS id_A2B1 ∨ ¬ has_tag tS id_wtpt
      · have h1 := replace_error_right D S _ _ hi1 (info_error_of_missing S tS hS hmS)
        constructor
        · intro _
          rcases hmS with h | h
          · exact Or.inr (Or.inr (Or.inl h))
          · exact Or.inr (Or.inr (Or.inr (Or.inl h)))
        · intro _
          exact Or.inl h1
      · have hmS1 : has_tag tS id_A2B1 := by tauto
        have hmS2 : has_tag tS id_wtpt := by tauto
        obtain ⟨a2, ha2⟩ := map_at_ok_of_has_tag tS id_A2B1 hmS1
        obtain ⟨w2, hw2⟩ := map_at_ok_of_has_tag tS id_wtpt hmS2
        have hi2 := info_of_tags S tS a2 w2 hS ha2 hw2
        have hr := replace_of_info D S _ _ hi1 hi2
        simp only [] at hr
        by_cases hsz : a1.size = a2.size
        · rw [if_neg (by simpa using hsz)] at hr
          constructor
          · intro ht
            exfalso
            rcases std_copy_not_throws S a2.offset a2.size D a1.offset with ⟨P1, hP1, _⟩ | hu
            · rw [hP1] at hr
              simp only [Except.bind] at hr
              rcases std_copy_not_throws S w2.offset w2.size P1 w1.offset with ⟨P2, hP2, _⟩ | hu
              · rw [hP2] at hr
                rw [hr] at ht
                rcases ht with ht | ht <;> simp at ht
              · rw [hu] at hr
                rw [hr] at ht
                rcases ht with ht | ht <;> simp at ht
            · rw [hu] at hr
              simp only [Except.bind] at hr
              rw [hr] at ht
              rcases ht with ht | ht <;> simp at ht
          · rintro (h | h | h | h | ⟨b1, b2, hb1, hb2, hne⟩)
            · exact absurd hmD1 h
            · exact absurd hmD2 h
            · exact absurd hmS1 h
            · exact absurd hmS2 h
            · rw [ha1] at hb1
              rw [ha2] at hb2
              have e1 : a1 = b1 := by simpa using hb1
              have e2 : a2 = b2 := by simpa using hb2
              subst e1
              subst e2
              exact absurd hsz hne
        · rw [if_pos (by simpa using hsz)] at hr
          constructor
          · intro _
            exact Or.inr (Or.inr (Or.inr (Or.inr ⟨a1, a2, ha1, ha2, hsz⟩)))
          · intro _
            exact Or.inr hr
  · rintro (h | h) <;> rw [h] <;> rfl
  · intro a1 w1 a2 w2 ha1 hw1 ha2 hw2 hsz h1 h2 h3 h4
    have hr := replace_of_info D S _ _ (info_of_tags D tD a1 w1 hD ha1 hw1)
      (info_of_tags S tS a2 w2 hS ha2 hw2)
    simp only [] at hr
    rw [if_neg (by simpa using hsz)] at hr
    obtain ⟨P1, hP1, hl1, _⟩ := std_copy_ok S a2.offset a2.size D a1.offset h1 h2
    obtain ⟨P2, hP2, _, _⟩ := std_copy_ok S w2.offset w2.size P1 w1.offset h3 (by omega)
    rw [hP1] at hr
    simp only [Except.bind] at hr
    rw [hP2] at hr
    exact ⟨P2, hr, by rw [hr]; rfl⟩

set_option maxRecDepth 100000 in
/-- Witness of C2: two profiles with the same directory and A2B1 sizes are patched, and the
result is written once. -/
theorem replace_throws_iff_witness :
    get_tags sample_dest = .ok [⟨id_A2B1, 156, 4⟩, ⟨id_wtpt, 160, 4⟩] ∧
    get_tags sample_source = .ok [⟨id_A2B1, 156, 4⟩, ⟨id_wtpt, 160, 4⟩] ∧
    ¬ throws (replace_icc1_A2B1_with_icc2_A2B1 sample_dest sample_source) ∧
    ∃ P, replace_icc1_A2B1_with_icc2_A2B1 sample_dest sample_source = .ok P ∧
      buffers_written (replace_icc1_A2B1_with_icc2_A2B1 sample_dest sample_source) = [P] :=
  ⟨by decide, by decide,
   fun h => absurd ((replace_throws_iff sample_dest sample_source
      [⟨id_A2B1, 156, 4⟩, ⟨id_wtpt, 160, 4⟩] [⟨id_A2B1, 156, 4⟩, ⟨id_wtpt, 160, 4⟩]
      (by decide) (by decide)).2.1 h) (by decide),
   (replace_throws_iff sample_dest sample_source
      [⟨id_A2B1, 156, 4⟩, ⟨id_wtpt, 160, 4⟩] [⟨id_A2B1, 156, 4⟩, ⟨id_wtpt, 160, 4⟩]
      (by decide) (by decide)).2.2 ⟨id_A2B1, 156, 4⟩ ⟨id_wtpt, 160, 4⟩ ⟨id_A2B1, 156, 4⟩
      ⟨id_wtpt, 160, 4⟩ (by decide) (by decide) (by decide) (by decide) rfl (by decide)
      (by decide) (by decide) (by decide)⟩

/-- What the two copies leave unchanged: when both directories hold both tags, the A2B1
sizes are equal and the copied ranges lie inside the buffers, every byte of the destination
outside its A2B1 range and outside the `w2.size` bytes that start at its wtpt offset is
unchanged, where `w2.size` is the size of wtpt in the source. -/
theorem replace_frame (D S : Buffer) (tD tS : TagMap) (a1 w1 a2 w2 : Tags)
    (hD : get_tags D = .ok tD) (hS : get_tags S = .ok tS)
    (ha1 : map_at tD id_A2B1 = .ok a1) (hw1 : map_at tD id_wtpt = .ok w1)
    (ha2 : map_at tS id_A2B1 = .ok a2) (hw2 : map_at tS id_wtpt = .ok w2)
    (hsz : a1.size = a2.size)
    (h1 : a2.offset + a2.size ≤ S.length) (h2 : a1.offset + a2.size ≤ D.length)
    (h3 : w2.offset + w2.size ≤ S.length) (h4 : w1.offset + w2.size ≤ D.length) :
    ∃ P, replace_icc1_A2B1_with_icc2_A2B1 D S = .ok P ∧ P.length = D.length ∧
      ∀ i, ¬ (a1.offset ≤ i ∧ i < a1.offset + a1.size) →
        ¬ (w1.offset ≤ i ∧ i < w1.offset + w2.size) → P[i]? = D[i]? := by
  have hr := replace_of_info D S _ _ (info_of_tags D tD a1 w1 hD ha1 hw1)
    (info_of_tags S tS a2 w2 hS ha2 hw2)
  simp only [] at hr
  rw [if_neg (by simpa using hsz)] at hr
  obtain ⟨P1, hP1, hl1, hg1⟩ := std_copy_ok S a2.offset a2.size D a1.offset h1 h2
  obtain ⟨P2, hP2, hl2, hg2⟩ := std_copy_ok S w2.offset w2.size P1 w1.offset h3 (by omega)
  rw [hP1] at hr
  simp only [Except.bind] at hr
  rw [hP2] at hr
  refine ⟨P2, hr, by omega, ?_⟩
  intro i hi1 hi2
  rw [hg2 i, if_neg hi2, hg1 i, if_neg (by rw [← hsz]; exact hi1)]

set_option maxRecDepth 100000 in
/-- C3, the code at a failing input: the destination and the source both hold A2B1 (4 bytes
at 156) and wtpt (at 160), of 4 bytes in the destination and of 8 bytes in the source.  The
call succeeds and byte 164 of the destination, which lies outside the A2B1 range 156-159 and
outside the wtpt range 160-163 of the destination, changes from 9 to 19. -/
theorem replace_overruns_wtpt :
    get_WP_and_A2B1_info sample_dest = .ok ⟨160, 4, 156, 4⟩ ∧
    get_WP_and_A2B1_info sample_source_long_wtpt = .ok ⟨160, 8, 156, 4⟩ ∧
    replace_icc1_A2B1_with_icc2_A2B1 sample_dest sample_source_long_wtpt =
      .ok (sample_profile 4 [11, 12, 13, 14, 15, 16, 17, 18, 19, 19, 19, 19]) ∧
    sample_dest[164]? = some 9 ∧
    (sample_profile 4 [11, 12, 13, 14, 15, 16, 17, 18, 19, 19, 19, 19])[164]? = some 19 := by
  decide

/-! ## Theorems: low-pass kernels -/

theorem convolve_row_pair (v r : List ℚ) (i : Nat) :
    convolve_row v [1, 1] r i
      = (r.set i (r[i]?.getD 0 + v[i]?.getD 0)).set (i + 1) (r[i + 1]?.getD 0 + v[i]?.getD 0) := by
  have h2 : List.range ([1, 1] : List ℚ).length = [0, 1] := by decide
  unfold convolve_row
  rw [h2]
  simp only [List.foldl_cons, List.foldl_nil, convolve_add, add_zero, List.getD_cons_zero,
    mul_one, List.getD_cons_succ, List.getD_eq_getElem?_getD, List.getElem?_cons_zero,
    List.getElem?_cons_succ, Option.getD_some]
  rw [List.getElem?_set_ne (by omega)]

/-- State of the outer loop of `convolve v [1, 1]` after `m` iterations. -/
theorem convolve_pair_loop (v : List ℚ) (m : Nat) (hm : m ≤ v.length) :
    ((List.range m).foldl (convolve_row v [1, 1]) (List.replicate (v.length + 1) 0)).length
      = v.length + 1 ∧
    ∀ j, j < v.length + 1 →
      ((List.range m).foldl (convolve_row v [1, 1]) (List.replicate (v.length + 1) 0))[j]?
      = some ((if j < m then v[j]?.getD 0 else 0)
          + (if 1 ≤ j ∧ j ≤ m then v[j - 1]?.getD 0 else 0)) := by
  induction m with
  | zero =>
    refine ⟨by simp, ?_⟩
    intro j hj
    have e2 : ¬ (1 ≤ j ∧ j ≤ 0) := by omega
    rw [if_neg (by omega), if_neg e2]
    simp [List.getElem?_replicate, hj]
  | succ m ih =>
    obtain ⟨hl, hg⟩ := ih (by omega)
    rw [List.range_succ, List.foldl_append, List.foldl_cons, List.foldl_nil, convolve_row_pair]
    refine ⟨by rw [List.length_set, List.length_set, hl], ?_⟩
    intro j hj
    rw [List.getElem?_set, List.getElem?_set, List.length_set, hl]
    by_cases h1 : m + 1 = j
    · subst h1
      rw [if_pos rfl, if_pos (by omega), hg (m + 1) (by omega)]
      simp
    · rw [if_neg h1]
      by_cases h2 : m = j
      · subst h2
        rw [if_pos rfl, if_pos (by omega), hg m (by omega)]
        by_cases h3 : 1 ≤ m
        · simp [h3, add_comm]
        · have h4 : m = 0 := by omega
          subst h4
          simp
      · rw [if_neg h2, hg j hj]
        congr 2
        · by_cases h3 : j < m
          · rw [if_pos h3, if_pos (by omega)]
          · rw [if_neg h3, if_neg (by omega)]
        · by_cases h3 : 1 ≤ j ∧ j ≤ m
          · rw [if_pos h3, if_pos (by omega)]
          · rw [if_neg h3, if_neg (by omega)]

theorem convolve_pair (v : List ℚ) (hv : v ≠ []) :
    convolve v [1, 1] = List.zipWith (fun a b => a + b) (v ++ [0]) (0 :: v) := by
  have hlen : 0 < v.length := List.length_pos.mpr hv
  obtain ⟨hl, hg⟩ := convolve_pair_loop v v.length le_rfl
  have hsz : v.length + ([1, 1] : List ℚ).length - 1 = v.length + 1 := by simp
  unfold convolve
  rw [hsz]
  apply List.ext_getElem?
  intro j
  by_cases hj : j < v.length + 1
  · rw [hg j hj, List.getElem?_zipWith]
    rcases j with _ | j
    · simp [List.getElem?_append_left hlen, List.getElem?_eq_getElem hlen, hlen]
    · simp only [List.getElem?_cons_succ, add_tsub_cancel_right]
      have hjl : j < v.length := by omega
      have hc : 1 ≤ j + 1 ∧ j + 1 ≤ v.length := by omega
      rw [List.getElem?_eq_getElem hjl, if_pos hc]
      by_cases h3 : j + 1 < v.length
      · rw [if_pos h3, List.getElem?_append_left h3, List.getElem?_eq_getElem h3]
        simp
      · have h4 : j + 1 = v.length := by omega
        rw [if_neg h3, List.getElem?_append_right (by omega)]
        simp [h4]
  · rw [List.getElem?_eq_none (by omega), List.getElem?_eq_none]
    simp only [List.length_zipWith, List.length_append, List.length_cons, List.length_nil]
    omega

theorem binomial_row_zero : binomial_row 0 = [1] := rfl

theorem binomial_row_one : binomial_row 1 = [1] := rfl

theorem binomial_row_succ (n : Nat) :
    binomial_row (n + 2) = convolve (binomial_row (n + 1)) [1, 1] := by
  unfold binomial_row
  have h : n + 2 - 1 = (n + 1 - 1) + 1 := by omega
  rw [h, List.range_succ, List.foldl_append]
  rfl

/-- The loop of `make_lowpass` builds row `n` of Pascal's triangle. -/
theorem binomial_row_eq (n : Nat) :
    binomial_row (n + 1) = (List.range (n + 1)).map (fun j => (n.choose j : ℚ)) := by
  induction n with
  | zero => rfl
  | succ n ih =>
    rw [binomial_row_succ, convolve_pair _ (by rw [ih]; simp), ih]
    apply List.ext_getElem?
    intro j
    rw [List.getElem?_zipWith, List.getElem?_map]
    by_cases hj : j < n + 2
    · rw [List.getElem?_range hj]
      rcases j with _ | j
      · rw [List.getElem?_append_left (by simp), List.getElem?_map,
          List.getElem?_range (by omega)]
        simp
      · have hj1 : j < n + 1 := by omega
        simp only [List.getElem?_cons_succ, List.getElem?_map, List.getElem?_range hj1,
          Option.map_some']
        by_cases hj2 : j + 1 < n + 1
        · rw [List.getElem?_append_left (by simpa using hj2), List.getElem?_map,
            List.getElem?_range hj2]
          simp only [Option.map_some']
          rw [Nat.choose_succ_succ]
          push_cast
          rw [add_comm]
        · have hj3 : j = n := by omega
          subst hj3
          rw [List.getElem?_append_right (by simp)]
          simp
    · rw [List.getElem?_eq_none (l := List.range (n + 1 + 1)) (by simpa using hj)]
      rw [List.getElem?_eq_none (by simp; omega)]
      simp

theorem binomial_row_length (n : Nat) : (binomial_row (n + 1)).length = n + 1 := by
  rw [binomial_row_eq]; simp

theorem binomial_row_nonneg (n : Nat) : ∀ x ∈ binomial_row n, (0 : ℚ) ≤ x := by
  rcases n with _ | n
  · intro x hx
    rw [binomial_row_zero] at hx
    simp at hx
    rw [hx]
    norm_num
  · intro x hx
    rw [binomial_row_eq] at hx
    simp only [List.mem_map, List.mem_range] at hx
    obtain ⟨j, _, rfl⟩ := hx
    exact Nat.cast_nonneg _

theorem sum_zipWith_add (a b : List ℚ) (h : a.length = b.length) :
    (List.zipWith (fun x y => x + y) a b).sum = a.sum + b.sum := by
  induction a generalizing b with
  | nil =>
    cases b with
    | nil => simp
    | cons y ys => simp at h
  | cons x xs ih =>
    cases b with
    | nil => simp at h
    | cons y ys =>
      simp only [List.zipWith_cons_cons, List.sum_cons]
      rw [ih ys (by simpa using h)]
      ring

theorem binomial_row_sum (n : Nat) : (binomial_row (n + 1)).sum = 2 ^ n := by
  induction n with
  | zero => simp [binomial_row_one]
  | succ n ih =>
    rw [binomial_row_succ, convolve_pair _ (by rw [binomial_row_eq]; simp),
      sum_zipWith_add _ _ (by simp)]
    simp only [List.sum_append, List.sum_cons, List.sum_nil, ih]
    ring

theorem foldl_add_eq_sum (l : List ℚ) : l.foldl (fun a x => a + x) 0 = l.sum := by
  rw [List.sum_eq_foldl]

theorem sum_map_div (l : List ℚ) (s : ℚ) : (l.map (fun x => x / s)).sum = l.sum / s := by
  induction l with
  | nil => simp
  | cons x xs ih =>
    simp only [List.map_cons, List.sum_cons, ih]
    ring

theorem make_lowpass_routines_eq (n : Nat) : make_lowpass_routines n = make_lowpass n false := by
  simp [make_lowpass_routines, make_lowpass]

/-- The vector that `make_lowpass` divides by its sum. -/
theorem center_sum_pos (n : Nat) (xcenter : Bool) :
    0 < (if xcenter then (binomial_row n).set (n / 2) (1 / 1000) else binomial_row n).sum := by
  cases xcenter with
  | false =>
    rcases n with _ | n
    · simp [binomial_row_zero]
    · simp only [Bool.false_eq_true, if_false]
      rw [binomial_row_sum]
      positivity
  | true =>
    simp only [if_true]
    rw [List.sum_set]
    have hlen : n / 2 < (binomial_row n).length := by
      rcases n with _ | n
      · simp [binomial_row_zero]
      · rw [binomial_row_length]; omega
    rw [if_pos hlen]
    have h1 : 0 ≤ (List.take (n / 2) (binomial_row n)).sum :=
      List.sum_nonneg (fun x hx => binomial_row_nonneg n x (List.mem_of_mem_take hx))
    have h2 : 0 ≤ (List.drop (n / 2 + 1) (binomial_row n)).sum :=
      List.sum_nonneg (fun x hx => binomial_row_nonneg n x (List.mem_of_mem_drop hx))
    linarith

theorem lowpass_sum_one (k : Nat) (xcenter : Bool) : (make_lowpass k xcenter).sum = 1 := by
  unfold make_lowpass
  simp only []
  rw [foldl_add_eq_sum, sum_map_div]
  exact div_self (ne_of_gt (center_sum_pos k xcenter))

/-- C4: for every kernel size `k` (in particular every odd `k >= 1`) the coefficients of
`make_lowpass(k, xcenter)` sum to exactly 1 over the rationals, in the normal mode and in the
exclude-center mode; the same holds for the one-argument `make_lowpass(k)` of
`Create_CGATS_for_ABW_Routines.cpp`. -/
theorem make_lowpass_sum (k : Nat) (xcenter : Bool) :
    (make_lowpass k xcenter).sum = 1 ∧ (make_lowpass_routines k).sum = 1 :=
  ⟨lowpass_sum_one k xcenter, by rw [make_lowpass_routines_eq]; exact lowpass_sum_one k false⟩

/-- C5: for every `k >= 1` (in particular every odd one) the kernel `make_lowpass(k, false)`
has exactly `k` coefficients, and its coefficient at index `i < k` is the binomial
coefficient `C(k-1, i)` divided by `2^(k-1)`. -/
theorem make_lowpass_binomial (k : Nat) (hk : 1 ≤ k) :
    (make_lowpass k false).length = k ∧
    ∀ i, i < k → (make_lowpass k false)[i]? = some (((k - 1).choose i : ℚ) / 2 ^ (k - 1)) := by
  obtain ⟨n, rfl⟩ : ∃ n, k = n + 1 := ⟨k - 1, by omega⟩
  unfold make_lowpass
  simp only [Bool.false_eq_true, if_false, add_tsub_cancel_right]
  rw [foldl_add_eq_sum, binomial_row_sum, binomial_row_eq]
  refine ⟨by simp, ?_⟩
  intro i hi
  rw [List.getElem?_map, List.getElem?_map, List.getElem?_range hi]
  rfl

/-- Witness of C5: the kernel of size 5 is 1/16, 4/16, 6/16, 4/16, 1/16. -/
theorem make_lowpass_binomial_witness :
    1 ≤ 5 ∧ (make_lowpass 5 false).length = 5 ∧
    ∀ i, i < 5 → (make_lowpass 5 false)[i]? = some (((5 - 1).choose i : ℚ) / 2 ^ (5 - 1)) :=
  ⟨by decide, make_lowpass_binomial 5 (by decide)⟩

/-! ## Theorems: smoothing -/

theorem make_lowpass_length (n : Nat) (xcenter : Bool) (hn : 1 ≤ n) :
    (make_lowpass n xcenter).length = n := by
  obtain ⟨m, rfl⟩ : ∃ m, n = m + 1 := ⟨n - 1, by omega⟩
  unfold make_lowpass
  cases xcenter <;> simp [binomial_row_length]

theorem inner_product_eq (f v : List ℚ) (n first2 : Nat) (hf : n ≤ f.length)
    (hv : first2 + n ≤ v.length) :
    inner_product f n v first2 =
      some (((List.range n).map (fun j => f[j]?.getD 0 * v[first2 + j]?.getD 0)).sum) := by
  unfold inner_product
  induction n with
  | zero => rfl
  | succ n ih =>
    rw [List.range_succ, List.foldlM_append, ih (by omega) (by omega)]
    have h1 : n < f.length := by omega
    have h2 : first2 + n < v.length := by omega
    simp [List.getElem?_eq_getElem h1, List.getElem?_eq_getElem h2]

theorem inner_product_window (f v : List ℚ) (start : Nat) (hv : start + f.length ≤ v.length) :
    inner_product f f.length v start = some (window_dot f v start) :=
  inner_product_eq f v f.length start le_rfl hv

theorem set_channel_eq (ret : List V3) (k ii : Nat) (x : ℚ) (hk : k < ret.length) :
    set_channel ret k ii x = some (ret.set k ((ret[k]).set ii x)) := by
  unfold set_channel
  rw [List.getElem?_eq_getElem hk]

/-- State of the first inner loop of `smooth` after `m` iterations. -/
theorem smooth_main_loop (f v : List ℚ) (n ii : Nat) (ret : List V3) (m : Nat)
    (hn : 1 ≤ n) (hf : f.length = n) (hm : m + n ≤ v.length + 1)
    (hr : ret.length = v.length) :
    ∃ r, (List.range m).foldlM (smooth_main_step f n v ii) ret = some r ∧
      r.length = v.length ∧
      ∀ j, r[j]? = if n / 2 ≤ j ∧ j < n / 2 + m
        then (ret[j]?).map (fun a => a.set ii (window_dot f v (j - n / 2)))
        else ret[j]? := by
  induction m with
  | zero =>
    refine ⟨ret, rfl, hr, ?_⟩
    intro j
    rw [if_neg (by omega)]
  | succ m ih =>
    obtain ⟨r, hr1, hl, hg⟩ := ih (by omega)
    have hip : inner_product f n v m = some (window_dot f v m) := by
      have := inner_product_window f v m (by omega)
      rwa [hf] at this
    have hk : m + n / 2 < r.length := by omega
    refine ⟨r.set (m + n / 2) ((r[m + n / 2]).set ii (window_dot f v m)), ?_, ?_, ?_⟩
    · rw [List.range_succ, List.foldlM_append, hr1]
      simp only [Option.bind_eq_bind, Option.some_bind, List.foldlM_cons, List.foldlM_nil,
        smooth_main_step, hip, set_channel_eq r _ ii _ hk, Option.bind_some]
      rfl
    · rw [List.length_set, hl]
    · intro j
      rw [List.getElem?_set]
      by_cases h1 : m + n / 2 = j
      · subst h1
        rw [if_pos rfl, if_pos hk, if_pos (by omega)]
        have h2 := hg (m + n / 2)
        rw [if_neg (by omega), List.getElem?_eq_getElem hk] at h2
        rw [← h2]
        simp
      · rw [if_neg h1, hg j]
        by_cases h3 : n / 2 ≤ j ∧ j < n / 2 + m
        · rw [if_pos h3, if_pos (by omega)]
        · rw [if_neg h3, if_neg (by omega)]

theorem smooth_edge_step_eq (xcenter : Bool) (v : List ℚ) (ii : Nat) (r : List V3) (m : Nat)
    (hm : 2 * m + 1 ≤ v.length) (hl : r.length = v.length) :
    smooth_edge_step xcenter v v.length ii r (m + 1) =
      (set_channel r m ii (window_dot (make_lowpass (2 * m + 1) xcenter) v 0)).bind
        (fun ret => set_channel ret (v.length - (m + 1)) ii
          (window_dot (make_lowpass (2 * m + 1) xcenter) v (v.length - (2 * m + 1)))) := by
  have hlen : (make_lowpass (2 * m + 1) xcenter).length = 2 * m + 1 :=
    make_lowpass_length _ _ (by omega)
  have hi : (m + 1) * 2 - 1 = 2 * m + 1 := by omega
  have hip1 := inner_product_window (make_lowpass (2 * m + 1) xcenter) v 0 (by omega)
  have hip2 := inner_product_window (make_lowpass (2 * m + 1) xcenter) v
    (v.length - (2 * m + 1)) (by omega)
  have e3 : ¬ v.length < m + 1 := by omega
  rw [hlen] at hip1 hip2
  simp only [smooth_edge_step, hi, hlen, hip1, hip2, if_pos hm, if_neg e3,
    add_tsub_cancel_right, Option.bind_eq_bind, Option.some_bind]

/-- State of the second inner loop of `smooth` after `m` iterations. -/
theorem smooth_edge_loop (xcenter : Bool) (v : List ℚ) (ii : Nat) (ret : List V3) (m : Nat)
    (hm : 2 * m ≤ v.length) (hr : ret.length = v.length) :
    ∃ r, (List.range' 1 m).foldlM (smooth_edge_step xcenter v v.length ii) ret = some r ∧
      r.length = v.length ∧
      ∀ j, r[j]? =
        if j < m then
          (ret[j]?).map (fun a => a.set ii (window_dot (make_lowpass (2 * j + 1) xcenter) v 0))
        else if v.length - m ≤ j ∧ j < v.length then
          (ret[j]?).map (fun a => a.set ii
            (window_dot (make_lowpass (2 * (v.length - 1 - j) + 1) xcenter) v
              (v.length - (2 * (v.length - 1 - j) + 1))))
        else ret[j]? := by
  induction m with
  | zero =>
    refine ⟨ret, rfl, hr, ?_⟩
    intro j
    rw [if_neg (by omega), if_neg (by omega)]
  | succ m ih =>
    obtain ⟨r, hr1, hl, hg⟩ := ih (by omega)
    have hk1 : m < r.length := by omega
    have hk2 : v.length - (m + 1) < (r.set m ((r[m]).set ii
        (window_dot (make_lowpass (2 * m + 1) xcenter) v 0))).length := by
      rw [List.length_set]; omega
    refine ⟨(r.set m ((r[m]).set ii (window_dot (make_lowpass (2 * m + 1) xcenter) v 0))).set
      (v.length - (m + 1))
      (((r.set m ((r[m]).set ii
        (window_dot (make_lowpass (2 * m + 1) xcenter) v 0)))[v.length - (m + 1)]).set ii
        (window_dot (make_lowpass (2 * m + 1) xcenter) v (v.length - (2 * m + 1)))),
      ?_, ?_, ?_⟩
    · have e0 : 1 + 1 * m = m + 1 := by omega
      rw [List.range'_concat, List.foldlM_append, hr1, e0]
      simp only [Option.bind_eq_bind, Option.some_bind, List.foldlM_cons, List.foldlM_nil]
      rw [smooth_edge_step_eq xcenter v ii r m (by omega) hl, set_channel_eq r _ ii _ hk1]
      simp only [Option.some_bind]
      rw [set_channel_eq _ _ ii _ hk2]
      rfl
    · rw [List.length_set, List.length_set, hl]
    · intro j
      rw [List.getElem?_set, List.getElem?_set]
      by_cases h1 : v.length - (m + 1) = j
      · subst h1
        rw [if_pos rfl, if_pos hk2, if_neg (by omega), if_pos (by omega)]
        have h2 := hg (v.length - (m + 1))
        rw [if_neg (by omega), if_neg (by omega)] at h2
        have hk3 : v.length - (m + 1) < ret.length := by omega
        have hk4 : v.length - (m + 1) < r.length := by omega
        rw [List.getElem?_eq_getElem hk3, List.getElem?_eq_getElem hk4] at h2
        have h3 : r[v.length - (m + 1)] = ret[v.length - (m + 1)] := by simpa using h2
        rw [List.getElem?_eq_getElem hk3]
        have e5 : 2 * (v.length - 1 - (v.length - (m + 1))) + 1 = 2 * m + 1 := by omega
        simp only [List.getElem_set, Option.map_some', e5]
        rw [if_neg (by omega), h3]
      · rw [if_neg h1]
        by_cases h2 : m = j
        · subst h2
          rw [if_pos rfl, if_pos hk1, if_pos (by omega)]
          have h3 := hg m
          rw [if_neg (by omega), if_neg (by omega)] at h3
          have hk3 : m < ret.length := by omega
          rw [List.getElem?_eq_getElem hk1, List.getElem?_eq_getElem hk3] at h3
          have h4 : r[m] = ret[m] := by simpa using h3
          rw [List.getElem?_eq_getElem hk3, h4]
          rfl
        · rw [if_neg h2, hg j]
          by_cases h3 : j < m
          · rw [if_pos h3, if_pos (show j < m + 1 by omega)]
          · rw [if_neg h3, if_neg (show ¬ j < m + 1 by omega)]
            by_cases h4 : v.length - m ≤ j ∧ j < v.length
            · rw [if_pos h4, if_pos (show v.length - (m + 1) ≤ j ∧ j < v.length by omega)]
            · rw [if_neg h4, if_neg (show ¬ (v.length - (m + 1) ≤ j ∧ j < v.length) by omega)]

theorem channel_length (v3 : List V3) (ii : Nat) : (channel v3 ii).length = v3.length := by
  simp [channel]

/-- One pass of the channel loop of `smooth` with the odd kernel size `2 * h + 1`: every
position of channel `ii` is assigned its `smooth_entry`. -/
theorem smooth_channel_eq (h : Nat) (xcenter : Bool) (v3 ret : List V3) (ii : Nat)
    (hN : 2 * h + 1 ≤ v3.length) (hr : ret.length = v3.length) :
    ∃ r, smooth_channel (make_lowpass (2 * h + 1) xcenter) (2 * h + 1) xcenter v3 ret ii
        = some r ∧ r.length = v3.length ∧
      ∀ j : Nat, r[j]? =
        (ret[j]?).map (fun a : V3 => a.set ii (smooth_entry (channel v3 ii) h xcenter j)) := by
  have hcl := channel_length v3 ii
  have hhalf : (2 * h + 1) / 2 = h := by omega
  obtain ⟨r1, hr1, hl1, hg1⟩ := smooth_main_loop (make_lowpass (2 * h + 1) xcenter)
    (channel v3 ii) (2 * h + 1) ii ret ((channel v3 ii).length + 1 - (2 * h + 1)) (by omega)
    (make_lowpass_length _ _ (by omega)) (by omega) (by omega)
  obtain ⟨r2, hr2, hl2, hg2⟩ := smooth_edge_loop xcenter (channel v3 ii) ii r1 h (by omega)
    hl1
  refine ⟨r2, ?_, by omega, ?_⟩
  · unfold smooth_channel
    have e1 : ¬ (List.map (fun x => x.get ii) v3).length + 1 < 2 * h + 1 := by
      rw [List.length_map]; omega
    simp only [if_neg e1]
    change ((List.range ((channel v3 ii).length + 1 - (2 * h + 1))).foldlM
      (smooth_main_step (make_lowpass (2 * h + 1) xcenter) (2 * h + 1) (channel v3 ii) ii)
      ret).bind (fun ret => (List.range' 1 ((2 * h + 1) / 2)).foldlM
        (smooth_edge_step xcenter (channel v3 ii) v3.length ii) ret) = some r2
    rw [hr1, hhalf, ← hcl]
    exact hr2
  · intro j
    rw [hg2 j]
    simp only [hhalf, hcl] at hg1 ⊢
    unfold smooth_entry window_half
    rw [hcl]
    by_cases h1 : j < h
    · have e : min h (min j (v3.length - 1 - j)) = j := by omega
      rw [if_pos h1, hg1 j, if_neg (by omega), e, Nat.sub_self]
    · rw [if_neg h1]
      by_cases h2 : v3.length - h ≤ j ∧ j < v3.length
      · have e : min h (min j (v3.length - 1 - j)) = v3.length - 1 - j := by omega
        have e2 : v3.length - (2 * (v3.length - 1 - j) + 1) = j - (v3.length - 1 - j) := by
          omega
        rw [if_pos h2, hg1 j, if_neg (by omega), e, e2]
      · rw [if_neg h2, hg1 j]
        by_cases h3 : j < v3.length
        · have e : min h (min j (v3.length - 1 - j)) = h := by omega
          rw [if_pos (by omega), e]
        · rw [if_neg (by omega), List.getElem?_eq_none (by omega)]
          rfl

/-- What `smooth` computes for an odd kernel size `2 * h + 1` that does not exceed the length
of the input: it returns, and position `j` holds the three channel values `smooth_entry`. -/
theorem smooth_eq (v3 : List V3) (h : Nat) (xcenter : Bool) (hN : 2 * h + 1 ≤ v3.length) :
    smooth v3 (2 * h + 1) xcenter = some ((List.range v3.length).map (fun j =>
      (⟨smooth_entry (channel v3 0) h xcenter j, smooth_entry (channel v3 1) h xcenter j,
        smooth_entry (channel v3 2) h xcenter j⟩ : V3))) := by
  obtain ⟨r0, hr0, hl0, hg0⟩ := smooth_channel_eq h xcenter v3
    (List.replicate v3.length V3.zero) 0 hN (by simp)
  obtain ⟨r1, hr1, hl1, hg1⟩ := smooth_channel_eq h xcenter v3 r0 1 hN hl0
  obtain ⟨r2, hr2, hl2, hg2⟩ := smooth_channel_eq h xcenter v3 r1 2 hN hl1
  unfold smooth
  simp only [List.foldlM_cons, List.foldlM_nil, hr0, hr1, hr2, Option.bind_eq_bind,
    Option.some_bind, pure]
  congr 1
  apply List.ext_getElem?
  intro j
  rw [hg2 j, hg1 j, hg0 j, List.getElem?_map, List.getElem?_replicate]
  by_cases hj : j < v3.length
  · rw [if_pos hj, List.getElem?_range hj]
    rfl
  · rw [if_neg hj, List.getElem?_eq_none (by simpa using hj)]
    rfl

theorem map_getElem?_range (f : List ℚ) :
    (List.range f.length).map (fun j => f[j]?.getD 0) = f := by
  apply List.ext_getElem?
  intro j
  rw [List.getElem?_map]
  by_cases hj : j < f.length
  · rw [List.getElem?_range hj]
    simp [List.getElem?_eq_getElem hj]
  · rw [List.getElem?_eq_none (by simpa using hj), List.getElem?_eq_none (by omega)]
    rfl

theorem window_half_le (N h j : Nat) (hj : j < N) :
    j - window_half N h j + (2 * window_half N h j + 1) ≤ N := by
  unfold window_half
  omega

theorem sum_range_succ_map (g : Nat → ℚ) (n : Nat) :
    ((List.range (n + 1)).map g).sum = ((List.range n).map g).sum + g n := by
  rw [List.range_succ, List.map_append, List.sum_append]
  simp

/-- A sum over a window with a single non-zero term. -/
theorem sum_indicator (g : Nat → ℚ) (a p n : Nat) :
    ((List.range n).map (fun t => g t * (if a + t = p then 1 else 0))).sum
      = if a ≤ p ∧ p < a + n then g (p - a) else 0 := by
  induction n with
  | zero =>
    rw [if_neg (by omega)]
    rfl
  | succ n ih =>
    rw [sum_range_succ_map, ih]
    by_cases h1 : a + n = p
    · have e : p - a = n := by omega
      rw [if_pos h1, if_neg (by omega), if_pos (by omega), e]
      ring
    · rw [if_neg h1]
      by_cases h2 : a ≤ p ∧ p < a + n
      · rw [if_pos h2, if_pos (by omega)]
        ring
      · rw [if_neg h2, if_neg (by omega)]
        ring

/-- Summing a windowed function over all positions gives the sum over the window. -/
theorem sum_window (g : Nat → ℚ) (a n M : Nat) :
    ((List.range M).map (fun p => if a ≤ p ∧ p < a + n then g (p - a) else 0)).sum
      = ((List.range (min n (M - a))).map g).sum := by
  induction M with
  | zero =>
    have e : min n (0 - a) = 0 := by omega
    rw [e]
    rfl
  | succ M ih =>
    rw [sum_range_succ_map, ih]
    by_cases h : a ≤ M ∧ M < a + n
    · have e1 : min n (M + 1 - a) = min n (M - a) + 1 := by omega
      have e2 : min n (M - a) = M - a := by omega
      rw [if_pos h, e1, sum_range_succ_map, e2]
    · have e1 : min n (M + 1 - a) = min n (M - a) := by omega
      rw [if_neg h, e1, add_zero]

theorem sum_filter_ne (g : Nat → ℚ) (i N : Nat) :
    (((List.range N).filter (fun p => decide (p ≠ i))).map g).sum
      = ((List.range N).map g).sum - (if i < N then g i else 0) := by
  induction N with
  | zero => simp
  | succ N ih =>
    rw [List.range_succ, List.filter_append, List.map_append, List.sum_append, ih,
      List.map_append, List.sum_append]
    by_cases h : N = i
    · subst h
      simp
    · have h2 : decide (N ≠ i) = true := by simpa using h
      simp only [List.filter_cons, h2, if_true, List.filter_nil, List.map_cons, List.map_nil,
        List.sum_cons, List.sum_nil, add_zero]
      by_cases h3 : i < N
      · rw [if_pos h3, if_pos (by omega)]
        ring
      · rw [if_neg h3, if_neg (by omega)]
        ring

theorem channel_impulse_getElem? (N p q : Nat) (hq : q < N) :
    (channel (impulse N p) 0)[q]?.getD 0 = if q = p then 1 else 0 := by
  unfold channel impulse
  rw [List.getElem?_map, List.getElem?_map, List.getElem?_range hq]
  by_cases h : q = p
  · simp [h, V3.get]
  · simp [h, V3.get]

theorem window_dot_impulse (f : List ℚ) (N p start : Nat) (h : start + f.length ≤ N) :
    window_dot f (channel (impulse N p) 0) start
      = if start ≤ p ∧ p < start + f.length then f[p - start]?.getD 0 else 0 := by
  unfold window_dot
  have e : (List.range f.length).map
      (fun j => f[j]?.getD 0 * (channel (impulse N p) 0)[start + j]?.getD 0)
      = (List.range f.length).map
        (fun j => f[j]?.getD 0 * (if start + j = p then 1 else 0)) := by
    apply List.map_congr_left
    intro j hj
    have hj2 : j < f.length := List.mem_range.mp hj
    rw [channel_impulse_getElem? N p (start + j) (by omega)]
  rw [e, sum_indicator (fun j => f[j]?.getD 0) start p f.length]

theorem impulse_length (N p : Nat) : (impulse N p).length = N := by
  simp [impulse]

/-- The weight of sample `p` in output `i`: the kernel coefficient at `p - start` when `p`
lies in the window of `i`, and zero otherwise. -/
theorem smooth_weight_eq (N h : Nat) (xcenter : Bool) (i p : Nat) (hN : 2 * h + 1 ≤ N)
    (hi : i < N) :
    smooth_weight N (2 * h + 1) xcenter i p =
      if i - window_half N h i ≤ p ∧ p < i - window_half N h i + (2 * window_half N h i + 1)
      then (make_lowpass (2 * window_half N h i + 1) xcenter)[p - (i - window_half N h i)]?.getD 0
      else 0 := by
  unfold smooth_weight
  rw [smooth_eq _ h xcenter (by rw [impulse_length]; exact hN)]
  simp only [impulse_length, List.getD_eq_getElem?_getD, List.getElem?_map,
    List.getElem?_range hi, Option.map_some', Option.getD_some]
  unfold smooth_entry
  rw [channel_length, impulse_length]
  have hl := make_lowpass_length (2 * window_half N h i + 1) xcenter (by omega)
  rw [window_dot_impulse _ N p _ (by rw [hl]; exact window_half_le N h i hi), hl]

/-- Every output of `smooth` is the combination of the input samples with the weights
`smooth_weight`, in each channel: this is what makes `smooth_weight N k xcenter i p` the
weight of sample `p` in output `i`. -/
theorem smooth_linear (v3 : List V3) (h : Nat) (xcenter : Bool) (i ii : Nat)
    (hN : 2 * h + 1 ≤ v3.length) (hi : i < v3.length) (hii : ii < 3) :
    ∃ out, smooth v3 (2 * h + 1) xcenter = some out ∧
      (out.getD i V3.zero).get ii = ((List.range v3.length).map (fun p =>
        smooth_weight v3.length (2 * h + 1) xcenter i p * (channel v3 ii)[p]?.getD 0)).sum := by
  refine ⟨_, smooth_eq v3 h xcenter hN, ?_⟩
  have hl := make_lowpass_length (2 * window_half v3.length h i + 1) xcenter (by omega)
  have hw := window_half_le v3.length h i hi
  have e : (List.range v3.length).map (fun p =>
        smooth_weight v3.length (2 * h + 1) xcenter i p * (channel v3 ii)[p]?.getD 0)
      = (List.range v3.length).map (fun p =>
        if i - window_half v3.length h i ≤ p ∧
          p < i - window_half v3.length h i + (2 * window_half v3.length h i + 1)
        then (fun t => (make_lowpass (2 * window_half v3.length h i + 1) xcenter)[t]?.getD 0
          * (channel v3 ii)[i - window_half v3.length h i + t]?.getD 0)
          (p - (i - window_half v3.length h i))
        else 0) := by
    apply List.map_congr_left
    intro p _
    rw [smooth_weight_eq v3.length h xcenter i p hN hi]
    by_cases hp : i - window_half v3.length h i ≤ p ∧
        p < i - window_half v3.length h i + (2 * window_half v3.length h i + 1)
    · rw [if_pos hp, if_pos hp]
      have e3 : i - window_half v3.length h i + (p - (i - window_half v3.length h i)) = p := by
        omega
      simp only [e3]
    · rw [if_neg hp, if_neg hp, zero_mul]
  have e2 : min (2 * window_half v3.length h i + 1)
      (v3.length - (i - window_half v3.length h i))
      = (make_lowpass (2 * window_half v3.length h i + 1) xcenter).length := by
    rw [hl]; omega
  rw [e, sum_window (fun t => (make_lowpass (2 * window_half v3.length h i + 1) xcenter)[t]?.getD 0
      * (channel v3 ii)[i - window_half v3.length h i + t]?.getD 0)
    (i - window_half v3.length h i) (2 * window_half v3.length h i + 1) v3.length, e2]
  simp only [List.getD_eq_getElem?_getD, List.getElem?_map, List.getElem?_range hi,
    Option.map_some', Option.getD_some]
  have hch : ∀ c, (channel v3 c).length = v3.length := fun c => channel_length v3 c
  rcases ii with _ | _ | _ | ii
  · simp only [V3.get, smooth_entry, window_dot, hch]
  · simp only [V3.get, smooth_entry, window_dot, hch]
  · simp only [V3.get, smooth_entry, window_dot, hch]
  · omega

theorem smooth_weight_total (N h : Nat) (xcenter : Bool) (i : Nat) (hN : 2 * h + 1 ≤ N)
    (hi : i < N) :
    ((List.range N).map (smooth_weight N (2 * h + 1) xcenter i)).sum = 1 := by
  have hl := make_lowpass_length (2 * window_half N h i + 1) xcenter (by omega)
  have e : (List.range N).map (smooth_weight N (2 * h + 1) xcenter i)
      = (List.range N).map (fun p =>
        if i - window_half N h i ≤ p ∧ p < i - window_half N h i + (2 * window_half N h i + 1)
        then (fun t => (make_lowpass (2 * window_half N h i + 1) xcenter)[t]?.getD 0)
          (p - (i - window_half N h i))
        else 0) := by
    apply List.map_congr_left
    intro p _
    rw [smooth_weight_eq N h xcenter i p hN hi]
  have hw := window_half_le N h i hi
  have e2 : min (2 * window_half N h i + 1) (N - (i - window_half N h i))
      = (make_lowpass (2 * window_half N h i + 1) xcenter).length := by
    rw [hl]; omega
  rw [e, sum_window (fun t => (make_lowpass (2 * window_half N h i + 1) xcenter)[t]?.getD 0)
    (i - window_half N h i) (2 * window_half N h i + 1) N, e2, map_getElem?_range,
    lowpass_sum_one _ xcenter]

theorem smooth_weight_self (N h : Nat) (xcenter : Bool) (i : Nat) (hN : 2 * h + 1 ≤ N)
    (hi : i < N) :
    smooth_weight N (2 * h + 1) xcenter i i =
      (make_lowpass (2 * window_half N h i + 1) xcenter)[window_half N h i]?.getD 0 := by
  have hw : window_half N h i ≤ i := by unfold window_half; omega
  rw [smooth_weight_eq N h xcenter i i hN hi, if_pos (by omega)]
  congr 2
  omega

theorem others_weight_eq (N h : Nat) (xcenter : Bool) (i : Nat) (hN : 2 * h + 1 ≤ N)
    (hi : i < N) :
    others_weight N (2 * h + 1) xcenter i = 1 - smooth_weight N (2 * h + 1) xcenter i i := by
  unfold others_weight
  rw [sum_filter_ne, smooth_weight_total N h xcenter i hN hi, if_pos hi]

/-- In the exclude-center kernel of size `2 * w + 1 >= 3` the center coefficient is below
one half. -/
theorem xcenter_small (w : Nat) (hw : 1 ≤ w) :
    (make_lowpass (2 * w + 1) true)[w]?.getD 0 < 1 / 2 := by
  have hhalf : (2 * w + 1) / 2 = w := by omega
  have hlen : w < (binomial_row (2 * w + 1)).length := by
    rw [binomial_row_length]; omega
  unfold make_lowpass
  simp only [if_true, hhalf]
  rw [foldl_add_eq_sum, List.getElem?_map, List.getElem?_set, if_pos rfl, if_pos hlen]
  simp only [Option.map_some', Option.getD_some]
  rw [List.sum_set, if_pos hlen]
  have h1 : 1 ≤ (List.take w (binomial_row (2 * w + 1))).sum := by
    apply List.single_le_sum
    · intro x hx
      exact binomial_row_nonneg _ x (List.mem_of_mem_take hx)
    · rw [binomial_row_eq, ← List.map_take, List.take_range]
      have hm : min w (2 * w + 1) = w := by omega
      rw [hm]
      exact List.mem_map.mpr ⟨0, List.mem_range.mpr (by omega), by simp⟩
  have h2 : 0 ≤ (List.drop (w + 1) (binomial_row (2 * w + 1))).sum :=
    List.sum_nonneg (fun x hx => binomial_row_nonneg _ x (List.mem_of_mem_drop hx))
  rw [div_lt_iff₀ (by linarith)]
  linarith

theorem make_lowpass_1_xcenter : make_lowpass 1 true = [1] := by decide!

/-- At the two end positions the exclude-center mode uses the kernel of size 1, whose single
coefficient 0.001 is normalised to 1: the output there is the input sample itself. -/
theorem xcenter_weight_endpoints (N h i : Nat) (hN : 2 * h + 1 ≤ N)
    (hi : i = 0 ∨ i + 1 = N) : smooth_weight N (2 * h + 1) true i i = 1 := by
  have hw : window_half N h i = 0 := by unfold window_half; omega
  rw [smooth_weight_self N h true i hN (by omega), hw, make_lowpass_1_xcenter]
  rfl

/-- C7 as amended: in exclude-center mode, for every length `N`, every odd kernel size `k`
with `3 <= k <= N` and every output position `i` other than the two end positions
(`1 <= i <= N - 2`), the weight that the smoothed value at `i` places on the input sample at
`i` itself is smaller than the total weight it places on the other samples. -/
theorem xcenter_weight_interior (N k i : Nat) (hodd : k % 2 = 1) (hk3 : 3 ≤ k) (hk : k ≤ N)
    (hi1 : 1 ≤ i) (hi2 : i + 2 ≤ N) :
    smooth_weight N k true i i < others_weight N k true i := by
  obtain ⟨h, rfl⟩ : ∃ h, k = 2 * h + 1 := ⟨k / 2, by omega⟩
  have hw : 1 ≤ window_half N h i := by unfold window_half; omega
  rw [others_weight_eq N h true i hk (by omega), smooth_weight_self N h true i hk (by omega)]
  have := xcenter_small (window_half N h i) hw
  linarith

/-- Witness of C7 as amended: length 5, kernel size 3, position 2. -/
theorem xcenter_weight_interior_witness :
    5 % 2 = 1 ∧ 3 ≤ 3 ∧ 3 ≤ 5 ∧ 1 ≤ 2 ∧ 2 + 2 ≤ 5 ∧
      smooth_weight 5 3 true 2 2 < others_weight 5 3 true 2 :=
  ⟨by decide, by decide, by decide, by decide, by decide,
    xcenter_weight_interior 5 3 2 (by decide) (by decide) (by decide) (by decide) (by decide)⟩

/-- C7, counterexample: with length 3 and kernel size 3 (odd, not above the length), the
first output of the exclude-center mode places weight 1 on its own input sample and weight 0
on the others, so the weight on itself is not the smaller one. -/
theorem xcenter_weight_end :
    3 % 2 = 1 ∧ 3 ≤ 3 ∧ 0 < 3 ∧ smooth_weight 3 3 true 0 0 = 1 ∧
      others_weight 3 3 true 0 = 0 ∧
      ¬ (smooth_weight 3 3 true 0 0 < others_weight 3 3 true 0) := by
  decide!

/-! ## Theorems: the constructor of `PatchFilter` -/

theorem ND_init_52 : ND_init 52 = some 5 := by decide

theorem ND_init_256 : ND_init 256 = some 1 := by decide

theorem mapM_getElem? (l : List V3) (g : Nat → Nat) (ks : List Nat)
    (h : ∀ k ∈ ks, g k < l.length) :
    ks.mapM (fun k => l[g k]?) = some (ks.map (fun k => l[g k]?.getD V3.zero)) := by
  induction ks with
  | nil => rfl
  | cons k ks ih =>
    have hk : g k < l.length := h k (List.mem_cons_self _ _)
    rw [List.mapM_cons, ih (fun k2 hk2 => h k2 (List.mem_cons_of_mem _ hk2)),
      List.getElem?_eq_getElem hk]
    simp [List.getElem?_eq_getElem hk]

theorem resample5_some (labf : List V3) (h : labf.length = 52 ∨ 256 ≤ labf.length) :
    ∃ lab5, resample5 labf = some lab5 ∧ lab5.length = 52 := by
  unfold resample5
  by_cases h52 : labf.length = 52
  · exact ⟨labf, by rw [if_pos h52], h52⟩
  · rw [if_neg h52, mapM_getElem? labf (fun k => 5 * k) (List.range 52) (by
      intro k hk
      have := List.mem_range.mp hk
      show 5 * k < labf.length
      omega)]
    exact ⟨_, rfl, by simp⟩

/-- The constructor returns for a ramp of 52 or of 256 entries, and these are its results. -/
theorem construct_some (cc : Conversions) (vin : List V6) (nd : Int) (h : Nat)
    (hnd : ND_init vin.length = some nd) (hk : kernel_size nd = 2 * h + 1)
    (hh : 2 * h + 1 ≤ vin.length) (hlen : vin.length = 52 ∨ 256 ≤ vin.length) :
    ∃ pf, PatchFilter.construct cc vin = some pf ∧ pf.ND = nd ∧
      pf.lab = vin.map V6.lab ∧
      smooth (vin.map V6.lab) (2 * h + 1) false = some pf.labf ∧
      smooth (vin.map V6.lab) (2 * h + 1) true = some pf.labfx ∧
      resample5 pf.labf = some pf.lab5 ∧ pf.lab5.length = 52 ∧
      pf.intent = classify (pf.lab5.getD 0 V3.zero) (pf.lab5.getD 1 V3.zero)
        (pf.lab5.getD 2 V3.zero) (pf.lab5.getD 3 V3.zero) (pf.lab5.getD 50 V3.zero)
        (pf.lab5.getD 51 V3.zero) := by
  have hl : (vin.map V6.lab).length = vin.length := List.length_map _ _
  obtain ⟨labf, hf⟩ : ∃ labf, smooth (vin.map V6.lab) (2 * h + 1) false = some labf :=
    ⟨_, smooth_eq _ h false (by omega)⟩
  obtain ⟨labfx, hfx⟩ : ∃ labfx, smooth (vin.map V6.lab) (2 * h + 1) true = some labfx :=
    ⟨_, smooth_eq _ h true (by omega)⟩
  have hfl : labf.length = vin.length := by
    have := smooth_eq (vin.map V6.lab) h false (by omega)
    rw [hf] at this
    rw [Option.some.inj this]
    simp
  obtain ⟨lab5, h5, h5l⟩ := resample5_some labf (by omega)
  have g : ∀ k, k < 52 → lab5[k]? = some (lab5.getD k V3.zero) := by
    intro k hk
    rw [List.getD_eq_getElem?_getD, List.getElem?_eq_getElem (by omega)]
    rfl
  refine ⟨{ ND := nd,
            L_sRGB := (List.range 52).map (fun (i : Nat) =>
              (cc.sRGB_to_Lab ⟨(i : ℚ) * 5, (i : ℚ) * 5, (i : ℚ) * 5⟩).x0),
            sRGB_xyz := ((List.range 52).map
              (fun (i : Nat) =>
              (cc.sRGB_to_Lab ⟨(i : ℚ) * 5, (i : ℚ) * 5, (i : ℚ) * 5⟩).x0)).map
              (fun l => cc.Lab_to_XYZ ⟨l, 0, 0⟩),
            lab := vin.map V6.lab, labf := labf, labfx := labfx, lab5 := lab5,
            intent := classify (lab5.getD 0 V3.zero) (lab5.getD 1 V3.zero)
              (lab5.getD 2 V3.zero) (lab5.getD 3 V3.zero) (lab5.getD 50 V3.zero)
              (lab5.getD 51 V3.zero),
            L_projected := (((List.range 52).map
              (fun (i : Nat) =>
              (cc.sRGB_to_Lab ⟨(i : ℚ) * 5, (i : ℚ) * 5, (i : ℚ) * 5⟩).x0)).map
              (fun l => cc.Lab_to_XYZ ⟨l, 0, 0⟩)).map (fun s =>
                (cc.XYZ_to_Lab (projected_xyz
                  (classify (lab5.getD 0 V3.zero) (lab5.getD 1 V3.zero)
                    (lab5.getD 2 V3.zero) (lab5.getD 3 V3.zero) (lab5.getD 50 V3.zero)
                    (lab5.getD 51 V3.zero))
                  (cc.Lab_to_XYZ (lab5.getD 0 V3.zero)) (cc.Lab_to_XYZ (lab5.getD 51 V3.zero))
                  s)).x0) },
    ?_, rfl, rfl, hf, hfx, h5, h5l, rfl⟩
  unfold PatchFilter.construct
  rw [hnd, Option.bind_eq_bind, Option.some_bind, hk]
  dsimp only
  rw [hf, Option.bind_eq_bind, Option.some_bind, hfx, Option.some_bind, h5, Option.some_bind,
    List.getElem?_map, List.getElem?_map, g 0 (by omega), g 1 (by omega), g 2 (by omega),
    g 3 (by omega), g 50 (by omega), g 51 (by omega), Option.map_some', Option.map_some',
    Option.bind_eq_bind, Option.some_bind, Option.some_bind, Option.some_bind,
    Option.some_bind, Option.some_bind, Option.some_bind, Option.some_bind, Option.some_bind]
  rfl

theorem kernel_size_5 : kernel_size 5 = 2 * 1 + 1 := by decide

theorem kernel_size_1 : kernel_size 1 = 2 * 4 + 1 := by decide

/-- C8 as amended: for a ramp of 52 entries (coarse) `ND` is 5 and both smoothing passes use
kernel size 3; for a ramp of 256 entries (fine-grained) `ND` is 1 and both passes use kernel
size 9; `ND` is `255 / (N - 1)` by integer division, and `labf` (self-inclusive) and `labfx`
(exclude-center) are smoothed with the same kernel size. -/
theorem construct_kernel (cc : Conversions) (vin : List V6)
    (hlen : vin.length = 52 ∨ vin.length = 256) :
    ∃ pf, PatchFilter.construct cc vin = some pf ∧
      pf.ND = ((255 / (vin.length - 1) : Nat) : Int) ∧
      (vin.length = 52 → pf.ND = 5 ∧ smooth (vin.map V6.lab) 3 false = some pf.labf ∧
        smooth (vin.map V6.lab) 3 true = some pf.labfx) ∧
      (vin.length = 256 → pf.ND = 1 ∧ smooth (vin.map V6.lab) 9 false = some pf.labf ∧
        smooth (vin.map V6.lab) 9 true = some pf.labfx) := by
  rcases hlen with h52 | h256
  · obtain ⟨pf, hpf, hnd, _, hf, hfx, _⟩ := construct_some cc vin 5 1
      (by rw [h52]; exact ND_init_52) kernel_size_5 (by omega) (by omega)
    refine ⟨pf, hpf, by rw [hnd, h52]; rfl, fun _ => ⟨hnd, hf, hfx⟩, fun h => ?_⟩
    omega
  · obtain ⟨pf, hpf, hnd, _, hf, hfx, _⟩ := construct_some cc vin 1 4
      (by rw [h256]; exact ND_init_256) kernel_size_1 (by omega) (by omega)
    refine ⟨pf, hpf, by rw [hnd, h256]; rfl, fun h => ?_, fun _ => ⟨hnd, hf, hfx⟩⟩
    omega

/-- Witness of C8 as amended: the 52-entry ramp `ramp_dip`. -/
theorem construct_kernel_witness :
    (ramp_dip.length = 52 ∨ ramp_dip.length = 256) ∧
    ∃ pf, PatchFilter.construct id_conversions ramp_dip = some pf ∧
      pf.ND = ((255 / (ramp_dip.length - 1) : Nat) : Int) ∧
      (ramp_dip.length = 52 → pf.ND = 5 ∧ smooth (ramp_dip.map V6.lab) 3 false = some pf.labf ∧
        smooth (ramp_dip.map V6.lab) 3 true = some pf.labfx) ∧
      (ramp_dip.length = 256 → pf.ND = 1 ∧
        smooth (ramp_dip.map V6.lab) 9 false = some pf.labf ∧
        smooth (ramp_dip.map V6.lab) 9 true = some pf.labfx) :=
  ⟨Or.inl (by decide), construct_kernel id_conversions ramp_dip (Or.inl (by decide))⟩

/-- C8, counterexample: on the coarse 52-entry ramp `ramp_dip` (`ND` = 5) the constructor's
`labf` is the result of smoothing with kernel size 3 and differs from the result of smoothing
with kernel size 9; and for 256 entries `ND` is 1, for which the kernel size is 9, not 3. -/
theorem construct_kernel_coarse :
    ramp_dip.length = 52 ∧ ND_init 52 = some 5 ∧ kernel_size 5 = 3 ∧
    (PatchFilter.construct id_conversions ramp_dip).map (fun pf => pf.labf)
      = smooth (ramp_dip.map V6.lab) 3 false ∧
    (PatchFilter.construct id_conversions ramp_dip).map (fun pf => pf.labf)
      ≠ smooth (ramp_dip.map V6.lab) 9 false ∧
    ND_init 256 = some 1 ∧ kernel_size 1 = 9 ∧ kernel_size 1 ≠ 3 := by
  decide!

theorem relbpc_test_iff (L r1 r2 r3 : ℚ) :
    relbpc_test L r1 r2 r3 = true ↔
      (L < 5 ∧ r1 > 3 / 10) ∨ (5 ≤ L ∧ L < 10 ∧ r2 > 3 / 10) ∨ (10 ≤ L ∧ r3 > 3 / 10) := by
  unfold relbpc_test
  simp only [Bool.or_eq_true, Bool.and_eq_true, decide_eq_true_eq, ge_iff_le, gt_iff_lt]
  tauto

theorem classify_cases (p0 p1 p2 p3 p50 p51 : V3) :
    (classify p0 p1 p2 p3 p50 p51 = Intent.RELBPC ↔
      relbpc_test p0.x0 (p1.x0 - p0.x0) (p2.x0 - p0.x0) (p3.x0 - p0.x0) = true) ∧
    (classify p0 p1 p2 p3 p50 p51 = Intent.REL ↔
      ¬ relbpc_test p0.x0 (p1.x0 - p0.x0) (p2.x0 - p0.x0) (p3.x0 - p0.x0) = true
        ∧ p51.x0 - p50.x0 > 3 / 10) ∧
    (classify p0 p1 p2 p3 p50 p51 = Intent.ABS ↔
      ¬ relbpc_test p0.x0 (p1.x0 - p0.x0) (p2.x0 - p0.x0) (p3.x0 - p0.x0) = true
        ∧ ¬ p51.x0 - p50.x0 > 3 / 10) := by
  unfold classify
  by_cases h1 : relbpc_test p0.x0 (p1.x0 - p0.x0) (p2.x0 - p0.x0) (p3.x0 - p0.x0) = true
  · simp [h1]
  · by_cases h2 : p51.x0 - p50.x0 > 3 / 10
    · simp [h1, h2]
    · simp [h1, h2]

/-- C9: for a ramp of 52 or 256 entries the constructor returns, `lab5` has 52 entries, and
the classification is a three-way decision on `lab5` in which the first matching rule wins:
the intent is RELBPC exactly when the RELBPC rule holds, REL exactly when the RELBPC rule
fails and the REL rule holds, and ABS exactly when both fail.  In particular a ramp that
satisfies both rules is RELBPC. -/
theorem intent_classification (cc : Conversions) (vin : List V6)
    (hlen : vin.length = 52 ∨ vin.length = 256) :
    ∃ pf, PatchFilter.construct cc vin = some pf ∧ pf.lab5.length = 52 ∧
      (pf.intent = Intent.RELBPC ↔ relbpc_rule pf.lab5) ∧
      (pf.intent = Intent.REL ↔ ¬ relbpc_rule pf.lab5 ∧ rel_rule pf.lab5) ∧
      (pf.intent = Intent.ABS ↔ ¬ relbpc_rule pf.lab5 ∧ ¬ rel_rule pf.lab5) ∧
      (relbpc_rule pf.lab5 → rel_rule pf.lab5 → pf.intent = Intent.RELBPC) := by
  have key : ∃ pf, PatchFilter.construct cc vin = some pf ∧ pf.lab5.length = 52 ∧
      pf.intent = classify (pf.lab5.getD 0 V3.zero) (pf.lab5.getD 1 V3.zero)
        (pf.lab5.getD 2 V3.zero) (pf.lab5.getD 3 V3.zero) (pf.lab5.getD 50 V3.zero)
        (pf.lab5.getD 51 V3.zero) := by
    rcases hlen with h52 | h256
    · obtain ⟨pf, hpf, _, _, _, _, _, h5, hi⟩ := construct_some cc vin 5 1
        (by rw [h52]; exact ND_init_52) kernel_size_5 (by omega) (by omega)
      exact ⟨pf, hpf, h5, hi⟩
    · obtain ⟨pf, hpf, _, _, _, _, _, h5, hi⟩ := construct_some cc vin 1 4
        (by rw [h256]; exact ND_init_256) kernel_size_1 (by omega) (by omega)
      exact ⟨pf, hpf, h5, hi⟩
  obtain ⟨pf, hpf, h5, hi⟩ := key
  obtain ⟨c1, c2, c3⟩ := classify_cases (pf.lab5.getD 0 V3.zero) (pf.lab5.getD 1 V3.zero)
    (pf.lab5.getD 2 V3.zero) (pf.lab5.getD 3 V3.zero) (pf.lab5.getD 50 V3.zero)
    (pf.lab5.getD 51 V3.zero)
  rw [relbpc_test_iff] at c1 c2 c3
  rw [← hi] at c1 c2 c3
  exact ⟨pf, hpf, h5, c1, c2, c3, fun h _ => c1.mpr h⟩

/-- Witness of C9: the 52-entry ramp `ramp_dip`. -/
theorem intent_classification_witness :
    (ramp_dip.length = 52 ∨ ramp_dip.length = 256) ∧
    ∃ pf, PatchFilter.construct id_conversions ramp_dip = some pf ∧ pf.lab5.length = 52 ∧
      (pf.intent = Intent.RELBPC ↔ relbpc_rule pf.lab5) ∧
      (pf.intent = Intent.REL ↔ ¬ relbpc_rule pf.lab5 ∧ rel_rule pf.lab5) ∧
      (pf.intent = Intent.ABS ↔ ¬ relbpc_rule pf.lab5 ∧ ¬ rel_rule pf.lab5) ∧
      (relbpc_rule pf.lab5 → rel_rule pf.lab5 → pf.intent = Intent.RELBPC) :=
  ⟨Or.inl (by decide), intent_classification id_conversions ramp_dip (Or.inl (by decide))⟩

theorem mapM_except_ok {α β : Type} (f : α → Except ProcessError β) (g : α → β) (l : List α)
    (h : ∀ a ∈ l, f a = .ok (g a)) : l.mapM f = .ok (l.map g) := by
  induction l with
  | nil => rfl
  | cons a l ih =>
    rw [List.mapM_cons, h a (List.mem_cons_self _ _),
      ih (fun b hb => h b (List.mem_cons_of_mem _ hb))]
    rfl

/-- The constructor on a ramp of 52 or 256 entries: the sizes of its results. -/
theorem construct_sizes (cc : Conversions) (vin : List V6)
    (hlen : vin.length = 52 ∨ vin.length = 256) :
    ∃ pf, PatchFilter.construct cc vin = some pf ∧ pf.lab.length = vin.length ∧
      pf.labf.length = vin.length ∧ pf.labfx.length = vin.length ∧ pf.lab5.length = 52 ∧
      pf.ND = ((255 / (vin.length - 1) : Nat) : Int) ∧
      resample5 pf.labf = some pf.lab5 := by
  have key : ∀ (nd : Int) (h : Nat), ND_init vin.length = some nd →
      kernel_size nd = 2 * h + 1 → 2 * h + 1 ≤ vin.length →
      nd = ((255 / (vin.length - 1) : Nat) : Int) →
      ∃ pf, PatchFilter.construct cc vin = some pf ∧ pf.lab.length = vin.length ∧
        pf.labf.length = vin.length ∧ pf.labfx.length = vin.length ∧ pf.lab5.length = 52 ∧
        pf.ND = ((255 / (vin.length - 1) : Nat) : Int) ∧
        resample5 pf.labf = some pf.lab5 := by
    intro nd h hnd hk hh hval
    obtain ⟨pf, hpf, hND, hlab, hf, hfx, h5, h5l, _⟩ := construct_some cc vin nd h hnd hk hh
      (by omega)
    have hl : (vin.map V6.lab).length = vin.length := List.length_map _ _
    have e1 := smooth_eq (vin.map V6.lab) h false (by omega)
    have e2 := smooth_eq (vin.map V6.lab) h true (by omega)
    rw [hf] at e1
    rw [hfx] at e2
    refine ⟨pf, hpf, by rw [hlab, hl], ?_, ?_, h5l, by rw [hND, hval], h5⟩
    · rw [Option.some.inj e1]; simp
    · rw [Option.some.inj e2]; simp
  rcases hlen with h52 | h256
  · exact key 5 1 (by rw [h52]; exact ND_init_52) kernel_size_5 (by omega) (by rw [h52]; rfl)
  · exact key 1 4 (by rw [h256]; exact ND_init_256) kernel_size_1 (by omega)
      (by rw [h256]; rfl)

theorem at3_ok (v : List V3) (i : Nat) (h : i < v.length) :
    at3 v i = .ok (v.getD i V3.zero) := by
  unfold at3
  rw [List.getD_eq_getElem?_getD, List.getElem?_eq_getElem h]
  rfl

theorem labfq_length (pf : PatchFilter) (z : Bool) : (labfq pf z).length = pf.labf.length := by
  unfold labfq
  cases z <;> simp

/-- What `get_dE00_split` returns when `lab` and `labf` have the same length 52 or 256. -/
theorem get_dE00_split_ok (dE : V3 → V3 → ℚ) (pf : PatchFilter) (spread : Nat) (z : Bool)
    (hlen : pf.lab.length = 52 ∨ pf.lab.length = 256) (hf : pf.labf.length = pf.lab.length) :
    get_dE00_split dE pf spread z = .ok
      ((List.range' (if pf.lab.length = 52 then spread / 5 else spread)
          (pf.lab.length - (if pf.lab.length = 52 then spread / 5 else spread)
            - (if pf.lab.length = 52 then spread / 5 else spread))).map
        (fun i => dE (V3.smul (1 / 2) (V3.add
            ((labfq pf z).getD (i - (if pf.lab.length = 52 then spread / 5 else spread)) V3.zero)
            ((labfq pf z).getD (i + (if pf.lab.length = 52 then spread / 5 else spread)) V3.zero)))
          ((labfq pf z).getD i V3.zero))) := by
  unfold get_dE00_split
  rw [if_neg (by omega)]
  apply mapM_except_ok
  intro i hi
  rw [List.mem_range'_1] at hi
  have hq := labfq_length pf z
  unfold dE00_split_step
  rw [at3_ok _ _ (by omega), at3_ok _ _ (by omega), at3_ok _ _ (by omega)]
  rfl

/-- C12: for a `PatchFilter` built from a ramp of `N` = 52 or 256 entries, every spread `s`
in 5, 15 and both values of `zero_ab`, `get_dE00_split(s, zero_ab)` returns exactly
`N - 2 s'` values, where `s'` is `s` for `N` = 256 and `s / 5` for `N` = 52; value `j` is the
colour difference between the midpoint of the smoothed samples `j` and `j + 2 s'` and the
smoothed sample `j + s'` (with `a*` and `b*` zeroed when `zero_ab` is set).  For every
`PatchFilter` whose `lab` has neither 52 nor 256 entries the call throws the invalid-argument
error. -/
theorem get_dE00_split_length (dE : V3 → V3 → ℚ) (cc : Conversions) (vin : List V6)
    (spread : Nat) (zero_ab : Bool) (hlen : vin.length = 52 ∨ vin.length = 256)
    (hs : spread = 5 ∨ spread = 15) :
    (∃ pf vals, PatchFilter.construct cc vin = some pf ∧
      get_dE00_split dE pf spread zero_ab = .ok vals ∧
      vals.length = vin.length - 2 * (if vin.length = 52 then spread / 5 else spread) ∧
      (vin.length = 256 → spread = 15 → vals.length = 226) ∧
      (vin.length = 52 → spread = 15 → vals.length = 46) ∧
      ∀ j, j < vals.length → vals[j]? = some (dE
        (V3.smul (1 / 2) (V3.add ((labfq pf zero_ab).getD j V3.zero)
          ((labfq pf zero_ab).getD
            (j + 2 * (if vin.length = 52 then spread / 5 else spread)) V3.zero)))
        ((labfq pf zero_ab).getD
          (j + (if vin.length = 52 then spread / 5 else spread)) V3.zero))) ∧
    (∀ pf : PatchFilter, pf.lab.length ≠ 52 → pf.lab.length ≠ 256 →
      get_dE00_split dE pf spread zero_ab = .error .bad_ramp_length) := by
  constructor
  · obtain ⟨pf, hpf, hl, hlf, _⟩ := construct_sizes cc vin hlen
    have hok := get_dE00_split_ok dE pf spread zero_ab (by rw [hl]; exact hlen)
      (by rw [hlf, hl])
    rw [hl] at hok
    refine ⟨pf, _, hpf, hok, ?_, ?_, ?_, ?_⟩
    · rw [List.length_map, List.length_range']
      omega
    · intro h1 h2
      rw [List.length_map, List.length_range', h1, h2]
      rfl
    · intro h1 h2
      rw [List.length_map, List.length_range', h1, h2]
      rfl
    · intro j hj
      rw [List.length_map, List.length_range'] at hj
      rw [List.getElem?_map, List.getElem?_range' _ _ hj]
      simp only [Option.map_some', one_mul]
      have e1 : (if vin.length = 52 then spread / 5 else spread) + j
          - (if vin.length = 52 then spread / 5 else spread) = j := by omega
      have e2 : (if vin.length = 52 then spread / 5 else spread) + j
          + (if vin.length = 52 then spread / 5 else spread)
          = j + 2 * (if vin.length = 52 then spread / 5 else spread) := by omega
      have e3 : (if vin.length = 52 then spread / 5 else spread) + j
          = j + (if vin.length = 52 then spread / 5 else spread) := by omega
      rw [e1, e2, e3]
  · intro pf h1 h2
    unfold get_dE00_split
    rw [if_pos ⟨h1, h2⟩]

/-- Witness of C12: the 52-entry ramp `ramp_dip` with spread 15 and `zero_ab` set. -/
theorem get_dE00_split_length_witness :
    (ramp_dip.length = 52 ∨ ramp_dip.length = 256) ∧ ((15 : Nat) = 5 ∨ (15 : Nat) = 15) ∧
    (∃ pf vals, PatchFilter.construct id_conversions ramp_dip = some pf ∧
      get_dE00_split abs_dL pf 15 true = .ok vals ∧
      vals.length = ramp_dip.length - 2 * (if ramp_dip.length = 52 then 15 / 5 else 15) ∧
      (ramp_dip.length = 256 → 15 = 15 → vals.length = 226) ∧
      (ramp_dip.length = 52 → 15 = 15 → vals.length = 46) ∧
      ∀ j, j < vals.length → vals[j]? = some (abs_dL
        (V3.smul (1 / 2) (V3.add ((labfq pf true).getD j V3.zero)
          ((labfq pf true).getD
            (j + 2 * (if ramp_dip.length = 52 then 15 / 5 else 15)) V3.zero)))
        ((labfq pf true).getD
          (j + (if ramp_dip.length = 52 then 15 / 5 else 15)) V3.zero))) ∧
    (∀ pf : PatchFilter, pf.lab.length ≠ 52 → pf.lab.length ≠ 256 →
      get_dE00_split abs_dL pf 15 true = .error .bad_ramp_length) :=
  ⟨Or.inl (by decide), Or.inr rfl,
    get_dE00_split_length abs_dL id_conversions ramp_dip 15 true (Or.inl (by decide))
      (Or.inr rfl)⟩

theorem get_rgblab5_length (pf : PatchFilter) (z : Bool) :
    (get_rgblab5 pf z).length = pf.labf.length := by
  simp [get_rgblab5]

theorem get_rgblab5_getElem? (pf : PatchFilter) (z : Bool) (j : Nat) (hj : j < pf.labf.length) :
    (get_rgblab5 pf z)[j]? = some
      (if z then (⟨(((j : Int) * pf.ND : Int) : ℚ), (((j : Int) * pf.ND : Int) : ℚ),
          (((j : Int) * pf.ND : Int) : ℚ), (pf.labf.getD j V3.zero).x0, 0, 0⟩ : V6)
       else ⟨(((j : Int) * pf.ND : Int) : ℚ), (((j : Int) * pf.ND : Int) : ℚ),
          (((j : Int) * pf.ND : Int) : ℚ), (pf.labf.getD j V3.zero).x0,
          (pf.labf.getD j V3.zero).x1, (pf.labf.getD j V3.zero).x2⟩) := by
  unfold get_rgblab5
  rw [List.getElem?_map, List.getElem?_range hj]
  rfl

/-- What `get_rgblab5` returns for a `PatchFilter` built from a ramp of 52 entries: 52
entries, entry `j` with `R = G = B = 5 j` and the `L*` of `lab5` at `j`, with `a*` and `b*`
zero when `zero_ab` is set and those of `lab5` otherwise. -/
theorem get_rgblab5_coarse (cc : Conversions) (vin : List V6) (z : Bool)
    (hlen : vin.length = 52) :
    ∃ pf, PatchFilter.construct cc vin = some pf ∧ (get_rgblab5 pf z).length = 52 ∧
      ∀ j : Nat, j < 52 → (get_rgblab5 pf z)[j]? = some
        (if z then (⟨5 * (j : ℚ), 5 * (j : ℚ), 5 * (j : ℚ), (pf.lab5.getD j V3.zero).x0, 0, 0⟩ : V6)
         else ⟨5 * (j : ℚ), 5 * (j : ℚ), 5 * (j : ℚ), (pf.lab5.getD j V3.zero).x0,
            (pf.lab5.getD j V3.zero).x1, (pf.lab5.getD j V3.zero).x2⟩) := by
  obtain ⟨pf, hpf, _, hlf, _, _, hnd, h5⟩ := construct_sizes cc vin (Or.inl hlen)
  have h55 : pf.lab5 = pf.labf := by
    unfold resample5 at h5
    rw [if_pos (by omega)] at h5
    exact (Option.some.inj h5).symm
  refine ⟨pf, hpf, by rw [get_rgblab5_length, hlf, hlen], ?_⟩
  intro j hj
  have hND : pf.ND = 5 := by rw [hnd, hlen]; rfl
  rw [get_rgblab5_getElem? pf z j (by omega), hND, h55]
  have e : (((j : Int) * 5 : Int) : ℚ) = 5 * (j : ℚ) := by push_cast; ring
  rw [e]

/-- What `get_rgblab5` returns for a `PatchFilter` built from a ramp of 256 entries: 256
entries, one per entry of `labf`, entry `j` with `R = G = B = j`. -/
theorem get_rgblab5_fine (cc : Conversions) (vin : List V6) (z : Bool)
    (hlen : vin.length = 256) :
    ∃ pf, PatchFilter.construct cc vin = some pf ∧ pf.lab5.length = 52 ∧
      (get_rgblab5 pf z).length = 256 ∧
      ∀ j : Nat, j < 256 → ((get_rgblab5 pf z).getD j V6.zero).x0 = (j : ℚ) ∧
        ((get_rgblab5 pf z).getD j V6.zero).x3 = (pf.labf.getD j V3.zero).x0 := by
  obtain ⟨pf, hpf, _, hlf, _, h5l, hnd, _⟩ := construct_sizes cc vin (Or.inr hlen)
  refine ⟨pf, hpf, h5l, by rw [get_rgblab5_length, hlf, hlen], ?_⟩
  intro j hj
  have hND : pf.ND = 1 := by rw [hnd, hlen]; rfl
  rw [List.getD_eq_getElem?_getD, get_rgblab5_getElem? pf z j (by omega), hND]
  cases z <;> simp

/-- C13, the code at a failing input: for the 256-entry ramp `ramp256` the constructor
returns, `lab5` has 52 entries, and `get_rgblab5` returns 256 entries, not 52: entry `j` has
the gray level `j` (entry 1 has gray level 1, not 5) and the lightness of `labf` at `j`. -/
theorem get_rgblab5_ramp256 :
    ramp256.length = 256 ∧
    ∃ pf, PatchFilter.construct id_conversions ramp256 = some pf ∧ pf.lab5.length = 52 ∧
      (get_rgblab5 pf true).length = 256 ∧ (get_rgblab5 pf false).length = 256 ∧
      ((get_rgblab5 pf true).getD 1 V6.zero).x0 = 1 ∧
      ((get_rgblab5 pf true).getD 255 V6.zero).x0 = 255 := by
  have hl : ramp256.length = 256 := by simp [ramp256]
  obtain ⟨pf, hpf, h5, hlen, hg⟩ := get_rgblab5_fine id_conversions ramp256 true hl
  obtain ⟨pf2, hpf2, _, hlen2, _⟩ := get_rgblab5_fine id_conversions ramp256 false hl
  rw [hpf] at hpf2
  have e : pf = pf2 := Option.some.inj hpf2
  subst e
  refine ⟨hl, pf, hpf, h5, hlen, hlen2, ?_, ?_⟩
  · have := (hg 1 (by omega)).1
    simpa using this
  · have := (hg 255 (by omega)).1
    simpa using this

/-! ## Theorems: the percentile tables -/

theorem sort_asc_perm (l : List ℚ) : (sort_asc l).Perm l :=
  List.perm_insertionSort _ l

theorem sort_asc_length (l : List ℚ) : (sort_asc l).length = l.length :=
  (sort_asc_perm l).length_eq

theorem percents_range : ∀ p ∈ percents, (50 : ℚ) ≤ p ∧ p ≤ 100 := by
  intro p hp
  simp only [percents, List.mem_cons, List.mem_singleton, List.not_mem_nil, or_false] at hp
  rcases hp with rfl | rfl | rfl | rfl | rfl | rfl <;> norm_num

theorem mapM_option_some {α β : Type} (f : α → Option β) (g : α → β) (l : List α)
    (h : ∀ a ∈ l, f a = some (g a)) : l.mapM f = some (l.map g) := by
  induction l with
  | nil => rfl
  | cons a l ih =>
    rw [List.mapM_cons, h a (List.mem_cons_self _ _),
      ih (fun b hb => h b (List.mem_cons_of_mem _ hb))]
    rfl

/-! ## Theorems: arithmetic in `double` -/

theorem log2_loop_spec : ∀ (fuel n : Nat), n ≤ fuel → n ≠ 0 →
    2 ^ log2_loop fuel n ≤ n ∧ n < 2 ^ (log2_loop fuel n + 1) := by
  intro fuel
  induction fuel with
  | zero =>
    intro n hn h0
    omega
  | succ fuel ih =>
    intro n hn h0
    unfold log2_loop
    by_cases h2 : 2 ≤ n
    · rw [if_pos h2]
      obtain ⟨h1, h3⟩ := ih (n / 2) (by omega) (by omega)
      constructor
      · rw [Nat.pow_succ]
        omega
      · rw [Nat.pow_succ]
        omega
    · rw [if_neg h2]
      have : n = 1 := by omega
      subst this
      simp

theorem log2_floor_spec (n : Nat) (h0 : n ≠ 0) :
    2 ^ log2_floor n ≤ n ∧ n < 2 ^ (log2_floor n + 1) :=
  log2_loop_spec n n (le_refl n) h0

theorem pow2_eq_zpow (e : Int) : pow2 e = (2 : ℚ) ^ e := by
  unfold pow2
  by_cases h : 0 ≤ e
  · rw [if_pos h]
    obtain ⟨n, rfl⟩ := Int.eq_ofNat_of_zero_le h
    simp
  · rw [if_neg h]
    obtain ⟨n, hn⟩ : ∃ n : Nat, -e = (n : Int) := Int.eq_ofNat_of_zero_le (by omega)
    have he : e = -(n : Int) := by omega
    rw [hn, he, zpow_neg, Int.toNat_natCast, zpow_natCast, one_div]

theorem pow2_pos (e : Int) : 0 < pow2 e := by
  rw [pow2_eq_zpow]
  positivity

theorem ratio_bounds (N D : ℚ) (a b : Nat) (hD : 0 < D) (h1 : (2 : ℚ) ^ a ≤ N)
    (h2 : N < (2 : ℚ) ^ (a + 1)) (h3 : (2 : ℚ) ^ b ≤ D) (h4 : D < (2 : ℚ) ^ (b + 1)) :
    (2 : ℚ) ^ ((a : Int) - (b : Int) - 1) ≤ N / D ∧
      N / D < (2 : ℚ) ^ ((a : Int) - (b : Int) + 1) := by
  have hpa : (0 : ℚ) < (2 : ℚ) ^ a := by positivity
  have hpb : (0 : ℚ) < (2 : ℚ) ^ b := by positivity
  have hN : 0 < N := lt_of_lt_of_le hpa h1
  rw [pow_succ] at h2 h4
  constructor
  · rw [zpow_sub₀ (by norm_num), zpow_sub₀ (by norm_num), zpow_natCast, zpow_natCast, zpow_one,
      div_div, div_le_div_iff₀ (by positivity) hD]
    calc (2 : ℚ) ^ a * D ≤ N * D := mul_le_mul_of_nonneg_right h1 (le_of_lt hD)
      _ ≤ N * ((2 : ℚ) ^ b * 2) := mul_le_mul_of_nonneg_left (le_of_lt h4) (le_of_lt hN)
  · rw [zpow_add₀ (by norm_num), zpow_sub₀ (by norm_num), zpow_natCast, zpow_natCast, zpow_one,
      div_mul_eq_mul_div, div_lt_div_iff₀ hD hpb]
    calc N * (2 : ℚ) ^ b ≤ N * D := mul_le_mul_of_nonneg_left h3 (le_of_lt hN)
      _ < (2 : ℚ) ^ a * 2 * D := mul_lt_mul_of_pos_right h2 hD

/-- The exponent `binade x` of a positive `x` is the one of its binade:
`2^e <= x < 2^(e+1)`. -/
theorem binade_spec (x : ℚ) (hx : 0 < x) :
    pow2 (binade x) ≤ x ∧ x < pow2 (binade x + 1) := by
  have hnum : 0 < x.num := Rat.num_pos.mpr hx
  have hn0 : x.num.natAbs ≠ 0 := by omega
  have hd0 : x.den ≠ 0 := x.den_nz
  obtain ⟨ha1, ha2⟩ := log2_floor_spec x.num.natAbs hn0
  obtain ⟨hb1, hb2⟩ := log2_floor_spec x.den hd0
  have hcast : ((x.num.natAbs : Nat) : ℚ) = (x.num : ℚ) := by
    rw [Nat.cast_natAbs, abs_of_pos hnum]
  have hxeq : (x.num.natAbs : ℚ) / (x.den : ℚ) = x := by
    rw [hcast]
    exact Rat.num_div_den x
  have hdpos : (0 : ℚ) < (x.den : ℚ) := by exact_mod_cast Nat.pos_of_ne_zero hd0
  obtain ⟨hlow, hhigh⟩ := ratio_bounds (x.num.natAbs : ℚ) (x.den : ℚ)
    (log2_floor x.num.natAbs) (log2_floor x.den) hdpos (by exact_mod_cast ha1)
    (by exact_mod_cast ha2) (by exact_mod_cast hb1) (by exact_mod_cast hb2)
  rw [hxeq] at hlow hhigh
  unfold binade
  simp only []
  by_cases hc : x < pow2 ((log2_floor x.num.natAbs : Int) - (log2_floor x.den : Int))
  · rw [if_pos hc]
    refine ⟨by rw [pow2_eq_zpow]; exact hlow, ?_⟩
    have e : (log2_floor x.num.natAbs : Int) - (log2_floor x.den : Int) - 1 + 1
        = (log2_floor x.num.natAbs : Int) - (log2_floor x.den : Int) := by ring
    rw [e]
    exact hc
  · rw [if_neg hc]
    exact ⟨not_lt.mp hc, by rw [pow2_eq_zpow]; exact hhigh⟩

theorem round_even_close (m : ℚ) : |(round_even m : ℚ) - m| ≤ 1 / 2 := by
  have h1 : (⌊m⌋ : ℚ) ≤ m := Int.floor_le m
  have h2 : m < (⌊m⌋ : ℚ) + 1 := Int.lt_floor_add_one m
  unfold round_even
  rw [abs_le]
  split
  · constructor <;> linarith
  · split
    · push_cast
      constructor <;> linarith
    · split
      · constructor <;> linarith
      · push_cast
        constructor <;> linarith

/-- The rounding to `double` changes a positive value by at most the fraction `2^-53` of
it. -/
theorem to_double_close (x : ℚ) (hx : 0 < x) :
    |to_double x - x| ≤ x / 2 ^ 53 := by
  unfold to_double
  rw [if_neg (ne_of_gt hx), if_pos hx]
  have hq : 0 < pow2 (binade x - 52) := pow2_pos _
  have hb := (binade_spec x hx).1
  have hqe : pow2 (binade x - 52) = pow2 (binade x) / 2 ^ 52 := by
    rw [pow2_eq_zpow, pow2_eq_zpow, zpow_sub₀ (by norm_num)]
    norm_num
  have hr := round_even_close (x / pow2 (binade x - 52))
  have e : (round_even (x / pow2 (binade x - 52)) : ℚ) * pow2 (binade x - 52) - x
      = ((round_even (x / pow2 (binade x - 52)) : ℚ) - x / pow2 (binade x - 52))
        * pow2 (binade x - 52) := by
    field_simp
  rw [e, abs_mul, abs_of_pos hq]
  calc |(round_even (x / pow2 (binade x - 52)) : ℚ) - x / pow2 (binade x - 52)|
        * pow2 (binade x - 52)
      ≤ 1 / 2 * pow2 (binade x - 52) := mul_le_mul_of_nonneg_right hr (le_of_lt hq)
    _ = pow2 (binade x) / 2 ^ 53 := by rw [hqe]; ring
    _ ≤ x / 2 ^ 53 := by
        apply div_le_div_of_nonneg_right hb
        positivity

theorem to_double_bounds (x : ℚ) (hx : 0 < x) :
    x * (1 - 1 / 2 ^ 53) ≤ to_double x ∧ to_double x ≤ x * (1 + 1 / 2 ^ 53) := by
  have h := to_double_close x hx
  rw [abs_le] at h
  constructor <;> linarith [h.1, h.2]

theorem dbl_round_step (x t : ℚ) (k : Nat) (ht : 0 < t)
    (h : t * (1 - 1 / 2 ^ 53) ^ k ≤ x ∧ x ≤ t * (1 + 1 / 2 ^ 53) ^ k) :
    t * (1 - 1 / 2 ^ 53) ^ (k + 1) ≤ to_double x ∧
      to_double x ≤ t * (1 + 1 / 2 ^ 53) ^ (k + 1) := by
  have hu : (0 : ℚ) < 1 - 1 / 2 ^ 53 := by norm_num
  have hlow : 0 < t * (1 - 1 / 2 ^ 53) ^ k := mul_pos ht (pow_pos hu k)
  have hx : 0 < x := lt_of_lt_of_le hlow h.1
  obtain ⟨b1, b2⟩ := to_double_bounds x hx
  constructor
  · calc t * (1 - 1 / 2 ^ 53) ^ (k + 1) = (t * (1 - 1 / 2 ^ 53) ^ k) * (1 - 1 / 2 ^ 53) := by ring
      _ ≤ x * (1 - 1 / 2 ^ 53) := mul_le_mul_of_nonneg_right h.1 (le_of_lt hu)
      _ ≤ to_double x := b1
  · calc to_double x ≤ x * (1 + 1 / 2 ^ 53) := b2
      _ ≤ (t * (1 + 1 / 2 ^ 53) ^ k) * (1 + 1 / 2 ^ 53) :=
          mul_le_mul_of_nonneg_right h.2 (by norm_num)
      _ = t * (1 + 1 / 2 ^ 53) ^ (k + 1) := by ring

theorem dbl_mul_step (x y t s : ℚ) (j k : Nat) (ht : 0 < t) (hs : 0 < s)
    (hx : t * (1 - 1 / 2 ^ 53) ^ j ≤ x ∧ x ≤ t * (1 + 1 / 2 ^ 53) ^ j)
    (hy : s * (1 - 1 / 2 ^ 53) ^ k ≤ y ∧ y ≤ s * (1 + 1 / 2 ^ 53) ^ k) :
    (t * s) * (1 - 1 / 2 ^ 53) ^ (j + k) ≤ x * y ∧
      x * y ≤ (t * s) * (1 + 1 / 2 ^ 53) ^ (j + k) := by
  have hu : (0 : ℚ) < 1 - 1 / 2 ^ 53 := by norm_num
  have hv : (0 : ℚ) < 1 + 1 / 2 ^ 53 := by norm_num
  have hlx : 0 < t * (1 - 1 / 2 ^ 53) ^ j := mul_pos ht (pow_pos hu j)
  have hly : 0 < s * (1 - 1 / 2 ^ 53) ^ k := mul_pos hs (pow_pos hu k)
  have hx0 : 0 < x := lt_of_lt_of_le hlx hx.1
  have hy0 : 0 < y := lt_of_lt_of_le hly hy.1
  constructor
  · calc (t * s) * (1 - 1 / 2 ^ 53) ^ (j + k)
        = (t * (1 - 1 / 2 ^ 53) ^ j) * (s * (1 - 1 / 2 ^ 53) ^ k) := by ring
      _ ≤ x * y := mul_le_mul hx.1 hy.1 (le_of_lt hly) (le_of_lt hx0)
  · calc x * y ≤ (t * (1 + 1 / 2 ^ 53) ^ j) * (s * (1 + 1 / 2 ^ 53) ^ k) :=
          mul_le_mul hx.2 hy.2 (le_of_lt hy0) (le_of_lt (mul_pos ht (pow_pos hv j)))
      _ = (t * s) * (1 + 1 / 2 ^ 53) ^ (j + k) := by ring

/-- The value that line 223 casts to `int` differs from the exact `size * p / 100 + 1/2` by
less than `1/200`, for a vector of fewer than `2^31` elements and a level in `(0, 100]`. -/
theorem percent_value_close (n : Nat) (p : ℚ) (hn : 1 ≤ n) (hlt : n < 2 ^ 31) (hp : 0 < p)
    (hp2 : p ≤ 100) :
    |to_double (to_double (to_double (to_double (1 / 100) * to_double (n : ℚ)) * p) + 1 / 2)
      - ((n : ℚ) * p / 100 + 1 / 2)| ≤ 1 / 200 := by
  have hn0 : (0 : ℚ) < (n : ℚ) := by exact_mod_cast hn
  have hn1 : (n : ℚ) ≤ 2 ^ 31 := by exact_mod_cast (le_of_lt hlt)
  have hc := dbl_round_step (1 / 100) (1 / 100) 0 (by norm_num) ⟨by simp, by simp⟩
  have hm := dbl_round_step (n : ℚ) (n : ℚ) 0 hn0 ⟨by simp, by simp⟩
  have hcm := dbl_mul_step _ _ _ _ (0 + 1) (0 + 1) (by norm_num) hn0 hc hm
  have h1 := dbl_round_step _ _ _ (by positivity) hcm
  have hpp : p * (1 - 1 / 2 ^ 53) ^ 0 ≤ p ∧ p ≤ p * (1 + 1 / 2 ^ 53) ^ 0 := ⟨by simp, by simp⟩
  have h1p := dbl_mul_step _ p _ p (0 + 1 + (0 + 1) + 1) 0 (by positivity) hp h1 hpp
  have h2 := dbl_round_step _ _ _ (by positivity) h1p
  have hT0 : (0 : ℚ) < 1 / 100 * (n : ℚ) * p := by positivity
  have hT1 : 1 / 100 * (n : ℚ) * p ≤ 2 ^ 31 := by
    calc 1 / 100 * (n : ℚ) * p ≤ 1 / 100 * (n : ℚ) * 100 :=
          mul_le_mul_of_nonneg_left hp2 (by positivity)
      _ = (n : ℚ) := by ring
      _ ≤ 2 ^ 31 := hn1
  have hx2 : 0 < to_double (to_double (to_double (1 / 100) * to_double (n : ℚ)) * p) := by
    refine lt_of_lt_of_le (mul_pos hT0 (pow_pos (by norm_num) _)) h2.1
  obtain ⟨b1, b2⟩ := to_double_bounds
    (to_double (to_double (to_double (1 / 100) * to_double (n : ℚ)) * p) + 1 / 2)
    (by linarith)
  have e : (n : ℚ) * p / 100 + 1 / 2 = 1 / 100 * (n : ℚ) * p + 1 / 2 := by ring
  rw [e]
  generalize to_double (to_double (to_double (to_double (1 / 100) * to_double (n : ℚ)) * p)
    + 1 / 2) = s at b1 b2 ⊢
  generalize to_double (to_double (to_double (1 / 100) * to_double (n : ℚ)) * p) = x2
    at h2 hx2 b1 b2
  generalize 1 / 100 * (n : ℚ) * p = T at h2 hT0 hT1 ⊢
  obtain ⟨l2, u2⟩ := h2
  norm_num at l2 u2 b1 b2
  rw [abs_le]
  constructor <;> linarith

theorem floor_hundred (A : Nat) : ⌊(A : ℚ) / 100⌋ = ((A / 100 : Nat) : Int) := by
  have h := Nat.div_add_mod A 100
  have hr : A % 100 < 100 := Nat.mod_lt _ (by norm_num)
  generalize A / 100 = k at h ⊢
  generalize A % 100 = r at h hr
  subst h
  have hr0 : (0 : ℚ) ≤ (r : ℚ) := by positivity
  have hr1 : (r : ℚ) < 100 := by exact_mod_cast hr
  rw [Int.floor_eq_iff]
  push_cast
  constructor
  · rw [le_div_iff₀ (by norm_num)]
    linarith
  · rw [div_lt_iff₀ (by norm_num)]
    linarith

/-- The truncation of a value within `1/200` of `A / 100`: the quotient `A / 100` when `A`
is no multiple of 100, the quotient or one less when it is. -/
theorem trunc_near (s : ℚ) (A : Nat) (hA : 50 ≤ A) (h : |s - (A : ℚ) / 100| ≤ 1 / 200) :
    trunc_int s ≤ ((A / 100 : Nat) : Int) ∧
      (A % 100 ≠ 0 → trunc_int s = ((A / 100 : Nat) : Int)) ∧
      (A % 100 = 0 → trunc_int s = ((A / 100 : Nat) : Int) ∨
        trunc_int s = ((A / 100 : Nat) : Int) - 1) := by
  rw [abs_le] at h
  obtain ⟨h1, h2⟩ := h
  have hd := Nat.div_add_mod A 100
  have hr : A % 100 < 100 := Nat.mod_lt _ (by norm_num)
  generalize A / 100 = k at hd ⊢
  generalize A % 100 = r at hd hr ⊢
  subst hd
  have hA2 : (50 : ℚ) ≤ 100 * (k : ℚ) + (r : ℚ) := by exact_mod_cast hA
  have hr0 : (0 : ℚ) ≤ (r : ℚ) := by positivity
  have hr1 : (r : ℚ) ≤ 99 := by exact_mod_cast (by omega : r ≤ 99)
  push_cast at h1 h2
  have hs0 : 0 ≤ s := by linarith
  have ht : trunc_int s = ⌊s⌋ := by
    unfold trunc_int
    rw [if_pos hs0]
  rw [ht]
  have hup : s < (((k : Int) + 1 : Int) : ℚ) := by
    push_cast
    linarith
  have hle : ⌊s⌋ ≤ (k : Int) := by
    have := Int.floor_lt.mpr hup
    omega
  refine ⟨hle, ?_, ?_⟩
  · intro hne
    have hr2 : (1 : ℚ) ≤ (r : ℚ) := by
      exact_mod_cast (by omega : 1 ≤ r)
    have hlow : (((k : Int) : Int) : ℚ) ≤ s := by
      push_cast
      linarith
    have := Int.le_floor.mpr hlow
    omega
  · intro he
    subst he
    have hlow : ((((k : Int) - 1 : Int) : Int) : ℚ) ≤ s := by
      push_cast
      push_cast at h1
      linarith
    have := Int.le_floor.mpr hlow
    omega

/-- The index of line 223 for a vector of `n` elements, `1 <= n < 2^31`, and a level `p`
from 1 to 100: with `A = n * p + 50`, the index is `A / 100 - 1`, or possibly one less when
`A` is a multiple of 100. -/
theorem percent_loc_nat (n p : Nat) (hn : 1 ≤ n) (hlt : n < 2 ^ 31) (hp : 1 ≤ p)
    (hp2 : p ≤ 100) :
    ∃ idx : Int, percent_loc n (p : ℚ) = some idx ∧
      idx ≤ (((n * p + 50) / 100 : Nat) : Int) - 1 ∧
      ((n * p + 50) % 100 ≠ 0 → idx = (((n * p + 50) / 100 : Nat) : Int) - 1) ∧
      ((n * p + 50) % 100 = 0 → idx = (((n * p + 50) / 100 : Nat) : Int) - 1 ∨
        idx = (((n * p + 50) / 100 : Nat) : Int) - 2) := by
  have hp0 : (0 : ℚ) < (p : ℚ) := by exact_mod_cast hp
  have hp100 : (p : ℚ) ≤ 100 := by exact_mod_cast hp2
  have hc := percent_value_close n (p : ℚ) hn hlt hp0 hp100
  have e : (n : ℚ) * (p : ℚ) / 100 + 1 / 2 = ((n * p + 50 : Nat) : ℚ) / 100 := by
    push_cast
    ring
  rw [e] at hc
  obtain ⟨t1, t2, t3⟩ := trunc_near _ (n * p + 50) (by omega) hc
  have hnp : n * p ≤ (2 ^ 31 - 1) * 100 := Nat.mul_le_mul (by omega) hp2
  have hAq : ((n * p + 50 : Nat) : ℚ) ≤ ((2 ^ 31 - 1) * 100 + 50 : Nat) := by
    exact_mod_cast (by omega : n * p + 50 ≤ (2 ^ 31 - 1) * 100 + 50)
  rw [abs_le] at hc
  have hrange : -(2 : ℚ) ^ 31 - 1 <
      to_double (to_double (to_double (to_double (1 / 100) * to_double (n : ℚ)) * (p : ℚ))
        + 1 / 2) ∧
      to_double (to_double (to_double (to_double (1 / 100) * to_double (n : ℚ)) * (p : ℚ))
        + 1 / 2) < (2 : ℚ) ^ 31 := by
    have h0 : (0 : ℚ) ≤ ((n * p + 50 : Nat) : ℚ) := by positivity
    norm_num at hAq
    constructor
    · have : (0 : ℚ) ≤ ((n * p + 50 : Nat) : ℚ) / 100 := by positivity
      norm_num
      linarith [hc.1]
    · norm_num
      linarith [hc.2]
  refine ⟨trunc_int (to_double (to_double (to_double (to_double (1 / 100) * to_double (n : ℚ))
    * (p : ℚ)) + 1 / 2)) - 1, ?_, by omega, ?_, ?_⟩
  · unfold percent_loc int_of_double
    rw [if_pos hrange]
    rfl
  · intro h
    rw [t2 h]
  · intro h
    rcases t3 h with h3 | h3
    · exact Or.inl (by rw [h3])
    · exact Or.inr (by rw [h3]; ring)

theorem percents_nat : ∀ p ∈ percents, ∃ pn : Nat, p = (pn : ℚ) ∧ 50 ≤ pn ∧ pn ≤ 100 := by
  intro p hp
  simp only [percents, List.mem_cons, List.mem_singleton, List.not_mem_nil, or_false] at hp
  rcases hp with rfl | rfl | rfl | rfl | rfl | rfl
  · exact ⟨50, by norm_num, by omega, by omega⟩
  · exact ⟨75, by norm_num, by omega, by omega⟩
  · exact ⟨90, by norm_num, by omega, by omega⟩
  · exact ⟨95, by norm_num, by omega, by omega⟩
  · exact ⟨98, by norm_num, by omega, by omega⟩
  · exact ⟨100, by norm_num, by omega, by omega⟩

theorem percent_loc_one : percent_loc 1 50 = some 0 := by decide!

/-- The index of line 223 for a non-empty vector of fewer than `2^31` elements and one of the
six levels: it is the nearest-rank index `floor(size * p / 100 + 1/2) - 1`, or one less, which
can happen only when `size * p / 100 + 1/2` is an integer; and it lies in the vector. -/
theorem percent_loc_range (size : Nat) (p : ℚ) (hs : 1 ≤ size) (hlt : size < 2 ^ 31)
    (hp : p ∈ percents) :
    ∃ idx : Int, percent_loc size p = some idx ∧
      (idx = ⌊(size : ℚ) * p / 100 + 1 / 2⌋ - 1 ∨
        (((⌊(size : ℚ) * p / 100 + 1 / 2⌋ : Int) : ℚ) = (size : ℚ) * p / 100 + 1 / 2 ∧
          idx = ⌊(size : ℚ) * p / 100 + 1 / 2⌋ - 2)) ∧
      0 ≤ idx ∧ idx < size := by
  obtain ⟨pn, rfl, h50, h100⟩ := percents_nat p hp
  obtain ⟨idx, hidx, hle, h1, h2⟩ := percent_loc_nat size pn hs hlt (by omega) h100
  have e : (size : ℚ) * (pn : ℚ) / 100 + 1 / 2 = ((size * pn + 50 : Nat) : ℚ) / 100 := by
    push_cast
    ring
  have hfl : ⌊(size : ℚ) * (pn : ℚ) / 100 + 1 / 2⌋ = (((size * pn + 50) / 100 : Nat) : Int) := by
    rw [e, floor_hundred]
  have hlo : size * 50 ≤ size * pn := Nat.mul_le_mul_left _ h50
  have hhi : size * pn ≤ size * 100 := Nat.mul_le_mul_left _ h100
  have hk1 : 1 ≤ (size * pn + 50) / 100 := by omega
  have hk2 : (size * pn + 50) / 100 ≤ size := by omega
  by_cases hr : (size * pn + 50) % 100 = 0
  · by_cases hone : size * pn = 50
    · have hs1 : size = 1 := by
        rcases Nat.lt_or_ge size 2 with h | h
        · omega
        · have : 2 * 50 ≤ size * pn := Nat.mul_le_mul h h50
          omega
      subst hs1
      have hpn : pn = 50 := by omega
      subst hpn
      have h0 : percent_loc 1 ((50 : Nat) : ℚ) = some 0 := by
        have := percent_loc_one
        norm_num at this ⊢
        exact this
      rw [h0] at hidx
      have hi : idx = 0 := (Option.some.inj hidx).symm
      subst hi
      refine ⟨0, h0, Or.inl ?_, le_refl _, by omega⟩
      rw [hfl]
      norm_num
    · have hk3 : 2 ≤ (size * pn + 50) / 100 := by omega
      refine ⟨idx, hidx, ?_, ?_, by omega⟩
      · rcases h2 hr with h3 | h3
        · exact Or.inl (by rw [hfl]; exact h3)
        · refine Or.inr ⟨?_, by rw [hfl]; exact h3⟩
          rw [hfl, e]
          have hd := Nat.div_add_mod (size * pn + 50) 100
          rw [hr, Nat.add_zero] at hd
          generalize (size * pn + 50) / 100 = k at hd
          rw [← hd]
          push_cast
          ring
      · rcases h2 hr with h3 | h3 <;> omega
  · have h3 := h1 hr
    exact ⟨idx, hidx, Or.inl (by rw [hfl]; exact h3), by omega, by omega⟩

/-- From `2^31` elements on the cast of line 223 is undefined for level 100: the value
`2^31 + .5` is no `int`. -/
theorem percent_loc_overflow : percent_loc (2 ^ 31) 100 = none := by decide!

/-- What `fill_percents` returns for a non-empty vector of fewer than `2^31` elements. -/
theorem fill_percents_eq (dE : List ℚ) (hne : dE ≠ []) (hlt : dE.length < 2 ^ 31) :
    fill_percents dE = some (percents.map (fun p =>
      (sort_asc dE).getD ((percent_loc dE.length p).getD 0).toNat 0)) := by
  have hs : 1 ≤ dE.length := List.length_pos.mpr hne
  unfold fill_percents
  apply mapM_option_some
  intro p hp
  rw [sort_asc_length]
  obtain ⟨idx, hidx, _, h0, h1⟩ := percent_loc_range dE.length p hs hlt hp
  rw [hidx]
  simp only [Option.some_bind, Option.getD_some]
  unfold at_int
  rw [if_pos h0, List.getD_eq_getElem?_getD,
    List.getElem?_eq_getElem (by rw [sort_asc_length]; omega)]
  rfl

theorem mapM_option_isSome {α β : Type} (f : α → Option β) (l : List α)
    (h : ∀ a ∈ l, (f a).isSome = true) :
    ∃ res, l.mapM f = some res ∧ res.length = l.length := by
  induction l with
  | nil => exact ⟨[], rfl, rfl⟩
  | cons a l ih =>
    obtain ⟨res, hres, hlen⟩ := ih (fun b hb => h b (List.mem_cons_of_mem _ hb))
    obtain ⟨b, hb⟩ := Option.isSome_iff_exists.mp (h a (List.mem_cons_self _ _))
    refine ⟨b :: res, ?_, by simp [hlen]⟩
    rw [List.mapM_cons, hb, hres]
    rfl

theorem synth_step_neutral (cc : Conversions) (bw : List V6) (steps : List ℚ) (color : Bool)
    (st : List V6 × Nat) (t : Nat × Nat × Nat) (ht : ¬ not_neutral t = true) :
    synth_step cc bw steps color st t = some st := by
  unfold synth_step
  rw [if_neg ht]

theorem synth_step_entry (cc : Conversions) (bw : List V6) (steps : List ℚ) (color : Bool)
    (r : List V6) (idx : Nat) (t : Nat × Nat × Nat) (ht : not_neutral t = true) :
    synth_step cc bw steps color (r, idx) t =
      (synth_entry cc bw steps color t).bind (fun e =>
        if idx < r.length then some (r.set idx e, idx + 1) else none) := by
  unfold synth_step
  rw [if_pos ht]
  rfl

theorem set_take_append (r : List V6) (idx k : Nat) (e : V6) (es : List V6)
    (hlt : idx < r.length) :
    (r.set idx e).take (idx + 1) ++ (es ++ (r.set idx e).drop (idx + 1 + k))
      = r.take idx ++ (e :: es ++ r.drop (idx + (k + 1))) := by
  have e1 : idx + 1 + k = idx + (k + 1) := by omega
  have hl : (List.take idx r).length = idx := by
    rw [List.length_take]; omega
  rw [List.set_eq_take_append_cons_drop, if_pos hlt, e1]
  have h1 : List.take (idx + 1) (List.take idx r ++ e :: List.drop (idx + 1) r)
      = List.take idx r ++ [e] := by
    rw [List.take_append_eq_append_take, hl]
    have : idx + 1 - idx = 1 := by omega
    rw [this, List.take_of_length_le (by omega)]
    rfl
  have h2 : List.drop (idx + (k + 1)) (List.take idx r ++ e :: List.drop (idx + 1) r)
      = List.drop (idx + (k + 1)) r := by
    rw [List.drop_append_eq_append_drop, hl, List.drop_of_length_le (by omega)]
    have : idx + (k + 1) - idx = k + 1 := by omega
    rw [this, List.nil_append, List.drop_succ_cons, List.drop_drop]
    congr 1
  rw [h1, h2]
  simp

/-- The synthesis loop on the state `(r, idx)`: the entries of the non-neutral triples are
written one after the other from position `idx` on. -/
theorem synth_loop (cc : Conversions) (bw : List V6) (steps : List ℚ) (color : Bool)
    (ts : List (Nat × Nat × Nat)) :
    ∀ (r : List V6) (idx : Nat), idx ≤ r.length →
      ts.foldlM (synth_step cc bw steps color) (r, idx) =
        ((ts.filter not_neutral).mapM (synth_entry cc bw steps color)).bind (fun es =>
          if idx + es.length ≤ r.length
          then some (r.take idx ++ (es ++ r.drop (idx + es.length)), idx + es.length)
          else none) := by
  induction ts with
  | nil =>
    intro r idx hidx
    rw [List.filter_nil, List.mapM_nil, List.foldlM_nil]
    simp [hidx]
  | cons t ts ih =>
    intro r idx hidx
    rw [List.foldlM_cons]
    by_cases ht : not_neutral t = true
    · rw [synth_step_entry _ _ _ _ _ _ _ ht, List.filter_cons_of_pos ht, List.mapM_cons]
      cases he : synth_entry cc bw steps color t with
      | none => rfl
      | some e =>
        simp only [Option.bind_eq_bind, Option.some_bind]
        by_cases hlt : idx < r.length
        · rw [if_pos hlt]
          simp only [Option.some_bind]
          rw [ih (r.set idx e) (idx + 1) (by rw [List.length_set]; omega)]
          cases hes : (ts.filter not_neutral).mapM (synth_entry cc bw steps color) with
          | none => rfl
          | some es =>
            simp only [Option.some_bind, Option.bind_some, List.length_set, List.length_cons,
              pure]
            have e1 : idx + 1 + es.length = idx + (es.length + 1) := by omega
            by_cases hfit : idx + (es.length + 1) ≤ r.length
            · rw [if_pos hfit, if_pos (by omega), set_take_append r idx es.length e es hlt, e1]
            · rw [if_neg hfit, if_neg (by omega)]
        · rw [if_neg hlt]
          simp only [Option.none_bind]
          cases (ts.filter not_neutral).mapM (synth_entry cc bw steps color) with
          | none => rfl
          | some es =>
            simp only [Option.some_bind, Option.bind_some, List.length_cons, pure]
            rw [if_neg (by omega)]
    · rw [synth_step_neutral _ _ _ _ _ _ ht, List.filter_cons_of_neg ht]
      simp only [Option.bind_eq_bind, Option.some_bind]
      exact ih r idx hidx

theorem loop_triples_count : (loop_triples.filter not_neutral).length = 210 := by decide!

theorem mapM_option_forall₂ {α β : Type} (f : α → Option β) :
    ∀ (l : List α) (res : List β), l.mapM f = some res →
      List.Forall₂ (fun a b => f a = some b) l res := by
  intro l
  induction l with
  | nil =>
    intro res h
    rw [List.mapM_nil] at h
    cases Option.some.inj h
    exact List.Forall₂.nil
  | cons a l ih =>
    intro res h
    rw [List.mapM_cons] at h
    cases hf : f a with
    | none => rw [hf] at h; cases h
    | some b =>
      cases hl : l.mapM f with
      | none => rw [hf, hl] at h; cases h
      | some bs =>
        rw [hf, hl] at h
        cases Option.some.inj h
        exact List.Forall₂.cons hf (ih bs hl)

/-- The function `find_lab_interpolation` returns for every `x` from 0 up to the last gray
level of a ramp `v` whose first `n` entries have the gray levels `0, nd, 2 nd, ...`. -/
theorem find_lab_interpolation_some (v : List V6) (n : Nat) (nd : ℚ) (x : Int)
    (hn : 0 < n) (hnd : 0 < nd)
    (hv : ∀ j : Nat, j < n → ∃ e, v[j]? = some e ∧ e.x0 = (j : ℚ) * nd)
    (hx0 : 0 ≤ x) (hx1 : (x : ℚ) ≤ ((n : ℚ) - 1) * nd) :
    (find_lab_interpolation v x).isSome = true := by
  unfold find_lab_interpolation
  obtain ⟨e0, he0, he00⟩ := hv 0 hn
  by_cases hx : x = 0
  · rw [if_pos hx, he0]
    rfl
  · rw [if_neg hx]
    have hxpos : (0 : ℚ) < (x : ℚ) := by
      have : 0 < x := lt_of_le_of_ne hx0 (Ne.symm hx)
      exact_mod_cast this
    obtain ⟨el, hel, hel0⟩ := hv (n - 1) (by omega)
    have hcast : ((n - 1 : Nat) : ℚ) = (n : ℚ) - 1 := by
      rw [Nat.cast_sub (by omega)]
      simp
    have hpl : (fun arg : V6 => decide (arg.x0 ≥ (x : ℚ))) el = true := by
      simp only [decide_eq_true_eq]
      rw [hel0, hcast]
      exact hx1
    have hlv : n - 1 < v.length := by
      by_contra hc
      rw [List.getElem?_eq_none (by omega)] at hel
      cases hel
    have hmem : el ∈ v := by
      rw [List.getElem?_eq_getElem hlv] at hel
      cases Option.some.inj hel
      exact List.getElem_mem _
    have hle : v.findIdx (fun arg : V6 => decide (arg.x0 ≥ (x : ℚ))) ≤ n - 1 := by
      by_contra hc
      have hnot := List.not_of_lt_findIdx (show n - 1 <
        v.findIdx (fun arg : V6 => decide (arg.x0 ≥ (x : ℚ))) by omega)
      rw [List.getElem?_eq_getElem hlv] at hel
      rw [Option.some.inj hel] at hnot
      have hpl2 : decide (el.x0 ≥ (x : ℚ)) = true := hpl
      rw [hpl2] at hnot
      cases hnot
    have hk0 : v.findIdx (fun arg : V6 => decide (arg.x0 ≥ (x : ℚ))) ≠ 0 := by
      intro h0
      have hw : v[v.findIdx (fun arg : V6 => decide (arg.x0 ≥ (x : ℚ)))]? = some e0 := by
        rw [h0]; exact he0
      have hp0 := List.findIdx_of_getElem?_eq_some hw
      simp only [decide_eq_true_eq] at hp0
      rw [he00] at hp0
      simp at hp0
      exact hx (le_antisymm hp0 hx0)
    generalize v.findIdx (fun arg : V6 => decide (arg.x0 ≥ (x : ℚ))) = k at hle hk0
    obtain ⟨a, ha, ha0⟩ := hv (k - 1) (by omega)
    obtain ⟨b, hb, hb0⟩ := hv k (by omega)
    have hdelta : b.x0 - a.x0 ≠ 0 := by
      rw [ha0, hb0, Nat.cast_sub (by omega)]
      have : ((k : ℚ)) * nd - ((k : ℚ) - ((1 : Nat) : ℚ)) * nd = nd := by
        push_cast; ring
      rw [this]
      exact ne_of_gt hnd
    dsimp only
    rw [if_neg hk0, ha, hb]
    simp only [Option.bind_eq_bind, Option.some_bind]
    rw [if_neg hdelta]
    rfl

theorem base_levels (pf : PatchFilter) (z : Bool) (pad : List V6) (j : Nat)
    (hj : j < pf.labf.length) :
    ∃ e, (get_rgblab5 pf z ++ pad)[j]? = some e ∧ e.x0 = (j : ℚ) * (pf.ND : ℚ) := by
  rw [List.getElem?_append_left (by rw [get_rgblab5_length]; exact hj),
    get_rgblab5_getElem? pf z j hj]
  cases z
  · exact ⟨_, rfl, by simp⟩
  · exact ⟨_, rfl, by simp⟩

/-- The six values `sRGB_Steps` are all defined for the base ramp of a filter with 52 entries
spaced by 5 or 256 entries spaced by 1, whatever follows the base ramp. -/
theorem sRGB_Steps_some (L_to_sG : ℚ → ℚ) (pf : PatchFilter) (z : Bool) (pad : List V6)
    (hlen : (pf.labf.length = 52 ∧ pf.ND = 5) ∨ (pf.labf.length = 256 ∧ pf.ND = 1)) :
    ∃ steps, sRGB_Steps L_to_sG (get_rgblab5 pf z ++ pad) = some steps ∧ steps.length = 6 := by
  unfold sRGB_Steps
  have h := mapM_option_isSome (fun (i : Nat) =>
      (find_lab_interpolation (get_rgblab5 pf z ++ pad) ((i : Int) * 51)).map
        (fun lab_est => L_to_sG lab_est.x0)) (List.range 6) (by
    intro i hi
    rw [List.mem_range] at hi
    rw [Option.isSome_map']
    have hiq : (i : ℚ) ≤ 5 := by exact_mod_cast (show i ≤ 5 by omega)
    apply find_lab_interpolation_some _ pf.labf.length (pf.ND : ℚ)
    · rcases hlen with h | h <;> omega
    · rcases hlen with h | h <;> rw [h.2] <;> norm_num
    · intro j hj
      exact base_levels pf z pad j hj
    · omega
    · rcases hlen with h | h
      · rw [h.1, h.2]; push_cast; linarith
      · rw [h.1, h.2]; push_cast; linarith)
  obtain ⟨res, hres, hl⟩ := h
  exact ⟨res, hres, by rw [hl]; rfl⟩

/-- What `make_rgb_synth` returns: the base ramp followed by the entries of the non-neutral
triples, in the order of the loops, when every entry is defined. -/
theorem make_rgb_synth_eq (cc : Conversions) (L_to_sG : ℚ → ℚ) (pf : PatchFilter) (color : Bool)
    (hlen : (pf.labf.length = 52 ∧ pf.ND = 5) ∨ (pf.labf.length = 256 ∧ pf.ND = 1)) :
    ∃ steps, sRGB_Steps L_to_sG (get_rgblab5 pf (!color) ++ List.replicate 210 V6.zero)
        = some steps ∧ steps.length = 6 ∧
      make_rgb_synth cc L_to_sG pf color =
        ((loop_triples.filter not_neutral).mapM
          (synth_entry cc (get_rgblab5 pf (!color)) steps color)).map
          (fun es => get_rgblab5 pf (!color) ++ es) := by
  obtain ⟨steps, hsteps, hl⟩ := sRGB_Steps_some L_to_sG pf (!color) (List.replicate 210 V6.zero) hlen
  refine ⟨steps, hsteps, hl, ?_⟩
  unfold make_rgb_synth
  dsimp only
  have e210 : 6 * 6 * 6 - 6 = 210 := by norm_num
  rw [e210, hsteps, Option.bind_eq_bind, Option.some_bind,
    synth_loop cc _ steps color loop_triples _ _
      (by rw [List.length_append]; exact Nat.le_add_right _ _)]
  cases hm : (loop_triples.filter not_neutral).mapM
      (synth_entry cc (get_rgblab5 pf (!color)) steps color) with
  | none => rfl
  | some es =>
    have hes : es.length = 210 := by
      rw [← (mapM_option_forall₂ _ _ _ hm).length_eq, loop_triples_count]
    simp only [Option.bind_eq_bind, Option.some_bind, Option.map_some', List.length_append,
      List.length_replicate, hes]
    rw [if_pos (le_refl _)]
    simp only [Option.some_bind, pure]
    have : List.drop ((get_rgblab5 pf (!color)).length + 210)
        (get_rgblab5 pf (!color) ++ List.replicate 210 V6.zero) = [] := by
      apply List.drop_of_length_le
      rw [List.length_append, List.length_replicate]
    rw [this, List.take_left', List.append_nil]
    rfl

theorem loop_triples_mem (t : Nat × Nat × Nat) :
    t ∈ loop_triples.filter not_neutral ↔
      t.1 < 6 ∧ t.2.1 < 6 ∧ t.2.2 < 6 ∧ ¬ (t.1 = t.2.1 ∧ t.1 = t.2.2) := by
  obtain ⟨a, b, c⟩ := t
  simp only [loop_triples, not_neutral, List.mem_filter, List.mem_flatMap, List.mem_map,
    List.mem_range, Prod.mk.injEq, decide_eq_true_eq]
  constructor
  · rintro ⟨⟨i, hi, ii, hii, iii, hiii, h1, h2, h3⟩, hne⟩
    subst h1 h2 h3
    exact ⟨hi, hii, hiii, by tauto⟩
  · rintro ⟨h1, h2, h3, hne⟩
    exact ⟨⟨a, h1, b, h2, c, h3, rfl, rfl, rfl⟩, by tauto⟩

theorem loop_triples_sorted : (loop_triples.filter not_neutral).Pairwise lex_lt := by decide!

/-- An entry of the synthesis when the three steps are there and, for the tint variant, the
search in the reference ramp has found `near`. -/
theorem synth_entry_eq (cc : Conversions) (bw : List V6) (steps : List ℚ) (color : Bool)
    (t : Nat × Nat × Nat) (hs : steps.length = 6) (h1 : t.1 < 6) (h2 : t.2.1 < 6)
    (h3 : t.2.2 < 6) :
    synth_entry cc bw steps color t =
      if color then
        (bw.find? (fun x => decide (x.x3 > (synth_lab cc steps t).x0))).map (fun near =>
          (⟨(t.1 : ℚ) * 51, (t.2.1 : ℚ) * 51, (t.2.2 : ℚ) * 51, (synth_lab cc steps t).x0,
            (synth_lab cc steps t).x1 + near.x4, (synth_lab cc steps t).x2 + near.x5⟩ : V6))
      else
        some ⟨(t.1 : ℚ) * 51, (t.2.1 : ℚ) * 51, (t.2.2 : ℚ) * 51, (synth_lab cc steps t).x0,
          (synth_lab cc steps t).x1, (synth_lab cc steps t).x2⟩ := by
  unfold synth_entry synth_lab
  rw [List.getD_eq_getElem?_getD, List.getD_eq_getElem?_getD, List.getD_eq_getElem?_getD,
    List.getElem?_eq_getElem (show t.1 < steps.length by omega),
    List.getElem?_eq_getElem (show t.2.1 < steps.length by omega),
    List.getElem?_eq_getElem (show t.2.2 < steps.length by omega)]
  simp only [Option.bind_eq_bind, Option.some_bind, Option.getD_some]
  cases color
  · rfl
  · simp only [if_true]
    cases bw.find? (fun x => decide (x.x3 > (cc.sRGB_to_Lab
        ⟨steps[t.1], steps[t.2.1], steps[t.2.2]⟩).x0)) with
    | none => rfl
    | some near => rfl

theorem forall₂_map_eq {α β γ : Type} (R : α → β → Prop) (g : β → γ) (h : α → γ)
    (hR : ∀ a b, R a b → g b = h a) :
    ∀ (l : List α) (es : List β), List.Forall₂ R l es → es.map g = l.map h := by
  intro l es hf
  induction hf with
  | nil => rfl
  | cons hab _ ih => rw [List.map_cons, List.map_cons, hR _ _ hab, ih]

theorem synth_entry_rgb (cc : Conversions) (bw : List V6) (steps : List ℚ) (color : Bool)
    (t : Nat × Nat × Nat) (e : V6) (he : synth_entry cc bw steps color t = some e) :
    (e.x0, e.x1, e.x2) = ((t.1 : ℚ) * 51, (t.2.1 : ℚ) * 51, (t.2.2 : ℚ) * 51) := by
  unfold synth_entry at he
  cases h1 : steps[t.1]? with
  | none => rw [h1] at he; cases he
  | some s0 =>
    cases h2 : steps[t.2.1]? with
    | none => rw [h1, h2] at he; cases he
    | some s1 =>
      cases h3 : steps[t.2.2]? with
      | none => rw [h1, h2, h3] at he; cases he
      | some s2 =>
        rw [h1, h2, h3] at he
        simp only [Option.bind_eq_bind, Option.some_bind] at he
        cases color
        · cases Option.some.inj he
          rfl
        · simp only [if_true] at he
          cases hn : bw.find? (fun x => decide (x.x3 > (cc.sRGB_to_Lab ⟨s0, s1, s2⟩).x0)) with
          | none => rw [hn] at he; cases he
          | some near =>
            rw [hn] at he
            cases Option.some.inj he
            rfl

/-- The entries of `make_rgb_synth` are all defined when, in the tint variant, every
synthesized lightness lies below some lightness of the reference ramp. -/
theorem synth_entries_some (cc : Conversions) (bw : List V6) (steps : List ℚ) (color : Bool)
    (hs : steps.length = 6)
    (hnear : color = true → ∀ t ∈ loop_triples.filter not_neutral,
      ∃ x ∈ bw, x.x3 > (synth_lab cc steps t).x0) :
    ∃ es, (loop_triples.filter not_neutral).mapM (synth_entry cc bw steps color) = some es ∧
      es.length = 210 ∧
      List.Forall₂ (fun t e => synth_entry cc bw steps color t = some e)
        (loop_triples.filter not_neutral) es := by
  have hsome : ∀ t ∈ loop_triples.filter not_neutral,
      (synth_entry cc bw steps color t).isSome = true := by
    intro t ht
    have hb := (loop_triples_mem t).mp ht
    rw [synth_entry_eq cc bw steps color t hs hb.1 hb.2.1 hb.2.2.1]
    cases color
    · rfl
    · obtain ⟨x, hx, hgt⟩ := hnear rfl t ht
      rw [if_pos rfl, Option.isSome_map', List.find?_isSome]
      exact ⟨x, hx, by simpa using hgt⟩
  obtain ⟨es, hes, hl⟩ := mapM_option_isSome _ _ hsome
  exact ⟨es, hes, by rw [hl, loop_triples_count], mapM_option_forall₂ _ _ _ hes⟩

/-- C18: for a filter built from a ramp of 52 or 256 entries, `make_rgb_synth` returns the
base ramp `get_rgblab5(!color)` unchanged, followed by exactly 210 entries whose RGB triples
are `(51 i, 51 ii, 51 iii)` for the loop counters `i, ii, iii` in 0..5 that are not all
equal, each once and in lexicographic order; every write is inside the resized vector. In
the tint variant this needs every synthesized lightness to lie below some lightness of the
reference ramp (otherwise the search of the ramp ends past its last entry). -/
theorem make_rgb_synth_layout (cc : Conversions) (L_to_sG : ℚ → ℚ) (vin : List V6)
    (color : Bool) (hlen : vin.length = 52 ∨ vin.length = 256)
    (hnear : color = true → ∀ pf steps, PatchFilter.construct cc vin = some pf →
      sRGB_Steps L_to_sG (get_rgblab5 pf false ++ List.replicate 210 V6.zero) = some steps →
      ∀ t ∈ loop_triples.filter not_neutral,
        ∃ x ∈ get_rgblab5 pf false, x.x3 > (synth_lab cc steps t).x0) :
    ∃ pf out, PatchFilter.construct cc vin = some pf ∧
      make_rgb_synth cc L_to_sG pf color = some out ∧
      out.length = (get_rgblab5 pf (!color)).length + 210 ∧
      out.take (get_rgblab5 pf (!color)).length = get_rgblab5 pf (!color) ∧
      (out.drop (get_rgblab5 pf (!color)).length).map (fun e => (e.x0, e.x1, e.x2)) =
        (loop_triples.filter not_neutral).map
          (fun t => ((t.1 : ℚ) * 51, (t.2.1 : ℚ) * 51, (t.2.2 : ℚ) * 51)) ∧
      (∀ t : Nat × Nat × Nat, t ∈ loop_triples.filter not_neutral ↔
        t.1 < 6 ∧ t.2.1 < 6 ∧ t.2.2 < 6 ∧ ¬ (t.1 = t.2.1 ∧ t.1 = t.2.2)) ∧
      (loop_triples.filter not_neutral).Pairwise lex_lt := by
  obtain ⟨pf, hpf, _, hlf, _, _, hnd, _⟩ := construct_sizes cc vin hlen
  have hL : (pf.labf.length = 52 ∧ pf.ND = 5) ∨ (pf.labf.length = 256 ∧ pf.ND = 1) := by
    rcases hlen with h | h
    · exact Or.inl ⟨by rw [hlf, h], by rw [hnd, h]; rfl⟩
    · exact Or.inr ⟨by rw [hlf, h], by rw [hnd, h]; rfl⟩
  obtain ⟨steps, hsteps, hsl, heq⟩ := make_rgb_synth_eq cc L_to_sG pf color hL
  obtain ⟨es, hes, hesl, hall⟩ := synth_entries_some cc (get_rgblab5 pf (!color)) steps color
    hsl (by
      intro hc t ht
      subst hc
      exact hnear rfl pf steps hpf hsteps t ht)
  rw [hes] at heq
  refine ⟨pf, get_rgblab5 pf (!color) ++ es, hpf, heq, ?_, ?_, ?_, loop_triples_mem,
    loop_triples_sorted⟩
  · rw [List.length_append, hesl]
  · exact List.take_left' rfl
  · rw [List.drop_left' rfl]
    exact forall₂_map_eq _ _ _ (fun t e h => synth_entry_rgb cc _ steps color t e h) _ _ hall

/-- On the ramp `ramp_tint` every synthesized lightness lies below some lightness of the
reference ramp. -/
theorem tint_example_near :
    ((PatchFilter.construct mean_conversions ramp_tint).bind (fun pf =>
      (sRGB_Steps id (get_rgblab5 pf false ++ List.replicate 210 V6.zero)).map (fun steps =>
        (loop_triples.filter not_neutral).all (fun t =>
          (get_rgblab5 pf false).any (fun x =>
            decide (x.x3 > (synth_lab mean_conversions steps t).x0))))))
      = some true := by decide!

theorem tint_example_defined (pf : PatchFilter) (steps : List ℚ)
    (hpf : PatchFilter.construct mean_conversions ramp_tint = some pf)
    (hs : sRGB_Steps id (get_rgblab5 pf false ++ List.replicate 210 V6.zero) = some steps) :
    ∀ t ∈ loop_triples.filter not_neutral,
      ∃ x ∈ get_rgblab5 pf false, x.x3 > (synth_lab mean_conversions steps t).x0 := by
  have h := tint_example_near
  rw [hpf, Option.some_bind, hs, Option.map_some'] at h
  have h2 := Option.some.inj h
  rw [List.all_eq_true] at h2
  intro t ht
  have h3 := h2 t ht
  rw [List.any_eq_true] at h3
  obtain ⟨x, hx, hd⟩ := h3
  exact ⟨x, hx, of_decide_eq_true hd⟩

theorem ramp_tint_length : ramp_tint.length = 52 := by simp [ramp_tint]

/-- Witness of C18: the tint variant on the filter built from the 52-entry ramp `ramp_tint`,
with the conversions `mean_conversions`. -/
theorem make_rgb_synth_layout_witness :
    ∃ pf out, PatchFilter.construct mean_conversions ramp_tint = some pf ∧
      make_rgb_synth mean_conversions id pf true = some out ∧
      out.length = (get_rgblab5 pf (!true)).length + 210 ∧
      out.take (get_rgblab5 pf (!true)).length = get_rgblab5 pf (!true) ∧
      (out.drop (get_rgblab5 pf (!true)).length).map (fun e => (e.x0, e.x1, e.x2)) =
        (loop_triples.filter not_neutral).map
          (fun t => ((t.1 : ℚ) * 51, (t.2.1 : ℚ) * 51, (t.2.2 : ℚ) * 51)) ∧
      (∀ t : Nat × Nat × Nat, t ∈ loop_triples.filter not_neutral ↔
        t.1 < 6 ∧ t.2.1 < 6 ∧ t.2.2 < 6 ∧ ¬ (t.1 = t.2.1 ∧ t.1 = t.2.2)) ∧
      (loop_triples.filter not_neutral).Pairwise lex_lt :=
  make_rgb_synth_layout mean_conversions id ramp_tint true (Or.inl ramp_tint_length)
    (fun _ pf steps hpf hs => tint_example_defined pf steps hpf hs)

theorem forall₂_getElem? {α β : Type} (R : α → β → Prop) :
    ∀ (l : List α) (es : List β), List.Forall₂ R l es →
      ∀ (k : Nat) (a : α), l[k]? = some a → ∃ b, es[k]? = some b ∧ R a b := by
  intro l es hf
  induction hf with
  | nil =>
    intro k a h
    simp at h
  | cons hab _ ih =>
    intro k a h
    cases k with
    | zero =>
      simp only [List.getElem?_cons_zero, Option.some.injEq] at h
      subst h
      exact ⟨_, List.getElem?_cons_zero, hab⟩
    | succ k =>
      simp only [List.getElem?_cons_succ] at h ⊢
      exact ih k a h

/-- The search `find_if` as a position: the entry found is the first that satisfies the
predicate. -/
theorem find?_first {α : Type} (p : α → Bool) (l : List α) (b : α) (h : l.find? p = some b) :
    ∃ j : Nat, l[j]? = some b ∧ p b = true ∧
      ∀ (i : Nat) (y : α), i < j → l[i]? = some y → p y = false := by
  obtain ⟨hp, as, bs, hl, hnot⟩ := List.find?_eq_some.mp h
  refine ⟨as.length, ?_, hp, ?_⟩
  · rw [hl, List.getElem?_append_right (le_refl _), Nat.sub_self]
    exact List.getElem?_cons_zero
  · intro i y hi hy
    rw [hl, List.getElem?_append_left hi] at hy
    have hmem : y ∈ as := by
      obtain ⟨hlt, hget⟩ := List.getElem?_eq_some.mp hy
      rw [← hget]
      exact List.getElem_mem _
    have := hnot y hmem
    simpa using this

/-- C19, amended: in the tint variant of `make_rgb_synth` (for a filter built from a ramp of
52 or 256 entries, every synthesized lightness lying below some lightness of the reference
ramp), the chroma offset added to the synthesized entry of the `k`-th non-neutral triple is
the `(a*, b*)` of the first entry of the reference ramp, in the order of the ramp, whose
`L*` is strictly greater than the synthesized `L*`. -/
theorem make_rgb_synth_tint_offset (cc : Conversions) (L_to_sG : ℚ → ℚ) (vin : List V6)
    (hlen : vin.length = 52 ∨ vin.length = 256)
    (hnear : ∀ pf steps, PatchFilter.construct cc vin = some pf →
      sRGB_Steps L_to_sG (get_rgblab5 pf false ++ List.replicate 210 V6.zero) = some steps →
      ∀ t ∈ loop_triples.filter not_neutral,
        ∃ x ∈ get_rgblab5 pf false, x.x3 > (synth_lab cc steps t).x0) :
    ∃ pf steps out, PatchFilter.construct cc vin = some pf ∧
      sRGB_Steps L_to_sG (get_rgblab5 pf false ++ List.replicate 210 V6.zero) = some steps ∧
      make_rgb_synth cc L_to_sG pf true = some out ∧
      ∀ (k : Nat) (t : Nat × Nat × Nat), (loop_triples.filter not_neutral)[k]? = some t →
        ∃ (j : Nat) (near : V6), (get_rgblab5 pf false)[j]? = some near ∧
          near.x3 > (synth_lab cc steps t).x0 ∧
          (∀ (i : Nat) (y : V6), i < j → (get_rgblab5 pf false)[i]? = some y →
            ¬ y.x3 > (synth_lab cc steps t).x0) ∧
          out[(get_rgblab5 pf false).length + k]? = some
            ⟨(t.1 : ℚ) * 51, (t.2.1 : ℚ) * 51, (t.2.2 : ℚ) * 51, (synth_lab cc steps t).x0,
              (synth_lab cc steps t).x1 + near.x4, (synth_lab cc steps t).x2 + near.x5⟩ := by
  obtain ⟨pf, hpf, _, hlf, _, _, hnd, _⟩ := construct_sizes cc vin hlen
  have hL : (pf.labf.length = 52 ∧ pf.ND = 5) ∨ (pf.labf.length = 256 ∧ pf.ND = 1) := by
    rcases hlen with h | h
    · exact Or.inl ⟨by rw [hlf, h], by rw [hnd, h]; rfl⟩
    · exact Or.inr ⟨by rw [hlf, h], by rw [hnd, h]; rfl⟩
  obtain ⟨steps, hsteps, hsl, heq⟩ := make_rgb_synth_eq cc L_to_sG pf true hL
  obtain ⟨es, hes, hesl, hall⟩ := synth_entries_some cc (get_rgblab5 pf false) steps true
    hsl (fun _ t ht => hnear pf steps hpf hsteps t ht)
  have heq2 : make_rgb_synth cc L_to_sG pf true = some (get_rgblab5 pf false ++ es) := by
    rw [heq]
    show Option.map _ ((loop_triples.filter not_neutral).mapM
      (synth_entry cc (get_rgblab5 pf false) steps true)) = _
    rw [hes]
    rfl
  refine ⟨pf, steps, get_rgblab5 pf false ++ es, hpf, hsteps, heq2, ?_⟩
  intro k t hk
  obtain ⟨e, hek, hte⟩ := forall₂_getElem? _ _ _ hall k t hk
  have hmem : t ∈ loop_triples.filter not_neutral := by
    obtain ⟨hlt, hget⟩ := List.getElem?_eq_some.mp hk
    rw [← hget]
    exact List.getElem_mem _
  have hb := (loop_triples_mem t).mp hmem
  rw [synth_entry_eq cc _ steps true t hsl hb.1 hb.2.1 hb.2.2.1, if_pos rfl] at hte
  cases hf : (get_rgblab5 pf false).find?
      (fun x => decide (x.x3 > (synth_lab cc steps t).x0)) with
  | none => rw [hf] at hte; cases hte
  | some near =>
    rw [hf] at hte
    obtain ⟨j, hj, hp, hfirst⟩ := find?_first _ _ _ hf
    refine ⟨j, near, hj, of_decide_eq_true hp, ?_, ?_⟩
    · intro i y hi hy hgt
      have := hfirst i y hi hy
      rw [decide_eq_true hgt] at this
      cases this
    · rw [List.getElem?_append_right (Nat.le_add_right _ _), Nat.add_sub_cancel_left, hek]
      exact hte.symm

/-- Witness of C19 as amended: the filter built from the 52-entry ramp `ramp_tint`, with the
conversions `mean_conversions`. -/
theorem make_rgb_synth_tint_offset_witness :
    ∃ pf steps out, PatchFilter.construct mean_conversions ramp_tint = some pf ∧
      sRGB_Steps id (get_rgblab5 pf false ++ List.replicate 210 V6.zero) = some steps ∧
      make_rgb_synth mean_conversions id pf true = some out ∧
      ∀ (k : Nat) (t : Nat × Nat × Nat), (loop_triples.filter not_neutral)[k]? = some t →
        ∃ (j : Nat) (near : V6), (get_rgblab5 pf false)[j]? = some near ∧
          near.x3 > (synth_lab mean_conversions steps t).x0 ∧
          (∀ (i : Nat) (y : V6), i < j → (get_rgblab5 pf false)[i]? = some y →
            ¬ y.x3 > (synth_lab mean_conversions steps t).x0) ∧
          out[(get_rgblab5 pf false).length + k]? = some
            ⟨(t.1 : ℚ) * 51, (t.2.1 : ℚ) * 51, (t.2.2 : ℚ) * 51,
              (synth_lab mean_conversions steps t).x0,
              (synth_lab mean_conversions steps t).x1 + near.x4,
              (synth_lab mean_conversions steps t).x2 + near.x5⟩ :=
  make_rgb_synth_tint_offset mean_conversions id ramp_tint (Or.inl ramp_tint_length)
    (fun pf steps hpf hs => tint_example_defined pf steps hpf hs)

/-- C19, a counterexample to the nearest-entry reading: on the ramp `ramp_tint` (entry `j`
has `L* = 2 j`, `a* = j`, `b* = -j`) the first synthesized entry, RGB `(0, 0, 51)`, has
`L* = 34/5` and chroma `(0, 102/5)` before the offset. The entry of the reference ramp
nearest in lightness is entry 3 (`L* = 6`, chroma `(3, -3)`), every other entry being
farther away, but the offset that is added is `(4, -4)`, the chroma of entry 4 (`L* = 8`). -/
theorem tint_offset_not_nearest :
    ((PatchFilter.construct mean_conversions ramp_tint).bind (fun pf =>
      (make_rgb_synth mean_conversions id pf true).bind (fun out => out[52]?)))
        = some ⟨0, 0, 51, 34 / 5, 4, 82 / 5⟩ ∧
    ((PatchFilter.construct mean_conversions ramp_tint).bind (fun pf =>
      (make_rgb_synth mean_conversions id pf false).bind (fun out => out[52]?)))
        = some ⟨0, 0, 51, 34 / 5, 0, 102 / 5⟩ ∧
    ((PatchFilter.construct mean_conversions ramp_tint).map (fun pf =>
      ((get_rgblab5 pf false).take 5).map V6.lab))
        = some [⟨0, 0, 0⟩, ⟨2, 1, -1⟩, ⟨4, 2, -2⟩, ⟨6, 3, -3⟩, ⟨8, 4, -4⟩] ∧
    ((PatchFilter.construct mean_conversions ramp_tint).map (fun pf =>
      (get_rgblab5 pf false).all (fun x =>
        decide (x.x3 = 6 ∨ dist_L 6 (34 / 5) < dist_L x.x3 (34 / 5))))) = some true ∧
    dist_L 6 (34 / 5) < dist_L 8 (34 / 5) := by decide!

/-! ## Theorems: the patch request file -/

theorem push_neut_eq (r : Int) (neut : List V3) (i : ℚ) :
    push_neut r neut i = neut ++ List.replicate (repeat_factor r) ⟨i, i, i⟩ := by
  unfold push_neut repeat_factor
  have hfold : ∀ (m : Nat) (acc : List V3),
      (List.range m).foldl (fun acc _ => acc ++ [(⟨i, i, i⟩ : V3)]) acc
        = acc ++ List.replicate m ⟨i, i, i⟩ := by
    intro m
    induction m with
    | zero => intro acc; simp
    | succ m ih =>
      intro acc
      rw [List.range_succ, List.foldl_append, ih, List.foldl_cons, List.foldl_nil,
        List.replicate_succ', List.append_assoc]
  by_cases h : r > 1
  · rw [if_pos h, hfold, max_eq_right (by omega)]
  · rw [if_neg h, max_eq_left (by omega)]
    rfl

/-- The outer loop from level `k * step` on, with enough iterations left: it ends and has
pushed the levels `k * step`, ..., `N * step`, where `N * step = 255`. -/
theorem neut_loop_eq (count r : Int) (N : Nat)
    (hN : (N : ℚ) * (if count = 52 then 5 else 1) = 255) :
    ∀ (m k fuel : Nat) (neut : List V3), k + m = N + 1 → m < fuel →
      neut_loop count r fuel ((k : ℚ) * (if count = 52 then 5 else 1)) neut =
        some (neut ++ ((List.range' k m).map
          (fun (j : Nat) => (j : ℚ) * (if count = 52 then 5 else 1))).flatMap
            (fun i => List.replicate (repeat_factor r) (⟨i, i, i⟩ : V3))) := by
  have hstep : (0 : ℚ) < (if count = 52 then 5 else 1) := by
    split <;> norm_num
  intro m
  induction m with
  | zero =>
    intro k fuel neut hk hf
    obtain ⟨f, rfl⟩ : ∃ f, fuel = f + 1 := ⟨fuel - 1, by omega⟩
    unfold neut_loop
    have hgt : ¬ ((k : ℚ) * (if count = 52 then 5 else 1) ≤ 255) := by
      rw [← hN, not_le]
      apply mul_lt_mul_of_pos_right _ hstep
      exact_mod_cast (show N < k by omega)
    rw [if_neg hgt]
    simp
  | succ m ih =>
    intro k fuel neut hk hf
    obtain ⟨f, rfl⟩ : ∃ f, fuel = f + 1 := ⟨fuel - 1, by omega⟩
    unfold neut_loop
    have hle : (k : ℚ) * (if count = 52 then 5 else 1) ≤ 255 := by
      rw [← hN]
      apply mul_le_mul_of_nonneg_right _ (le_of_lt hstep)
      exact_mod_cast (show k ≤ N by omega)
    have hnext : (k : ℚ) * (if count = 52 then 5 else 1) + (if count = 52 then 5 else 1)
        = ((k + 1 : Nat) : ℚ) * (if count = 52 then 5 else 1) := by
      push_cast; ring
    rw [if_pos hle, hnext, ih (k + 1) f _ (by omega) (by omega), push_neut_eq]
    simp [List.range'_succ, List.flatMap_cons, List.append_assoc]

theorem count_flatMap_replicate (m : Nat) (g : ℚ) :
    ∀ (l : List ℚ), l.Nodup →
      (l.flatMap (fun i => List.replicate m (⟨i, i, i⟩ : V3))).count ⟨g, g, g⟩
        = if g ∈ l then m else 0 := by
  intro l
  induction l with
  | nil => intro _; simp
  | cons a l ih =>
    intro hnd
    obtain ⟨hna, hl⟩ := List.nodup_cons.mp hnd
    rw [List.flatMap_cons, List.count_append, ih hl, List.count_replicate]
    by_cases hag : a = g
    · subst hag
      simp [hna]
    · have hne : ¬ ((⟨a, a, a⟩ : V3) = ⟨g, g, g⟩) := by
        intro h
        exact hag (congrArg V3.x0 h)
      have hga : ¬ g = a := fun h => hag h.symm
      simp [hne, hga]

theorem gray_levels_nodup (count : Int) : (gray_levels count).Nodup := by
  unfold gray_levels
  apply List.Nodup.map _ (List.nodup_range _)
  intro a b hab
  have hstep : (if count = 52 then (5 : ℚ) else 1) ≠ 0 := by
    split <;> norm_num
  have := mul_right_cancel₀ hstep hab
  exact_mod_cast this

/-- What `make_RGB_for_ABW` does for a count of 52 or 256. -/
theorem make_RGB_for_ABW_eq (shuffle : List V3 → List V3) (filename : String)
    (count r : Int) (hc : count = 52 ∨ count = 256) :
    make_RGB_for_ABW shuffle filename count r = some (
      if r > 0 then
        .ok ("Repeat_" ++ toString r ++ "x_" ++ filename,
          shuffle ((gray_levels count).flatMap
            (fun i => List.replicate (repeat_factor r) (⟨i, i, i⟩ : V3))))
      else .ok (filename, (gray_levels count).flatMap
            (fun i => List.replicate (repeat_factor r) (⟨i, i, i⟩ : V3)))) := by
  unfold make_RGB_for_ABW
  rw [if_neg (by omega)]
  have hN : ((count.toNat - 1 : Nat) : ℚ) * (if count = 52 then 5 else 1) = 255 := by
    rcases hc with h | h
    · subst h
      have e : ((52 : Int).toNat - 1 : Nat) = 51 := by decide
      rw [e]; norm_num
    · subst h
      have e : ((256 : Int).toNat - 1 : Nat) = 255 := by decide
      rw [e]; norm_num
  have hloop := neut_loop_eq count r (count.toNat - 1) hN count.toNat 0 1000 []
    (by rcases hc with h | h <;> subst h <;> decide)
    (by rcases hc with h | h <;> subst h <;> decide)
  rw [Nat.cast_zero, zero_mul] at hloop
  rw [hloop, Option.map_some', List.nil_append, ← List.range_eq_range']
  rfl

/-- C20: `make_RGB_for_ABW` throws for every count other than 52 and 256, and nothing is
passed to `write_cgats_rgb`.  For count 52 the patches written are those of the gray levels
0, 5, ..., 255 and for count 256 those of 0, 1, ..., 255: every patch has R = G = B, every
level occurs exactly `max(1, randomize_and_repeat)` times and no other level occurs, so that
there are `count * max(1, randomize_and_repeat)` patches; the shuffle, a permutation, only
changes their order. -/
theorem make_RGB_for_ABW_patches (shuffle : List V3 → List V3) (filename : String)
    (count r : Int) (hperm : ∀ l, (shuffle l).Perm l) :
    (count ≠ 52 → count ≠ 256 →
      make_RGB_for_ABW shuffle filename count r = some (.error .illegal_count)) ∧
    (count = 52 ∨ count = 256 → ∃ name neut,
      make_RGB_for_ABW shuffle filename count r = some (.ok (name, neut)) ∧
      name = (if r > 0 then "Repeat_" ++ toString r ++ "x_" ++ filename else filename) ∧
      neut.Perm ((gray_levels count).flatMap
        (fun i => List.replicate (repeat_factor r) (⟨i, i, i⟩ : V3))) ∧
      neut.length = count.toNat * repeat_factor r ∧
      (∀ p ∈ neut, p.x0 = p.x1 ∧ p.x0 = p.x2) ∧
      (∀ g : ℚ, neut.count ⟨g, g, g⟩ = if g ∈ gray_levels count then repeat_factor r else 0) ∧
      (repeat_factor r : Int) = max 1 r ∧
      (count = 52 → gray_levels count = (List.range 52).map (fun (k : Nat) => (k : ℚ) * 5)) ∧
      (count = 256 → gray_levels count = (List.range 256).map (fun (k : Nat) => (k : ℚ) * 1))) := by
  constructor
  · intro h1 h2
    unfold make_RGB_for_ABW
    rw [if_pos ⟨h1, h2⟩]
  · intro hc
    have hbase : ∀ neut : List V3, neut.Perm ((gray_levels count).flatMap
        (fun i => List.replicate (repeat_factor r) (⟨i, i, i⟩ : V3))) →
        neut.length = count.toNat * repeat_factor r ∧
        (∀ p ∈ neut, p.x0 = p.x1 ∧ p.x0 = p.x2) ∧
        (∀ g : ℚ, neut.count ⟨g, g, g⟩ =
          if g ∈ gray_levels count then repeat_factor r else 0) := by
      intro neut hp
      refine ⟨?_, ?_, ?_⟩
      · rw [hp.length_eq, List.length_flatMap]
        have hconst : (List.length ∘ fun (i : ℚ) =>
            List.replicate (repeat_factor r) (⟨i, i, i⟩ : V3)) = fun _ => repeat_factor r := by
          funext i
          exact List.length_replicate _ _
        rw [hconst, List.map_const', List.sum_replicate]
        simp [gray_levels, Nat.mul_comm]
      · intro p hpm
        rw [hp.mem_iff, List.mem_flatMap] at hpm
        obtain ⟨i, _, hi⟩ := hpm
        rw [List.eq_of_mem_replicate hi]
        exact ⟨rfl, rfl⟩
      · intro g
        rw [hp.count_eq, count_flatMap_replicate _ _ _ (gray_levels_nodup count)]
    have hrest : (repeat_factor r : Int) = max 1 r ∧
        (count = 52 → gray_levels count = (List.range 52).map (fun (k : Nat) => (k : ℚ) * 5)) ∧
        (count = 256 →
          gray_levels count = (List.range 256).map (fun (k : Nat) => (k : ℚ) * 1)) := by
      refine ⟨?_, ?_, ?_⟩
      · unfold repeat_factor
        rw [Int.toNat_of_nonneg (le_trans (by norm_num) (le_max_left 1 r))]
      · intro h; subst h; rfl
      · intro h; subst h; rfl
    have heq := make_RGB_for_ABW_eq shuffle filename count r hc
    by_cases hr : r > 0
    · rw [if_pos hr] at heq
      obtain ⟨h1, h2, h3⟩ := hbase _ (hperm _)
      exact ⟨_, _, heq, by rw [if_pos hr], hperm _, h1, h2, h3, hrest⟩
    · rw [if_neg hr] at heq
      obtain ⟨h1, h2, h3⟩ := hbase _ (List.Perm.refl _)
      exact ⟨_, _, heq, by rw [if_neg hr], List.Perm.refl _, h1, h2, h3, hrest⟩

/-- Witness of C20: count 52 and three repeats, with the reversal of the vector as the
permutation of the shuffle. -/
theorem make_RGB_for_ABW_patches_witness :
    (∀ l : List V3, (List.reverse l).Perm l) ∧
    ((52 : Int) ≠ 52 → (52 : Int) ≠ 256 →
      make_RGB_for_ABW List.reverse "ramp.txt" 52 3 = some (.error .illegal_count)) ∧
    ((52 : Int) = 52 ∨ (52 : Int) = 256 → ∃ name neut,
      make_RGB_for_ABW List.reverse "ramp.txt" 52 3 = some (.ok (name, neut)) ∧
      name = (if (3 : Int) > 0 then "Repeat_" ++ toString (3 : Int) ++ "x_" ++ "ramp.txt"
        else "ramp.txt") ∧
      neut.Perm ((gray_levels 52).flatMap
        (fun i => List.replicate (repeat_factor 3) (⟨i, i, i⟩ : V3))) ∧
      neut.length = (52 : Int).toNat * repeat_factor 3 ∧
      (∀ p ∈ neut, p.x0 = p.x1 ∧ p.x0 = p.x2) ∧
      (∀ g : ℚ, neut.count ⟨g, g, g⟩ = if g ∈ gray_levels 52 then repeat_factor 3 else 0) ∧
      (repeat_factor 3 : Int) = max 1 3 ∧
      ((52 : Int) = 52 → gray_levels 52 = (List.range 52).map (fun (k : Nat) => (k : ℚ) * 5)) ∧
      ((52 : Int) = 256 →
        gray_levels 52 = (List.range 256).map (fun (k : Nat) => (k : ℚ) * 1))) :=
  ⟨fun l => List.reverse_perm l,
    make_RGB_for_ABW_patches List.reverse "ramp.txt" 52 3 (fun l => List.reverse_perm l)⟩

/-! ## Theorems: the measurement file -/

theorem except_ok_bind {α β : Type} (a : α) (f : α → Except ProcessError β) :
    (Except.ok a >>= f) = f a := rfl

theorem at6_ok (v : List V6) (i : Nat) (h : i < v.length) :
    at6 v i = .ok (v.getD i V6.zero) := by
  unfold at6
  rw [List.getD_eq_getElem?_getD, List.getElem?_eq_getElem h]
  rfl

theorem trunc_int_cast (k : Int) : trunc_int (k : ℚ) = k := by
  unfold trunc_int
  split <;> simp

theorem fmod_eq_zero_iff (x y : ℚ) (hy : y ≠ 0) :
    fmod x y = some 0 ↔ ∃ k : Int, x = (k : ℚ) * y := by
  unfold fmod
  rw [if_neg hy]
  constructor
  · intro h
    have h2 := Option.some.inj h
    exact ⟨trunc_int (x / y), by linarith⟩
  · rintro ⟨k, rfl⟩
    rw [mul_div_assoc, div_self hy, mul_one, trunc_int_cast]
    congr 1
    ring

theorem spacing_fault_iff (n : Nat) (x : V6) (hd : 255 / (n - 1) ≠ 0) :
    spacing_fault n x = false ↔
      x.x0 = x.x1 ∧ x.x0 = x.x2 ∧ ∃ k : Int, x.x0 = (k : ℚ) * ((255 / (n - 1) : Nat) : ℚ) := by
  have hq : ((255 / (n - 1) : Nat) : ℚ) ≠ 0 := by exact_mod_cast hd
  unfold spacing_fault
  rw [← fmod_eq_zero_iff _ _ hq]
  simp only [Bool.or_eq_false_iff, decide_eq_false_iff_not, not_not, and_assoc]

theorem filter_all {α : Type} (p : α → Bool) (l : List α) (h : ∀ x ∈ l, p x = true) :
    l.filter p = l := List.filter_eq_self.mpr h

/-- The first part of `process_cgats_measurement_file` on neutral measurements whose
deduplicated ramp has 52 or 256 entries, starts at 0, ends at 255 and has no spacing fault. -/
theorem neutral_ramp_ok (rd : List V6 → List DuplicateStats) (vals : List V6)
    (hneutral : ∀ x ∈ vals, x.x0 = x.x1 ∧ x.x0 = x.x2)
    (hlen : ((rd vals).map DuplicateStats.rgb_lab).length = 52 ∨
      ((rd vals).map DuplicateStats.rgb_lab).length = 256)
    (hfirst : (((rd vals).map DuplicateStats.rgb_lab).getD 0 V6.zero).x0 = 0)
    (hlast : (((rd vals).map DuplicateStats.rgb_lab).getD
      (((rd vals).map DuplicateStats.rgb_lab).length - 1) V6.zero).x0 = 255)
    (hspaced : ∀ x ∈ (rd vals).map DuplicateStats.rgb_lab,
      spacing_fault ((rd vals).map DuplicateStats.rgb_lab).length x = false) :
    neutral_ramp rd vals = .ok (rd vals, (rd vals).map DuplicateStats.rgb_lab) := by
  unfold neutral_ramp
  have hf : vals.filter (fun arg => decide (arg.x0 = arg.x1 ∧ arg.x0 = arg.x2)) = vals :=
    filter_all _ _ (fun x hx => decide_eq_true (hneutral x hx))
  dsimp only
  rw [hf, at6_ok _ 0 (by omega), at6_ok _ _ (by omega)]
  have h1 : ¬ (((rd vals).map DuplicateStats.rgb_lab).length ≠ 52 ∧
      ((rd vals).map DuplicateStats.rgb_lab).length ≠ 256) := by omega
  have h2 : ¬ (((rd vals).map DuplicateStats.rgb_lab).length - 1 = 0) := by omega
  have hany : List.any ((rd vals).map DuplicateStats.rgb_lab)
      (spacing_fault ((rd vals).map DuplicateStats.rgb_lab).length) = false := by
    rw [List.any_eq_false]
    intro x hx
    rw [hspaced x hx]
    simp
  simp only [validate, decide_True, if_true, except_ok_bind, hfirst, hlast, h1, h2, if_false,
    pure, Except.pure, hany, Bool.false_eq_true]

/-- The function `make_rgb_synth` returns, for a filter with 52 entries spaced by 5 or 256
entries spaced by 1, when in the tint variant every synthesized lightness lies below some
lightness of the reference ramp. -/
theorem make_rgb_synth_some (cc : Conversions) (L_to_sG : ℚ → ℚ) (pf : PatchFilter)
    (color : Bool)
    (hL : (pf.labf.length = 52 ∧ pf.ND = 5) ∨ (pf.labf.length = 256 ∧ pf.ND = 1))
    (hnear : color = true → ∀ steps,
      sRGB_Steps L_to_sG (get_rgblab5 pf false ++ List.replicate 210 V6.zero) = some steps →
      ∀ t ∈ loop_triples.filter not_neutral,
        ∃ x ∈ get_rgblab5 pf false, x.x3 > (synth_lab cc steps t).x0) :
    ∃ out, make_rgb_synth cc L_to_sG pf color = some out ∧
      out.length = pf.labf.length + 210 := by
  obtain ⟨steps, hsteps, hsl, heq⟩ := make_rgb_synth_eq cc L_to_sG pf color hL
  obtain ⟨es, hes, hesl, _⟩ := synth_entries_some cc (get_rgblab5 pf (!color)) steps color
    hsl (by
      intro hc t ht
      subst hc
      exact hnear rfl steps hsteps t ht)
  rw [hes] at heq
  exact ⟨_, heq, by rw [List.length_append, hesl, get_rgblab5_length]⟩

theorem fill_dE_ok (dE : V3 → V3 → ℚ) (pf : PatchFilter) (spread : Nat) (z : Bool)
    (hlen : pf.lab.length = 52 ∨ pf.lab.length = 256) (hf : pf.labf.length = pf.lab.length)
    (hs : spread = 5 ∨ spread = 15) :
    ∃ t, fill_dE dE pf spread z = .ok t ∧ t.length = 6 := by
  unfold fill_dE
  rw [get_dE00_split_ok dE pf spread z hlen hf, except_ok_bind]
  have hne : ∀ (g : Nat → ℚ), (List.range' (if pf.lab.length = 52 then spread / 5 else spread)
      (pf.lab.length - (if pf.lab.length = 52 then spread / 5 else spread)
        - (if pf.lab.length = 52 then spread / 5 else spread))).map g ≠ [] := by
    intro g hnil
    have hl := congrArg List.length hnil
    rw [List.length_map, List.length_range', List.length_nil] at hl
    rcases hlen with h | h <;> rcases hs with h2 | h2 <;> rw [h, h2] at hl <;>
      simp at hl
  have hlt : ∀ (g : Nat → ℚ), ((List.range' (if pf.lab.length = 52 then spread / 5 else spread)
      (pf.lab.length - (if pf.lab.length = 52 then spread / 5 else spread)
        - (if pf.lab.length = 52 then spread / 5 else spread))).map g).length < 2 ^ 31 := by
    intro g
    rw [List.length_map, List.length_range']
    rcases hlen with h | h <;> rw [h] <;> omega
  rw [fill_percents_eq _ (hne _) (hlt _)]
  exact ⟨_, rfl, by simp [percents]⟩

theorem fill_std_ok (r2 : List DuplicateStats) (hne : r2 ≠ []) (hlt : r2.length < 2 ^ 31) :
    ∃ sL sa sb, fill_std r2 = .ok (sL, sa, sb) ∧
      ((∀ x ∈ r2, 2 ≤ x.lab0.n) → sL.length = 6 ∧ sa.length = 6 ∧ sb.length = 6) ∧
      (¬ (∀ x ∈ r2, 2 ≤ x.lab0.n) → sL = [] ∧ sa = [] ∧ sb = []) := by
  unfold fill_std
  have hmap : ∀ (g : DuplicateStats → ℚ), r2.map g ≠ [] := by
    intro g hnil
    exact hne (List.map_eq_nil_iff.mp hnil)
  have hlen : ∀ (g : DuplicateStats → ℚ), (r2.map g).length < 2 ^ 31 := by
    intro g
    rw [List.length_map]
    exact hlt
  by_cases hall : ∀ x ∈ r2, 2 ≤ x.lab0.n
  · have hb : r2.all (fun x => decide (x.lab0.n ≥ 2)) = true := by
      rw [List.all_eq_true]
      intro x hx
      exact decide_eq_true (hall x hx)
    rw [if_pos hb, fill_percents_eq _ (hmap _) (hlen _), fill_percents_eq _ (hmap _) (hlen _),
      fill_percents_eq _ (hmap _) (hlen _)]
    refine ⟨_, _, _, rfl, ?_, ?_⟩
    · intro _
      simp [percents]
    · intro h
      exact absurd hall h
  · have hb : ¬ (r2.all (fun x => decide (x.lab0.n ≥ 2)) = true) := by
      rw [List.all_eq_true]
      intro h
      exact hall (fun x hx => of_decide_eq_true (h x hx))
    rw [if_neg hb]
    refine ⟨[], [], [], rfl, ?_, ?_⟩
    · intro h
      exact absurd h hall
    · intro _
      exact ⟨rfl, rfl, rfl⟩

/-- The second part of `process_cgats_measurement_file` on a ramp of 52 or 256 entries. -/
theorem fill_stats_ok (cc : Conversions) (L_to_sG : ℚ → ℚ) (dE : V3 → V3 → ℚ)
    (r2 : List DuplicateStats) (ramp : List V6) (hr : r2.length = ramp.length)
    (hlen : ramp.length = 52 ∨ ramp.length = 256)
    (hnear : ∀ pf steps, PatchFilter.construct cc ramp = some pf →
      sRGB_Steps L_to_sG (get_rgblab5 pf false ++ List.replicate 210 V6.zero) = some steps →
      ∀ t ∈ loop_triples.filter not_neutral,
        ∃ x ∈ get_rgblab5 pf false, x.x3 > (synth_lab cc steps t).x0) :
    ∃ ret, fill_stats cc L_to_sG dE r2 ramp = .ok ret ∧
      ret.distributionp_5.length = 6 ∧ ret.distributionp_15.length = 6 ∧
      ret.distributionp_ab0_5.length = 6 ∧ ret.distributionp_ab0_15.length = 6 ∧
      ret.rgblab_neutral.length = ramp.length + 210 ∧
      ret.rgblab_tint.length = ramp.length + 210 ∧
      (ret.repeats = (((r2.map (fun x => x.lab0.n)).getD 0 0 : Nat) : Int)) ∧
      ((∀ x ∈ r2, 2 ≤ x.lab0.n) → ret.distributionp_std_L.length = 6 ∧
        ret.distributionp_std_a.length = 6 ∧ ret.distributionp_std_b.length = 6) ∧
      (¬ (∀ x ∈ r2, 2 ≤ x.lab0.n) → ret.distributionp_std_L = [] ∧
        ret.distributionp_std_a = [] ∧ ret.distributionp_std_b = []) := by
  obtain ⟨pf, hpf, hl, hlf, _, _, hnd, _⟩ := construct_sizes cc ramp hlen
  have hL : (pf.labf.length = 52 ∧ pf.ND = 5) ∨ (pf.labf.length = 256 ∧ pf.ND = 1) := by
    rcases hlen with h | h
    · exact Or.inl ⟨by rw [hlf, h], by rw [hnd, h]; rfl⟩
    · exact Or.inr ⟨by rw [hlf, h], by rw [hnd, h]; rfl⟩
  obtain ⟨o1, ho1, ho1l⟩ := make_rgb_synth_some cc L_to_sG pf false hL
    (by intro h; cases h)
  obtain ⟨o2, ho2, ho2l⟩ := make_rgb_synth_some cc L_to_sG pf true hL
    (fun _ steps hs t ht => hnear pf steps hpf hs t ht)
  have hl2 : pf.lab.length = 52 ∨ pf.lab.length = 256 := by rw [hl]; exact hlen
  have hf2 : pf.labf.length = pf.lab.length := by rw [hlf, hl]
  obtain ⟨d5, hd5, hd5l⟩ := fill_dE_ok dE pf 5 false hl2 hf2 (Or.inl rfl)
  obtain ⟨d15, hd15, hd15l⟩ := fill_dE_ok dE pf 15 false hl2 hf2 (Or.inr rfl)
  obtain ⟨a5, ha5, ha5l⟩ := fill_dE_ok dE pf 5 true hl2 hf2 (Or.inl rfl)
  obtain ⟨a15, ha15, ha15l⟩ := fill_dE_ok dE pf 15 true hl2 hf2 (Or.inr rfl)
  have hne : r2 ≠ [] := by
    intro h
    rw [h] at hr
    simp at hr
    omega
  obtain ⟨sL, sa, sb, hstd, hs1, hs2⟩ := fill_std_ok r2 hne (by omega)
  obtain ⟨f, r2t, hr2⟩ : ∃ f r2t, r2 = f :: r2t := by
    cases r2 with
    | nil => exact absurd rfl hne
    | cons f t => exact ⟨f, t, rfl⟩
  have hfirst : (r2[0]? : Option DuplicateStats) = some f := by
    rw [hr2]; exact List.getElem?_cons_zero
  unfold fill_stats
  rw [at6_ok _ 0 (by omega), except_ok_bind, at6_ok _ _ (by omega), except_ok_bind, hpf]
  simp only [defined, except_ok_bind]
  rw [ho1, ho2]
  simp only [except_ok_bind]
  rw [hd5, except_ok_bind, hd15, except_ok_bind, ha5, except_ok_bind, ha15, except_ok_bind,
    hfirst]
  simp only [except_ok_bind]
  rw [hstd, except_ok_bind]
  refine ⟨_, rfl, hd5l, hd15l, ha5l, ha15l, ?_, ?_, ?_, hs1, hs2⟩
  · show o1.length = _
    rw [ho1l, hlf]
  · show o2.length = _
    rw [ho2l, hlf]
  · show ((f.lab0.n : Nat) : Int) = _
    rw [hr2]
    rfl

theorem process_of_ramp (cc : Conversions) (L_to_sG : ℚ → ℚ) (dE : V3 → V3 → ℚ)
    (rd : List V6 → List DuplicateStats) (vals : List V6) (r2 : List DuplicateStats)
    (ramp : List V6) (h : neutral_ramp rd vals = .ok (r2, ramp)) :
    process_cgats_measurement_file cc L_to_sG dE rd vals = fill_stats cc L_to_sG dE r2 ramp := by
  unfold process_cgats_measurement_file
  rw [h, except_ok_bind]

theorem process_of_error (cc : Conversions) (L_to_sG : ℚ → ℚ) (dE : V3 → V3 → ℚ)
    (rd : List V6 → List DuplicateStats) (vals : List V6) (e : ProcessError)
    (h : neutral_ramp rd vals = .error e) :
    process_cgats_measurement_file cc L_to_sG dE rd vals = .error e := by
  unfold process_cgats_measurement_file
  rw [h]
  rfl

theorem ramp_tint3_groups :
    (group_stats 3 ramp_tint3).map DuplicateStats.rgb_lab = ramp_tint ∧
    (∀ x ∈ group_stats 3 ramp_tint3, x.lab0.n = 3) ∧
    (∀ x ∈ ramp_tint3, x.x0 = x.x1 ∧ x.x0 = x.x2) ∧
    (∀ x ∈ ramp_tint, spacing_fault 52 x = false) ∧
    (ramp_tint.getD 0 V6.zero).x0 = 0 ∧ (ramp_tint.getD 51 V6.zero).x0 = 255 := by decide!

theorem at6_some (v : List V6) (i : Nat) (x : V6) (h : v[i]? = some x) : at6 v i = .ok x := by
  unfold at6
  rw [h]

theorem neutral_ramp_not_neutral (rd : List V6 → List DuplicateStats) (vals : List V6)
    (h : ∃ x ∈ vals, ¬ (x.x0 = x.x1 ∧ x.x0 = x.x2)) :
    neutral_ramp rd vals = .error .not_neutral := by
  unfold neutral_ramp
  have hlt : (vals.filter (fun arg => decide (arg.x0 = arg.x1 ∧ arg.x0 = arg.x2))).length
      < vals.length := by
    rw [List.length_filter_lt_length_iff_exists]
    obtain ⟨x, hx, hn⟩ := h
    exact ⟨x, hx, by simpa using hn⟩
  have hne : ¬ ((vals.filter (fun arg => decide (arg.x0 = arg.x1 ∧ arg.x0 = arg.x2))).length
      = vals.length) := by omega
  dsimp only
  simp only [validate, hne, decide_False, Bool.false_eq_true, if_false]
  rfl

theorem neutral_ramp_missing_black (rd : List V6 → List DuplicateStats) (vals : List V6)
    (hneutral : ∀ x ∈ vals, x.x0 = x.x1 ∧ x.x0 = x.x2) (f : V6)
    (hf : (dedup_ramp rd vals)[0]? = some f) (h0 : f.x0 ≠ 0) :
    neutral_ramp rd vals = .error .missing_black := by
  unfold neutral_ramp
  unfold dedup_ramp at hf
  have hlen : (vals.filter (fun arg => decide (arg.x0 = arg.x1 ∧ arg.x0 = arg.x2))).length
      = vals.length := by
    rw [filter_all _ _ (fun x hx => decide_eq_true (hneutral x hx))]
  dsimp only
  rw [at6_some _ _ _ hf]
  simp only [validate, hlen, decide_True, if_true, except_ok_bind, h0, decide_False,
    Bool.false_eq_true, if_false]
  rfl

theorem neutral_ramp_missing_white (rd : List V6 → List DuplicateStats) (vals : List V6)
    (hneutral : ∀ x ∈ vals, x.x0 = x.x1 ∧ x.x0 = x.x2) (f l : V6)
    (hf : (dedup_ramp rd vals)[0]? = some f) (h0 : f.x0 = 0)
    (hl : (dedup_ramp rd vals)[(dedup_ramp rd vals).length - 1]? = some l)
    (h255 : l.x0 ≠ 255) :
    neutral_ramp rd vals = .error .missing_white := by
  unfold neutral_ramp
  unfold dedup_ramp at hf hl
  have hlen : (vals.filter (fun arg => decide (arg.x0 = arg.x1 ∧ arg.x0 = arg.x2))).length
      = vals.length := by
    rw [filter_all _ _ (fun x hx => decide_eq_true (hneutral x hx))]
  dsimp only
  rw [at6_some _ _ _ hf, at6_some _ _ _ hl]
  simp only [validate, hlen, decide_True, if_true, except_ok_bind, h0, h255, decide_False,
    Bool.false_eq_true, if_false]
  rfl

theorem neutral_ramp_uneven (rd : List V6 → List DuplicateStats) (vals : List V6)
    (hneutral : ∀ x ∈ vals, x.x0 = x.x1 ∧ x.x0 = x.x2) (f l : V6)
    (hf : (dedup_ramp rd vals)[0]? = some f) (h0 : f.x0 = 0)
    (hl : (dedup_ramp rd vals)[(dedup_ramp rd vals).length - 1]? = some l)
    (h255 : l.x0 = 255)
    (hn : (dedup_ramp rd vals).length = 52 ∨ (dedup_ramp rd vals).length = 256)
    (hx : ∃ x ∈ dedup_ramp rd vals, spacing_fault (dedup_ramp rd vals).length x = true) :
    neutral_ramp rd vals = .error .uneven_spacing := by
  unfold neutral_ramp
  unfold dedup_ramp at hf hl hn hx
  have hlen : (vals.filter (fun arg => decide (arg.x0 = arg.x1 ∧ arg.x0 = arg.x2))).length
      = vals.length := by
    rw [filter_all _ _ (fun x hx => decide_eq_true (hneutral x hx))]
  have hany := List.any_eq_true.mpr hx
  dsimp only
  rw [at6_some _ _ _ hf, at6_some _ _ _ hl]
  have h1 : ¬ (((rd (vals.filter (fun arg => decide (arg.x0 = arg.x1 ∧ arg.x0 = arg.x2)))).map
      DuplicateStats.rgb_lab).length ≠ 52 ∧
      ((rd (vals.filter (fun arg => decide (arg.x0 = arg.x1 ∧ arg.x0 = arg.x2)))).map
      DuplicateStats.rgb_lab).length ≠ 256) := by omega
  have h2 : ¬ (((rd (vals.filter (fun arg => decide (arg.x0 = arg.x1 ∧ arg.x0 = arg.x2)))).map
      DuplicateStats.rgb_lab).length - 1 = 0) := by omega
  simp only [validate, hlen, decide_True, if_true, except_ok_bind, h0, h255, h1, h2, if_false,
    pure, Except.pure, hany]

theorem sorted_first_last (ramp : List V6) (hs : ramp.Pairwise (fun a b => a.x0 ≤ b.x0))
    (f l : V6) (hf : ramp[0]? = some f) (hl : ramp[ramp.length - 1]? = some l) :
    ∀ y ∈ ramp, f.x0 ≤ y.x0 ∧ y.x0 ≤ l.x0 := by
  intro y hy
  obtain ⟨i, hi, rfl⟩ := List.getElem_of_mem hy
  obtain ⟨h0, hf2⟩ := List.getElem?_eq_some.mp hf
  obtain ⟨hl0, hl2⟩ := List.getElem?_eq_some.mp hl
  rw [List.pairwise_iff_getElem] at hs
  constructor
  · by_cases hi0 : i = 0
    · subst hi0
      rw [← hf2]
    · rw [← hf2]
      exact hs 0 i h0 hi (by omega)
  · by_cases hil : i = ramp.length - 1
    · subst hil
      rw [← hl2]
    · rw [← hl2]
      exact hs i (ramp.length - 1) hi hl0 (by omega)

/-- C16: `process_cgats_measurement_file` throws, and returns no `LabStats`, when some measured
patch has R, G, B not all equal; when the first entry of the deduplicated ramp (its lowest
gray level, the ramp being in ascending order) is not at 0; when its last entry (its highest
gray level) is not at 255; and when the deduplicated ramp has 52 or 256 entries and one of
them has a gray level that is not a multiple of `255/(n-1)`.  With a patch that is not
neutral the error is the one of the neutrality check. -/
theorem process_fails (cc : Conversions) (L_to_sG : ℚ → ℚ) (dE : V3 → V3 → ℚ)
    (rd : List V6 → List DuplicateStats) (vals : List V6)
    (h : (∃ x ∈ vals, ¬ (x.x0 = x.x1 ∧ x.x0 = x.x2)) ∨
      (∃ f, (dedup_ramp rd vals)[0]? = some f ∧ f.x0 ≠ 0) ∨
      (∃ l, (dedup_ramp rd vals)[(dedup_ramp rd vals).length - 1]? = some l ∧ l.x0 ≠ 255) ∨
      ((dedup_ramp rd vals).Pairwise (fun a b => a.x0 ≤ b.x0) ∧
        ∃ x ∈ dedup_ramp rd vals, (∀ y ∈ dedup_ramp rd vals, x.x0 ≤ y.x0) ∧ x.x0 ≠ 0) ∨
      ((dedup_ramp rd vals).Pairwise (fun a b => a.x0 ≤ b.x0) ∧
        ∃ x ∈ dedup_ramp rd vals, (∀ y ∈ dedup_ramp rd vals, y.x0 ≤ x.x0) ∧ x.x0 ≠ 255) ∨
      (((dedup_ramp rd vals).length = 52 ∨ (dedup_ramp rd vals).length = 256) ∧
        ∃ x ∈ dedup_ramp rd vals, ¬ ∃ k : Int,
          x.x0 = (k : ℚ) * ((255 / ((dedup_ramp rd vals).length - 1) : Nat) : ℚ))) :
    ∃ e, process_cgats_measurement_file cc L_to_sG dE rd vals = .error e ∧
      (e = .not_neutral ∨ e = .missing_black ∨ e = .missing_white ∨ e = .uneven_spacing) ∧
      ((∃ x ∈ vals, ¬ (x.x0 = x.x1 ∧ x.x0 = x.x2)) → e = .not_neutral) := by
  by_cases hnn : ∃ x ∈ vals, ¬ (x.x0 = x.x1 ∧ x.x0 = x.x2)
  · exact ⟨_, process_of_error cc L_to_sG dE rd vals _ (neutral_ramp_not_neutral rd vals hnn),
      Or.inl rfl, fun _ => rfl⟩
  · have hneutral : ∀ x ∈ vals, x.x0 = x.x1 ∧ x.x0 = x.x2 := by
      intro x hx
      by_contra hc
      exact hnn ⟨x, hx, hc⟩
    have hne : dedup_ramp rd vals ≠ [] := by
      intro hnil
      rcases h with h | ⟨f, hf, _⟩ | ⟨l, hl, _⟩ | ⟨_, x, hx, _⟩ | ⟨_, x, hx, _⟩ | ⟨hn, _⟩
      · exact hnn h
      · rw [hnil] at hf; simp at hf
      · rw [hnil] at hl; simp at hl
      · rw [hnil] at hx; simp at hx
      · rw [hnil] at hx; simp at hx
      · rw [hnil] at hn; simp at hn
    have hpos : 0 < (dedup_ramp rd vals).length := List.length_pos.mpr hne
    obtain ⟨f, hf⟩ : ∃ f, (dedup_ramp rd vals)[0]? = some f :=
      ⟨_, List.getElem?_eq_getElem hpos⟩
    obtain ⟨l, hl⟩ : ∃ l, (dedup_ramp rd vals)[(dedup_ramp rd vals).length - 1]? = some l :=
      ⟨_, List.getElem?_eq_getElem (by omega)⟩
    have hfm : f ∈ dedup_ramp rd vals := by
      obtain ⟨h0, hf2⟩ := List.getElem?_eq_some.mp hf
      rw [← hf2]; exact List.getElem_mem _
    have hlm : l ∈ dedup_ramp rd vals := by
      obtain ⟨h0, hl2⟩ := List.getElem?_eq_some.mp hl
      rw [← hl2]; exact List.getElem_mem _
    by_cases h0 : f.x0 = 0
    · by_cases h255 : l.x0 = 255
      · rcases h with h | ⟨f2, hf2, hf0⟩ | ⟨l2, hl2, hl0⟩ | ⟨hs, x, hx, hmin, hx0⟩ |
            ⟨hs, x, hx, hmax, hx255⟩ | ⟨hn, x, hx, hk⟩
        · exact absurd h hnn
        · rw [hf] at hf2
          cases Option.some.inj hf2
          exact absurd h0 hf0
        · rw [hl] at hl2
          cases Option.some.inj hl2
          exact absurd h255 hl0
        · have h1 := (sorted_first_last _ hs f l hf hl x hx).1
          have h2 := hmin f hfm
          exact absurd (le_antisymm h2 h1 ▸ h0) hx0
        · have h1 := (sorted_first_last _ hs f l hf hl x hx).2
          have h2 := hmax l hlm
          exact absurd (le_antisymm h1 h2 ▸ h255) hx255
        · have hd : 255 / ((dedup_ramp rd vals).length - 1) ≠ 0 := by
            rcases hn with h | h <;> rw [h] <;> decide
          have hfault : spacing_fault (dedup_ramp rd vals).length x = true := by
            cases hsf : spacing_fault (dedup_ramp rd vals).length x with
            | true => rfl
            | false => exact absurd ((spacing_fault_iff _ _ hd).mp hsf).2.2 hk
          exact ⟨_, process_of_error cc L_to_sG dE rd vals _
            (neutral_ramp_uneven rd vals hneutral f l hf h0 hl h255 hn ⟨x, hx, hfault⟩),
            Or.inr (Or.inr (Or.inr rfl)), fun hc => absurd hc hnn⟩
      · exact ⟨_, process_of_error cc L_to_sG dE rd vals _
          (neutral_ramp_missing_white rd vals hneutral f l hf h0 hl h255),
          Or.inr (Or.inr (Or.inl rfl)), fun hc => absurd hc hnn⟩
    · exact ⟨_, process_of_error cc L_to_sG dE rd vals _
        (neutral_ramp_missing_black rd vals hneutral f hf h0),
        Or.inr (Or.inl rfl), fun hc => absurd hc hnn⟩

theorem ramp_off_facts :
    dedup_ramp (group_stats 1) ramp_off = ramp_off ∧ ramp_off.length = 52 ∧
    gray 51 20 ∈ ramp_off ∧ spacing_fault 52 (gray 51 20) = true := by decide!

/-- Witness of C16: the measurements `ramp_off`, 52 gray levels of which one, 51, is not a
multiple of 5. -/
theorem process_fails_witness :
    ∃ e, process_cgats_measurement_file mean_conversions id abs_dL (group_stats 1) ramp_off
        = .error e ∧
      (e = .not_neutral ∨ e = .missing_black ∨ e = .missing_white ∨ e = .uneven_spacing) ∧
      ((∃ x ∈ ramp_off, ¬ (x.x0 = x.x1 ∧ x.x0 = x.x2)) → e = .not_neutral) :=
  process_fails mean_conversions id abs_dL (group_stats 1) ramp_off
    (Or.inr (Or.inr (Or.inr (Or.inr (Or.inr
      ⟨Or.inl (by rw [ramp_off_facts.1]; exact ramp_off_facts.2.1),
        gray 51 20, by rw [ramp_off_facts.1]; exact ramp_off_facts.2.2.1, by
          rw [ramp_off_facts.1, ramp_off_facts.2.1]
          intro hk
          have hf := (spacing_fault_iff 52 (gray 51 20) (by decide)).mpr ⟨rfl, rfl, hk⟩
          rw [ramp_off_facts.2.2.2] at hf
          cases hf⟩)))))

/-- C17, the code at a failing input: for the six measurements `ramp6` (gray levels 0, 51,
..., 255, one sample each) the interpolation loop builds the 256 gray levels 0, 1, ..., 255,
which have no spacing fault for the size 256; but the check that follows uses the size
`n = 6` taken before the interpolation, `255/(n-1)` is 51, the gray level 1 is not a multiple
of it, and the call throws "Patch file must be evenly spaced neutrals". -/
theorem interpolated_ramp_rejected (cc : Conversions) (L_to_sG : ℚ → ℚ) (dE : V3 → V3 → ℚ) :
    dedup_ramp (group_stats 1) ramp6 = ramp6 ∧
    ((List.range 6).foldlM (interpolate_step ramp6 6) []).map (List.map V6.x0)
      = .ok ((List.range 256).map (fun (i : Nat) => (i : ℚ))) ∧
    ((List.range 6).foldlM (interpolate_step ramp6 6) []).map
      (fun x => x.any (spacing_fault 256)) = .ok false ∧
    fmod 1 ((255 / (6 - 1) : Nat) : ℚ) = some 1 ∧
    process_cgats_measurement_file cc L_to_sG dE (group_stats 1) ramp6
      = .error .uneven_spacing := by
  have h : dedup_ramp (group_stats 1) ramp6 = ramp6 ∧
      ((List.range 6).foldlM (interpolate_step ramp6 6) []).map (List.map V6.x0)
        = .ok ((List.range 256).map (fun (i : Nat) => (i : ℚ))) ∧
      ((List.range 6).foldlM (interpolate_step ramp6 6) []).map
        (fun x => x.any (spacing_fault 256)) = .ok false ∧
      fmod 1 ((255 / (6 - 1) : Nat) : ℚ) = some 1 ∧
      neutral_ramp (group_stats 1) ramp6 = .error .uneven_spacing := by decide!
  exact ⟨h.1, h.2.1, h.2.2.1, h.2.2.2.1,
    process_of_error cc L_to_sG dE (group_stats 1) ramp6 _ h.2.2.2.2⟩

/-! ## Theorems: the positions and the range of `smooth` -/

theorem smooth_writes_nodup (N h : Nat) (hN : 2 * h + 1 ≤ N) :
    (smooth_writes N (2 * h + 1)).Nodup := by
  unfold smooth_writes
  have hhalf : (2 * h + 1) / 2 = h := by omega
  rw [hhalf, List.nodup_append]
  refine ⟨?_, ?_, ?_⟩
  · apply List.Nodup.map _ (List.nodup_range _)
    intro a b hab
    simp only at hab
    omega
  · rw [List.nodup_flatMap]
    constructor
    · intro i hi
      rw [List.mem_range'_1] at hi
      simp only [List.nodup_cons, List.mem_singleton, List.not_mem_nil, not_false_eq_true,
        List.nodup_nil, and_true]
      omega
    · apply List.Pairwise.imp_of_mem _ (List.pairwise_lt_range' 1 h)
      intro a b ha hb hab
      rw [List.mem_range'_1] at ha hb
      simp only [Function.onFun, List.disjoint_cons_left, List.mem_cons, List.mem_singleton,
        List.not_mem_nil, or_false, List.disjoint_nil_left, and_true]
      omega
  · intro a ha hb
    simp only [List.mem_map, List.mem_range, List.mem_flatMap, List.mem_range'_1, List.mem_cons,
      List.mem_singleton, List.not_mem_nil, or_false] at ha hb
    obtain ⟨i, hi, rfl⟩ := ha
    obtain ⟨j, hj, hor⟩ := hb
    omega

theorem smooth_writes_mem (N h a : Nat) (hN : 2 * h + 1 ≤ N) :
    a ∈ smooth_writes N (2 * h + 1) ↔ a < N := by
  unfold smooth_writes
  have hhalf : (2 * h + 1) / 2 = h := by omega
  rw [hhalf]
  simp only [List.mem_append, List.mem_map, List.mem_range, List.mem_flatMap,
    List.mem_range'_1, List.mem_cons, List.mem_singleton, List.not_mem_nil, or_false]
  constructor
  · rintro (⟨i, hi, rfl⟩ | ⟨j, hj, hor⟩) <;> omega
  · intro ha
    by_cases h1 : a < h
    · exact Or.inr ⟨a + 1, by omega, Or.inl (by omega)⟩
    · by_cases h2 : a + h < N
      · exact Or.inl ⟨a - h, by omega, by omega⟩
      · exact Or.inr ⟨N - a, by omega, Or.inr (by omega)⟩

theorem smooth_writes_perm (N h : Nat) (hN : 2 * h + 1 ≤ N) :
    (smooth_writes N (2 * h + 1)).Perm (List.range N) := by
  rw [List.perm_ext_iff_of_nodup (smooth_writes_nodup N h hN) (List.nodup_range N)]
  intro a
  rw [smooth_writes_mem N h a hN, List.mem_range]

theorem smooth_out_get (v3 : List V3) (h : Nat) (xcenter : Bool) (j c : Nat)
    (hj : j < v3.length) (hc : c < 3) :
    (((List.range v3.length).map (fun j =>
      (⟨smooth_entry (channel v3 0) h xcenter j, smooth_entry (channel v3 1) h xcenter j,
        smooth_entry (channel v3 2) h xcenter j⟩ : V3))).getD j V3.zero).get c
      = smooth_entry (channel v3 c) h xcenter j := by
  rw [List.getD_eq_getElem?_getD, List.getElem?_map, List.getElem?_range hj]
  simp only [Option.map_some', Option.getD_some]
  have : c = 0 ∨ c = 1 ∨ c = 2 := by omega
  rcases this with rfl | rfl | rfl <;> rfl

/-- C21: for every sequence of length `N` and every odd kernel size `k <= N`, `smooth`
returns `N` values; with `h = k / 2`, for `j < h` output `j` is the kernel of size `2 j + 1`
applied to `v[0..2j]` and output `N - 1 - j` the kernel of size `2 j + 1` applied to
`v[N-1-2j..N-1]`; every other output `i` is the kernel of size `k` applied to `v[i-h..i+h]`;
this holds in each of the three channels; and the positions assigned in one pass of the
channel loop are the positions `0, ..., N - 1`, each once. -/
theorem smooth_positions (v3 : List V3) (k : Nat) (xcenter : Bool) (hodd : k % 2 = 1)
    (hk : k ≤ v3.length) :
    ∃ out, smooth v3 k xcenter = some out ∧ out.length = v3.length ∧
      (∀ c j : Nat, c < 3 → j < k / 2 →
        (make_lowpass (2 * j + 1) xcenter).length = 2 * j + 1 ∧
        (out.getD j V3.zero).get c
          = window_dot (make_lowpass (2 * j + 1) xcenter) (channel v3 c) 0 ∧
        (out.getD (v3.length - 1 - j) V3.zero).get c
          = window_dot (make_lowpass (2 * j + 1) xcenter) (channel v3 c)
              (v3.length - 1 - 2 * j)) ∧
      (∀ c i : Nat, c < 3 → k / 2 ≤ i → i + k / 2 < v3.length →
        (make_lowpass k xcenter).length = k ∧
        (out.getD i V3.zero).get c
          = window_dot (make_lowpass k xcenter) (channel v3 c) (i - k / 2)) ∧
      (smooth_writes v3.length k).Perm (List.range v3.length) := by
  obtain ⟨h, rfl⟩ : ∃ h, k = 2 * h + 1 := ⟨k / 2, by omega⟩
  have hhalf : (2 * h + 1) / 2 = h := by omega
  rw [hhalf]
  refine ⟨_, smooth_eq v3 h xcenter hk, by simp, ?_, ?_, smooth_writes_perm _ h hk⟩
  · intro c j hc hj
    refine ⟨make_lowpass_length _ _ (by omega), ?_, ?_⟩
    · rw [smooth_out_get v3 h xcenter j c (by omega) hc]
      unfold smooth_entry
      have hw : window_half (channel v3 c).length h j = j := by
        rw [channel_length]; unfold window_half; omega
      rw [hw, Nat.sub_self]
    · rw [smooth_out_get v3 h xcenter _ c (by omega) hc]
      unfold smooth_entry
      have hw : window_half (channel v3 c).length h (v3.length - 1 - j) = j := by
        rw [channel_length]; unfold window_half; omega
      rw [hw]
      congr 1
      omega
  · intro c i hc h1 h2
    refine ⟨make_lowpass_length _ _ (by omega), ?_⟩
    rw [smooth_out_get v3 h xcenter i c (by omega) hc]
    unfold smooth_entry
    have hw : window_half (channel v3 c).length h i = h := by
      rw [channel_length]; unfold window_half; omega
    rw [hw]

/-- Witness of C21: the five Lab values `five_labs` with the kernel size 3. -/
theorem smooth_positions_witness :
    ∃ out, smooth five_labs 3 false = some out ∧ out.length = five_labs.length ∧
      (∀ c j : Nat, c < 3 → j < 3 / 2 →
        (make_lowpass (2 * j + 1) false).length = 2 * j + 1 ∧
        (out.getD j V3.zero).get c
          = window_dot (make_lowpass (2 * j + 1) false) (channel five_labs c) 0 ∧
        (out.getD (five_labs.length - 1 - j) V3.zero).get c
          = window_dot (make_lowpass (2 * j + 1) false) (channel five_labs c)
              (five_labs.length - 1 - 2 * j)) ∧
      (∀ c i : Nat, c < 3 → 3 / 2 ≤ i → i + 3 / 2 < five_labs.length →
        (make_lowpass 3 false).length = 3 ∧
        (out.getD i V3.zero).get c
          = window_dot (make_lowpass 3 false) (channel five_labs c) (i - 3 / 2)) ∧
      (smooth_writes five_labs.length 3).Perm (List.range five_labs.length) :=
  smooth_positions five_labs 3 false (by decide) (by decide)

theorem read_byte_ok (pc : Buffer) (p : Nat) (h : p < pc.length) :
    read_byte pc p = .ok (pc.getD p 0) := by
  unfold read_byte
  rw [List.getD_eq_getElem?_getD, List.getElem?_eq_getElem h]
  rfl

theorem shift_or_eq (a b c d : Nat) (ha : a < 256) (hb : b < 256) (hc : c < 256)
    (hd : d < 256) :
    (((a <<< 24) % 2 ^ 32 ||| (b <<< 16)) ||| (c <<< 8)) ||| d = be32 a b c d := by
  unfold be32
  rw [Nat.shiftLeft_eq, Nat.shiftLeft_eq, Nat.shiftLeft_eq, Nat.mod_eq_of_lt (by omega)]
  have e1 : a * 2 ^ 24 ||| b * 2 ^ 16 = a * 2 ^ 24 + b * 2 ^ 16 := by
    rw [Nat.mul_comm a, ← Nat.mul_add_lt_is_or (by omega)]
  have e2 : (a * 2 ^ 24 + b * 2 ^ 16) ||| c * 2 ^ 8 = a * 2 ^ 24 + b * 2 ^ 16 + c * 2 ^ 8 := by
    have : a * 2 ^ 24 + b * 2 ^ 16 = 2 ^ 16 * (a * 2 ^ 8 + b) := by ring
    rw [this, ← Nat.mul_add_lt_is_or (by omega)]
  have e3 : (a * 2 ^ 24 + b * 2 ^ 16 + c * 2 ^ 8) ||| d
      = a * 2 ^ 24 + b * 2 ^ 16 + c * 2 ^ 8 + d := by
    have : a * 2 ^ 24 + b * 2 ^ 16 + c * 2 ^ 8 = 2 ^ 8 * (a * 2 ^ 16 + b * 2 ^ 8 + c) := by ring
    rw [this, ← Nat.mul_add_lt_is_or (by omega)]
  rw [e1, e2, e3]

/-- The function `endian32` on four bytes inside the buffer. -/
theorem endian32_eq (pc : Buffer) (p : Nat) (h : p + 3 < pc.length) :
    endian32 pc p = .ok (be32_at pc p) := by
  unfold endian32
  rw [read_byte_ok pc p (by omega), read_byte_ok pc (p + 1) (by omega),
    read_byte_ok pc (p + 2) (by omega), read_byte_ok pc (p + 3) (by omega)]
  simp only [bind, Except.bind, pure, Except.pure]
  rw [shift_or_eq _ _ _ _ (Nat.mod_lt _ (by norm_num)) (Nat.mod_lt _ (by norm_num))
    (Nat.mod_lt _ (by norm_num)) (Nat.mod_lt _ (by norm_num))]
  rfl

theorem get_tags_step_eq (pc : Buffer) (ret : TagMap) (i : Nat)
    (h : 132 + 12 * i + 12 ≤ pc.length) :
    get_tags_step pc ret i = .ok (map_assign ret (dir_entry pc i)) := by
  unfold get_tags_step read_id
  simp only []
  rw [read_byte_ok pc _ (by omega), read_byte_ok pc _ (by omega), read_byte_ok pc _ (by omega),
    read_byte_ok pc _ (by omega), endian32_eq pc _ (by omega), endian32_eq pc _ (by omega)]
  rfl

theorem get_tags_loop (pc : Buffer) (n : Nat) (h : 132 + 12 * n ≤ pc.length) :
    (List.range n).foldlM (get_tags_step pc) []
      = .ok (((List.range n).map (dir_entry pc)).foldl map_assign []) := by
  induction n with
  | zero => rfl
  | succ n ih =>
    rw [List.range_succ, List.foldlM_append, ih (by omega), List.map_append, List.foldl_append]
    simp only [bind, Except.bind, List.foldlM_cons, List.foldlM_nil, List.map_cons,
      List.map_nil, List.foldl_cons, List.foldl_nil]
    rw [get_tags_step_eq pc _ n (by omega)]
    rfl

/-- The function `get_tags` on a buffer that holds its whole directory. -/
theorem get_tags_eq (pc : Buffer) (h : 132 + 12 * dir_count pc ≤ pc.length) :
    get_tags pc = .ok (((List.range (dir_count pc)).map (dir_entry pc)).foldl map_assign []) := by
  unfold get_tags
  rw [endian32_eq pc 128 (by omega)]
  exact get_tags_loop pc _ h

theorem map_at_assign (m : TagMap) (t : Tags) (id : List Nat) :
    map_at (map_assign m t) id = if t.id = id then .ok t else map_at m id := by
  induction m with
  | nil =>
    unfold map_assign map_at
    by_cases h : t.id = id
    · simp [List.find?, h]
    · simp [List.find?, h]
  | cons x xs ih =>
    unfold map_assign
    by_cases hx : x.id = t.id
    · rw [if_pos hx]
      by_cases h : t.id = id
      · rw [if_pos h]
        unfold map_at
        simp [List.find?, h]
      · rw [if_neg h]
        have hxid : ¬ x.id = id := by rw [hx]; exact h
        unfold map_at
        simp [List.find?, h, hxid]
    · rw [if_neg hx]
      by_cases hxid : x.id = id
      · have h : ¬ t.id = id := by
          intro ht
          exact hx (hxid.trans ht.symm)
        rw [if_neg h]
        unfold map_at
        simp [List.find?, hxid]
      · have e1 : map_at (x :: map_assign xs t) id = map_at (map_assign xs t) id := by
          unfold map_at
          simp [List.find?, hxid]
        have e2 : map_at (x :: xs) id = map_at xs id := by
          unfold map_at
          simp [List.find?, hxid]
        rw [e1, e2, ih]

/-- The lookup in the map built from a list of entries: the last entry with the id. -/
theorem map_at_build (id : List Nat) (es : List Tags) :
    (∀ (i : Nat) (t : Tags), es[i]? = some t → t.id = id →
      (∀ (j : Nat) (u : Tags), i < j → es[j]? = some u → u.id ≠ id) →
      map_at (es.foldl map_assign []) id = .ok t) ∧
    ((∀ t ∈ es, t.id ≠ id) → map_at (es.foldl map_assign []) id = .error .out_of_range) := by
  induction es using List.reverseRecOn with
  | nil =>
    constructor
    · intro i t h
      simp at h
    · intro _
      rfl
  | append_singleton es u ih =>
    rw [List.foldl_append, List.foldl_cons, List.foldl_nil, map_at_assign]
    constructor
    · intro i t hi hid hlast
      by_cases hu : u.id = id
      · rw [if_pos hu]
        by_cases hlt : i < es.length
        · have := hlast es.length u hlt (by simp)
          exact absurd hu this
        · have hi2 : i = es.length := by
            have := (List.getElem?_eq_some.mp hi).1
            simp at this
            omega
          subst hi2
          simp at hi
          rw [hi]
      · rw [if_neg hu]
        have hlt : i < es.length := by
          have hl := (List.getElem?_eq_some.mp hi).1
          simp at hl
          by_contra hc
          have hi2 : i = es.length := by omega
          subst hi2
          simp at hi
          rw [hi] at hu
          exact hu hid
        apply ih.1 i t
        · rw [List.getElem?_append_left hlt] at hi
          exact hi
        · exact hid
        · intro j w hij hj
          have hjl : j < es.length := (List.getElem?_eq_some.mp hj).1
          apply hlast j w hij
          rw [List.getElem?_append_left hjl]
          exact hj
    · intro hnone
      have hu : ¬ u.id = id := hnone u (by simp)
      rw [if_neg hu]
      exact ih.2 (fun t ht => hnone t (by simp [ht]))

theorem has_tag_iff_map_at (m : TagMap) (id : List Nat) :
    has_tag m id ↔ ∃ t, map_at m id = .ok t :=
  ⟨map_at_ok_of_has_tag m id, fun ⟨t, ht⟩ => has_tag_of_map_at m id t ht⟩

theorem has_tag_build (id : List Nat) (es : List Tags) :
    has_tag (es.foldl map_assign []) id ↔ ∃ t ∈ es, t.id = id := by
  induction es using List.reverseRecOn with
  | nil =>
    constructor
    · rintro ⟨t, ht, _⟩
      simp at ht
    · rintro ⟨t, ht, _⟩
      simp at ht
  | append_singleton es u ih =>
    rw [List.foldl_append, List.foldl_cons, List.foldl_nil, has_tag_iff_map_at, map_at_assign]
    by_cases hu : u.id = id
    · rw [if_pos hu]
      exact ⟨fun _ => ⟨u, by simp, hu⟩, fun _ => ⟨u, rfl⟩⟩
    · rw [if_neg hu, ← has_tag_iff_map_at, ih]
      constructor
      · rintro ⟨t, ht, hid⟩
        exact ⟨t, by simp [ht], hid⟩
      · rintro ⟨t, ht, hid⟩
        rw [List.mem_append, List.mem_singleton] at ht
        rcases ht with ht | rfl
        · exact ⟨t, ht, hid⟩
        · exact absurd hid hu

/-- C22: for every buffer that holds its whole directory, `get_tags` reads the entry count as
the big-endian 32-bit integer at the bytes 128..131 and, for each `i` below the count, the
12-byte entry at `132 + 12 i`: a 4-byte id, a big-endian offset and a big-endian length
(`endian32` of the bytes `b0 b1 b2 b3` is `b0 * 2^24 + b1 * 2^16 + b2 * 2^8 + b3` for all
byte values); the map returned holds exactly the ids of those entries, and the lookup of an
id gives the last entry that carries it. -/
theorem get_tags_directory (pc : Buffer) (h : 132 + 12 * dir_count pc ≤ pc.length) :
    ∃ m, get_tags pc = .ok m ∧
      endian32 pc 128 = .ok (dir_count pc) ∧
      (∀ id : List Nat, has_tag m id ↔ ∃ i : Nat, i < dir_count pc ∧ (dir_entry pc i).id = id) ∧
      (∀ (id : List Nat) (i : Nat), i < dir_count pc → (dir_entry pc i).id = id →
        (∀ j : Nat, i < j → j < dir_count pc → (dir_entry pc j).id ≠ id) →
        map_at m id = .ok (dir_entry pc i)) ∧
      (∀ i : Nat, i < dir_count pc →
        read_id pc (132 + 12 * i) = .ok (dir_entry pc i).id ∧
        endian32 pc (132 + 12 * i + 4) = .ok (dir_entry pc i).offset ∧
        endian32 pc (132 + 12 * i + 8) = .ok (dir_entry pc i).size) ∧
      (∀ b0 b1 b2 b3 : Nat, b0 < 256 → b1 < 256 → b2 < 256 → b3 < 256 →
        endian32 [b0, b1, b2, b3] 0
          = .ok (b0 * 2 ^ 24 + b1 * 2 ^ 16 + b2 * 2 ^ 8 + b3)) := by
  refine ⟨_, get_tags_eq pc h, endian32_eq pc 128 (by omega), ?_, ?_, ?_, ?_⟩
  · intro id
    rw [has_tag_build]
    constructor
    · rintro ⟨t, ht, hid⟩
      obtain ⟨i, hi, rfl⟩ := List.mem_map.mp ht
      exact ⟨i, List.mem_range.mp hi, hid⟩
    · rintro ⟨i, hi, hid⟩
      exact ⟨dir_entry pc i, List.mem_map.mpr ⟨i, List.mem_range.mpr hi, rfl⟩, hid⟩
  · intro id i hi hid hlast
    apply (map_at_build id _).1 i (dir_entry pc i)
    · rw [List.getElem?_map, List.getElem?_range hi]
      rfl
    · exact hid
    · intro j u hij hj
      have hjl : j < dir_count pc := by
        have := (List.getElem?_eq_some.mp hj).1
        simpa using this
      rw [List.getElem?_map, List.getElem?_range hjl] at hj
      cases Option.some.inj hj
      exact hlast j hij hjl
  · intro i hi
    refine ⟨?_, endian32_eq pc _ (by omega), endian32_eq pc _ (by omega)⟩
    unfold read_id
    rw [read_byte_ok pc _ (by omega), read_byte_ok pc _ (by omega),
      read_byte_ok pc _ (by omega), read_byte_ok pc _ (by omega)]
    rfl
  · intro b0 b1 b2 b3 h0 h1 h2 h3
    rw [endian32_eq _ 0 (by simp)]
    unfold be32_at byte_at be32
    simp [Nat.mod_eq_of_lt h0, Nat.mod_eq_of_lt h1, Nat.mod_eq_of_lt h2, Nat.mod_eq_of_lt h3]

theorem sample_dest_directory : 132 + 12 * dir_count sample_dest ≤ sample_dest.length := by
  decide!

/-- Witness of C22: the profile `sample_dest`, whose directory has the two entries A2B1 and
wtpt. -/
theorem get_tags_directory_witness :
    ∃ m, get_tags sample_dest = .ok m ∧
      endian32 sample_dest 128 = .ok (dir_count sample_dest) ∧
      (∀ id : List Nat, has_tag m id ↔
        ∃ i : Nat, i < dir_count sample_dest ∧ (dir_entry sample_dest i).id = id) ∧
      (∀ (id : List Nat) (i : Nat), i < dir_count sample_dest →
        (dir_entry sample_dest i).id = id →
        (∀ j : Nat, i < j → j < dir_count sample_dest → (dir_entry sample_dest j).id ≠ id) →
        map_at m id = .ok (dir_entry sample_dest i)) ∧
      (∀ i : Nat, i < dir_count sample_dest →
        read_id sample_dest (132 + 12 * i) = .ok (dir_entry sample_dest i).id ∧
        endian32 sample_dest (132 + 12 * i + 4) = .ok (dir_entry sample_dest i).offset ∧
        endian32 sample_dest (132 + 12 * i + 8) = .ok (dir_entry sample_dest i).size) ∧
      (∀ b0 b1 b2 b3 : Nat, b0 < 256 → b1 < 256 → b2 < 256 → b3 < 256 →
        endian32 [b0, b1, b2, b3] 0
          = .ok (b0 * 2 ^ 24 + b1 * 2 ^ 16 + b2 * 2 ^ 8 + b3)) :=
  get_tags_directory sample_dest sample_dest_directory

/-! ## Theorems: the projected lightness curve -/

/-- The constructor on a ramp of 52 or 256 entries: the reference points `sRGB_xyz` and the
curve `L_projected` that it computes from them. -/
theorem construct_projected (cc : Conversions) (vin : List V6)
    (hlen : vin.length = 52 ∨ vin.length = 256) :
    ∃ pf, PatchFilter.construct cc vin = some pf ∧ pf.lab5.length = 52 ∧
      pf.sRGB_xyz = (List.range 52).map (fun (i : Nat) =>
        cc.Lab_to_XYZ ⟨(cc.sRGB_to_Lab ⟨(i : ℚ) * 5, (i : ℚ) * 5, (i : ℚ) * 5⟩).x0, 0, 0⟩) ∧
      pf.L_projected = pf.sRGB_xyz.map (fun s =>
        (cc.XYZ_to_Lab (projected_xyz pf.intent (cc.Lab_to_XYZ (pf.lab5.getD 0 V3.zero))
          (cc.Lab_to_XYZ (pf.lab5.getD 51 V3.zero)) s)).x0) := by
  have key : ∀ (nd : Int) (h : Nat), ND_init vin.length = some nd →
      kernel_size nd = 2 * h + 1 → 2 * h + 1 ≤ vin.length →
      ∃ pf, PatchFilter.construct cc vin = some pf ∧ pf.lab5.length = 52 ∧
        pf.sRGB_xyz = (List.range 52).map (fun (i : Nat) =>
          cc.Lab_to_XYZ ⟨(cc.sRGB_to_Lab ⟨(i : ℚ) * 5, (i : ℚ) * 5, (i : ℚ) * 5⟩).x0, 0, 0⟩) ∧
        pf.L_projected = pf.sRGB_xyz.map (fun s =>
          (cc.XYZ_to_Lab (projected_xyz pf.intent (cc.Lab_to_XYZ (pf.lab5.getD 0 V3.zero))
            (cc.Lab_to_XYZ (pf.lab5.getD 51 V3.zero)) s)).x0) := by
    intro nd h hnd hk hh
    have hl : (vin.map V6.lab).length = vin.length := List.length_map _ _
    obtain ⟨labf, hf⟩ : ∃ labf, smooth (vin.map V6.lab) (2 * h + 1) false = some labf :=
      ⟨_, smooth_eq _ h false (by omega)⟩
    obtain ⟨labfx, hfx⟩ : ∃ labfx, smooth (vin.map V6.lab) (2 * h + 1) true = some labfx :=
      ⟨_, smooth_eq _ h true (by omega)⟩
    have hfl : labf.length = vin.length := by
      have := smooth_eq (vin.map V6.lab) h false (by omega)
      rw [hf] at this
      rw [Option.some.inj this]
      simp
    obtain ⟨lab5, h5, h5l⟩ := resample5_some labf (by omega)
    have g : ∀ k, k < 52 → lab5[k]? = some (lab5.getD k V3.zero) := by
      intro k hk
      rw [List.getD_eq_getElem?_getD, List.getElem?_eq_getElem (by omega)]
      rfl
    refine ⟨{ ND := nd,
              L_sRGB := (List.range 52).map (fun (i : Nat) =>
                (cc.sRGB_to_Lab ⟨(i : ℚ) * 5, (i : ℚ) * 5, (i : ℚ) * 5⟩).x0),
              sRGB_xyz := ((List.range 52).map
                (fun (i : Nat) =>
                (cc.sRGB_to_Lab ⟨(i : ℚ) * 5, (i : ℚ) * 5, (i : ℚ) * 5⟩).x0)).map
                (fun l => cc.Lab_to_XYZ ⟨l, 0, 0⟩),
              lab := vin.map V6.lab, labf := labf, labfx := labfx, lab5 := lab5,
              intent := classify (lab5.getD 0 V3.zero) (lab5.getD 1 V3.zero)
                (lab5.getD 2 V3.zero) (lab5.getD 3 V3.zero) (lab5.getD 50 V3.zero)
                (lab5.getD 51 V3.zero),
              L_projected := (((List.range 52).map
                (fun (i : Nat) =>
                (cc.sRGB_to_Lab ⟨(i : ℚ) * 5, (i : ℚ) * 5, (i : ℚ) * 5⟩).x0)).map
                (fun l => cc.Lab_to_XYZ ⟨l, 0, 0⟩)).map (fun s =>
                  (cc.XYZ_to_Lab (projected_xyz
                    (classify (lab5.getD 0 V3.zero) (lab5.getD 1 V3.zero)
                      (lab5.getD 2 V3.zero) (lab5.getD 3 V3.zero) (lab5.getD 50 V3.zero)
                      (lab5.getD 51 V3.zero))
                    (cc.Lab_to_XYZ (lab5.getD 0 V3.zero))
                    (cc.Lab_to_XYZ (lab5.getD 51 V3.zero)) s)).x0) },
      ?_, h5l, by simp [List.map_map, Function.comp], rfl⟩
    unfold PatchFilter.construct
    rw [hnd, Option.bind_eq_bind, Option.some_bind, hk]
    dsimp only
    rw [hf, Option.bind_eq_bind, Option.some_bind, hfx, Option.some_bind, h5, Option.some_bind,
      List.getElem?_map, List.getElem?_map, g 0 (by omega), g 1 (by omega), g 2 (by omega),
      g 3 (by omega), g 50 (by omega), g 51 (by omega), Option.map_some', Option.map_some',
      Option.bind_eq_bind, Option.some_bind, Option.some_bind, Option.some_bind,
      Option.some_bind, Option.some_bind, Option.some_bind, Option.some_bind, Option.some_bind]
    rfl
  rcases hlen with h | h
  · exact key 5 1 (by rw [h]; exact ND_init_52) kernel_size_5 (by omega)
  · exact key 1 4 (by rw [h]; exact ND_init_256) kernel_size_1 (by omega)

/-- The Y of `projected_xyz` for each intent, and its range. -/
theorem projected_Y (intent : Intent) (black white s : V3) :
    (intent = Intent.RELBPC →
      (projected_xyz intent black white s).x1 = black.x1 + (white.x1 - black.x1) * s.x1) ∧
    (intent = Intent.REL →
      (black.x1 ≤ white.x1 * s.x1 → (projected_xyz intent black white s).x1 = white.x1 * s.x1) ∧
      (white.x1 * s.x1 < black.x1 → (projected_xyz intent black white s).x1 = black.x1)) ∧
    (intent = Intent.ABS →
      (s.x1 < black.x1 → (projected_xyz intent black white s).x1 = black.x1) ∧
      (¬ s.x1 < black.x1 → s.x1 > white.x1 →
        (projected_xyz intent black white s).x1 = white.x1) ∧
      (¬ s.x1 < black.x1 → ¬ s.x1 > white.x1 →
        (projected_xyz intent black white s).x1 = s.x1)) ∧
    (0 ≤ black.x1 → black.x1 ≤ white.x1 → 0 ≤ s.x1 → s.x1 ≤ 1 →
      black.x1 ≤ (projected_xyz intent black white s).x1 ∧
      (projected_xyz intent black white s).x1 ≤ white.x1) := by
  refine ⟨?_, ?_, ?_, ?_⟩
  · rintro rfl
    simp [projected_xyz, V3.add, V3.smul]
  · rintro rfl
    constructor
    · intro h
      simp [projected_xyz, V3.smul, not_lt.mpr h]
    · intro h
      simp [projected_xyz, h]
  · rintro rfl
    refine ⟨?_, ?_, ?_⟩
    · intro h
      simp [projected_xyz, h]
    · intro h1 h2
      simp [projected_xyz, h1, h2]
    · intro h1 h2
      simp [projected_xyz, h1, h2]
  · intro hb hbw hs0 hs1
    cases intent with
    | RELBPC =>
      simp only [projected_xyz, V3.add, V3.smul]
      constructor
      · nlinarith [mul_nonneg (sub_nonneg.mpr hbw) hs0]
      · nlinarith [mul_nonneg (sub_nonneg.mpr hbw) (sub_nonneg.mpr hs1)]
    | REL =>
      simp only [projected_xyz]
      split
      · exact ⟨le_refl _, hbw⟩
      · rename_i h
        simp only [V3.smul]
        exact ⟨not_lt.mp h, by nlinarith [mul_nonneg (le_trans hb hbw) (sub_nonneg.mpr hs1)]⟩
    | ABS =>
      simp only [projected_xyz]
      split
      · exact ⟨le_refl _, hbw⟩
      · rename_i h
        split
        · exact ⟨hbw, le_refl _⟩
        · rename_i h2
          exact ⟨not_lt.mp h, not_lt.mp h2⟩

/-- C23: for a ramp of 52 or 256 entries the constructor returns, and for each of the 52
reference points `i`, with `s` the reference `sRGB_xyz[i]`, `black` and `white` the XYZ of
`lab5[0]` and `lab5[51]`, the entry `L_projected[i]` is the `L*` of the XYZ value whose Y is:
for RELBPC, `blackY + (whiteY - blackY) * sY`; for REL, `whiteY * sY` when that is at least
`blackY` and `blackY` otherwise; for ABS, `blackY` when `sY < blackY`, else `whiteY` when
`sY > whiteY`, else `sY`.  When `0 <= blackY <= whiteY` and `0 <= sY <= 1` this Y lies in
`[blackY, whiteY]` for all three intents. -/
theorem projected_curve (cc : Conversions) (vin : List V6)
    (hlen : vin.length = 52 ∨ vin.length = 256) :
    ∃ pf, PatchFilter.construct cc vin = some pf ∧
      pf.L_projected.length = 52 ∧
      ∀ i : Nat, i < 52 → ∃ s xyz : V3,
        pf.sRGB_xyz[i]? = some s ∧
        s = cc.Lab_to_XYZ ⟨(cc.sRGB_to_Lab ⟨(i : ℚ) * 5, (i : ℚ) * 5, (i : ℚ) * 5⟩).x0, 0, 0⟩ ∧
        xyz = projected_xyz pf.intent (cc.Lab_to_XYZ (pf.lab5.getD 0 V3.zero))
          (cc.Lab_to_XYZ (pf.lab5.getD 51 V3.zero)) s ∧
        pf.L_projected[i]? = some (cc.XYZ_to_Lab xyz).x0 ∧
        (pf.intent = Intent.RELBPC →
          xyz.x1 = (cc.Lab_to_XYZ (pf.lab5.getD 0 V3.zero)).x1 +
            ((cc.Lab_to_XYZ (pf.lab5.getD 51 V3.zero)).x1 -
              (cc.Lab_to_XYZ (pf.lab5.getD 0 V3.zero)).x1) * s.x1) ∧
        (pf.intent = Intent.REL →
          ((cc.Lab_to_XYZ (pf.lab5.getD 0 V3.zero)).x1 ≤
              (cc.Lab_to_XYZ (pf.lab5.getD 51 V3.zero)).x1 * s.x1 →
            xyz.x1 = (cc.Lab_to_XYZ (pf.lab5.getD 51 V3.zero)).x1 * s.x1) ∧
          ((cc.Lab_to_XYZ (pf.lab5.getD 51 V3.zero)).x1 * s.x1 <
              (cc.Lab_to_XYZ (pf.lab5.getD 0 V3.zero)).x1 →
            xyz.x1 = (cc.Lab_to_XYZ (pf.lab5.getD 0 V3.zero)).x1)) ∧
        (pf.intent = Intent.ABS →
          (s.x1 < (cc.Lab_to_XYZ (pf.lab5.getD 0 V3.zero)).x1 →
            xyz.x1 = (cc.Lab_to_XYZ (pf.lab5.getD 0 V3.zero)).x1) ∧
          (¬ s.x1 < (cc.Lab_to_XYZ (pf.lab5.getD 0 V3.zero)).x1 →
            s.x1 > (cc.Lab_to_XYZ (pf.lab5.getD 51 V3.zero)).x1 →
            xyz.x1 = (cc.Lab_to_XYZ (pf.lab5.getD 51 V3.zero)).x1) ∧
          (¬ s.x1 < (cc.Lab_to_XYZ (pf.lab5.getD 0 V3.zero)).x1 →
            ¬ s.x1 > (cc.Lab_to_XYZ (pf.lab5.getD 51 V3.zero)).x1 → xyz.x1 = s.x1)) ∧
        (0 ≤ (cc.Lab_to_XYZ (pf.lab5.getD 0 V3.zero)).x1 →
          (cc.Lab_to_XYZ (pf.lab5.getD 0 V3.zero)).x1 ≤
            (cc.Lab_to_XYZ (pf.lab5.getD 51 V3.zero)).x1 →
          0 ≤ s.x1 → s.x1 ≤ 1 →
          (cc.Lab_to_XYZ (pf.lab5.getD 0 V3.zero)).x1 ≤ xyz.x1 ∧
          xyz.x1 ≤ (cc.Lab_to_XYZ (pf.lab5.getD 51 V3.zero)).x1) := by
  obtain ⟨pf, hpf, _, hs, hL⟩ := construct_projected cc vin hlen
  refine ⟨pf, hpf, by rw [hL, hs]; simp, ?_⟩
  intro i hi
  have hsi : pf.sRGB_xyz[i]? = some (cc.Lab_to_XYZ
      ⟨(cc.sRGB_to_Lab ⟨(i : ℚ) * 5, (i : ℚ) * 5, (i : ℚ) * 5⟩).x0, 0, 0⟩) := by
    rw [hs, List.getElem?_map, List.getElem?_range hi]
    rfl
  obtain ⟨p1, p2, p3, p4⟩ := projected_Y pf.intent (cc.Lab_to_XYZ (pf.lab5.getD 0 V3.zero))
    (cc.Lab_to_XYZ (pf.lab5.getD 51 V3.zero))
    (cc.Lab_to_XYZ ⟨(cc.sRGB_to_Lab ⟨(i : ℚ) * 5, (i : ℚ) * 5, (i : ℚ) * 5⟩).x0, 0, 0⟩)
  refine ⟨_, _, hsi, rfl, rfl, ?_, p1, p2, p3, p4⟩
  rw [hL, List.getElem?_map, hsi]
  rfl

/-- Witness of C23: the 52-entry ramp `ramp_dip`, at the reference point 0. -/
theorem projected_curve_witness :
    (ramp_dip.length = 52 ∨ ramp_dip.length = 256) ∧
    ∃ pf, PatchFilter.construct id_conversions ramp_dip = some pf ∧
      pf.L_projected.length = 52 ∧
      ∃ s xyz : V3, pf.sRGB_xyz[0]? = some s ∧
        xyz = projected_xyz pf.intent (id_conversions.Lab_to_XYZ (pf.lab5.getD 0 V3.zero))
          (id_conversions.Lab_to_XYZ (pf.lab5.getD 51 V3.zero)) s ∧
        pf.L_projected[0]? = some (id_conversions.XYZ_to_Lab xyz).x0 := by
  refine ⟨Or.inl (by decide), ?_⟩
  obtain ⟨pf, hpf, hl, hall⟩ := projected_curve id_conversions ramp_dip (Or.inl (by decide))
  obtain ⟨s, xyz, h1, _, h3, h4, _⟩ := hall 0 (by decide)
  exact ⟨pf, hpf, hl, s, xyz, h1, h3, h4⟩

/-! ## Theorems: the interpolation of Lab values -/

theorem V3_ext (a b : V3) (h0 : a.x0 = b.x0) (h1 : a.x1 = b.x1) (h2 : a.x2 = b.x2) : a = b := by
  cases a
  cases b
  simp only [V3.mk.injEq]
  exact ⟨h0, h1, h2⟩

theorem lerp_one (lo hi : V3) : V3.add lo (V3.smul 1 (V3.sub hi lo)) = hi := by
  apply V3_ext <;> simp [V3.add, V3.smul, V3.sub]

theorem lerp_eq_hi (lo hi : V3) (t : ℚ) (h : V3.add lo (V3.smul t (V3.sub hi lo)) = hi)
    (hne : hi ≠ lo) : t = 1 := by
  by_contra ht
  apply hne
  have h1 : (1 - t) ≠ 0 := sub_ne_zero.mpr (Ne.symm ht)
  have e0 := congrArg V3.x0 h
  have e1 := congrArg V3.x1 h
  have e2 := congrArg V3.x2 h
  simp only [V3.add, V3.smul, V3.sub] at e0 e1 e2
  apply V3_ext
  · have : (1 - t) * (hi.x0 - lo.x0) = 0 := by linarith
    rcases mul_eq_zero.mp this with h | h
    · exact absurd h h1
    · linarith
  · have : (1 - t) * (hi.x1 - lo.x1) = 0 := by linarith
    rcases mul_eq_zero.mp this with h | h
    · exact absurd h h1
    · linarith
  · have : (1 - t) * (hi.x2 - lo.x2) = 0 := by linarith
    rcases mul_eq_zero.mp this with h | h
    · exact absurd h h1
    · linarith

/-- C24, amended: for every ramp `v` with strictly ascending gray levels and every integer
`x`: when `v` is not empty `find_lab_interpolation(v, 0)` is the Lab of `v[0]`; for `x` other
than 0 with `v[0].R < x <= v.last.R` the function returns
`Lab(lo) + (x - lo.R) / (hi.R - lo.R) * (Lab(hi) - Lab(lo))`, where `hi` is the first entry
with `R >= x` and `lo` the entry just before it; the fraction lies in (0, 1]; the result is
`Lab(hi)` when `x` is a gray level present in `v`, and when the result is `Lab(hi)` and
`Lab(hi)` differs from `Lab(lo)`, `x` is a gray level present in `v`. -/
theorem find_lab_interpolation_bracket (v : List V6) (x : Int)
    (hasc : v.Pairwise (fun a b => a.x0 < b.x0)) :
    (∀ first, v[0]? = some first → find_lab_interpolation v 0 = some first.lab) ∧
    (∀ first last, x ≠ 0 → v[0]? = some first → v[v.length - 1]? = some last →
      first.x0 < (x : ℚ) → (x : ℚ) ≤ last.x0 →
      ∃ (k : Nat) (lo hi : V6), 1 ≤ k ∧ v[k - 1]? = some lo ∧ v[k]? = some hi ∧
        (x : ℚ) ≤ hi.x0 ∧ (∀ (j : Nat) (e : V6), j < k → v[j]? = some e → e.x0 < (x : ℚ)) ∧
        find_lab_interpolation v x = some (V3.add lo.lab
          (V3.smul (((x : ℚ) - lo.x0) / (hi.x0 - lo.x0)) (V3.sub hi.lab lo.lab))) ∧
        0 < ((x : ℚ) - lo.x0) / (hi.x0 - lo.x0) ∧
        ((x : ℚ) - lo.x0) / (hi.x0 - lo.x0) ≤ 1 ∧
        ((∃ e ∈ v, e.x0 = (x : ℚ)) → find_lab_interpolation v x = some hi.lab) ∧
        (find_lab_interpolation v x = some hi.lab → hi.lab ≠ lo.lab →
          ∃ e ∈ v, e.x0 = (x : ℚ))) := by
  constructor
  · intro first hf
    unfold find_lab_interpolation
    rw [if_pos rfl, hf]
    rfl
  · intro first last hx hf hl hlt hle
    have hpos : 0 < v.length := (List.getElem?_eq_some.mp hf).1
    have hlast := List.getElem?_eq_some.mp hl
    have hmem : last ∈ v := by
      rw [← hlast.2]; exact List.getElem_mem _
    have hpl : decide (last.x0 ≥ (x : ℚ)) = true := decide_eq_true hle
    have hklt : v.findIdx (fun arg : V6 => decide (arg.x0 ≥ (x : ℚ))) < v.length :=
      List.findIdx_lt_length_of_exists ⟨last, hmem, hpl⟩
    have hk0 : v.findIdx (fun arg : V6 => decide (arg.x0 ≥ (x : ℚ))) ≠ 0 := by
      intro h0
      have hw : v[v.findIdx (fun arg : V6 => decide (arg.x0 ≥ (x : ℚ)))]? = some first := by
        rw [h0]; exact hf
      have hp0 := List.findIdx_of_getElem?_eq_some hw
      simp only [decide_eq_true_eq] at hp0
      exact absurd hlt (not_lt.mpr hp0)
    have hhi : ∀ e : V6, v[v.findIdx (fun arg : V6 => decide (arg.x0 ≥ (x : ℚ)))]? = some e →
        (x : ℚ) ≤ e.x0 := by
      intro e he
      have := List.findIdx_of_getElem?_eq_some he
      exact of_decide_eq_true this
    have hbefore : ∀ (j : Nat) (e : V6),
        j < v.findIdx (fun arg : V6 => decide (arg.x0 ≥ (x : ℚ))) → v[j]? = some e →
        e.x0 < (x : ℚ) := by
      intro j e hj he
      have hnot := List.not_of_lt_findIdx hj
      have hje := List.getElem?_eq_some.mp he
      rw [hje.2] at hnot
      by_contra hc
      have hge : decide (e.x0 ≥ (x : ℚ)) = true := decide_eq_true (not_lt.mp hc)
      rw [hge] at hnot
      cases hnot
    have hfind : find_lab_interpolation v x =
        if v.findIdx (fun arg : V6 => decide (arg.x0 ≥ (x : ℚ))) = 0 then none
        else (v[v.findIdx (fun arg : V6 => decide (arg.x0 ≥ (x : ℚ))) - 1]?).bind (fun low0 =>
          (v[v.findIdx (fun arg : V6 => decide (arg.x0 ≥ (x : ℚ)))]?).bind (fun low1 =>
            if low1.x0 - low0.x0 = 0 then none
            else some (V3.add low0.lab
              (V3.smul (((x : ℚ) - low0.x0) / (low1.x0 - low0.x0))
                (V3.sub low1.lab low0.lab))))) := by
      unfold find_lab_interpolation
      rw [if_neg hx]
      rfl
    revert hhi hbefore hfind
    generalize hkdef : v.findIdx (fun arg : V6 => decide (arg.x0 ≥ (x : ℚ))) = k at hklt hk0
    intro hhi hbefore hfind
    have hk1 : k - 1 < v.length := by omega
    have hlo : v[k - 1]? = some v[k - 1] := List.getElem?_eq_getElem hk1
    have hhi2 : v[k]? = some v[k] := List.getElem?_eq_getElem hklt
    have hxhi : (x : ℚ) ≤ (v[k]).x0 := hhi _ hhi2
    have hlox : (v[k - 1]).x0 < (x : ℚ) := hbefore (k - 1) _ (by omega) hlo
    have hd : (v[k]).x0 - (v[k - 1]).x0 ≠ 0 := by
      have : (v[k - 1]).x0 < (v[k]).x0 := lt_of_lt_of_le hlox hxhi
      exact ne_of_gt (sub_pos.mpr this)
    have hdpos : 0 < (v[k]).x0 - (v[k - 1]).x0 := sub_pos.mpr (lt_of_lt_of_le hlox hxhi)
    have hres : find_lab_interpolation v x = some (V3.add (v[k - 1]).lab
        (V3.smul (((x : ℚ) - (v[k - 1]).x0) / ((v[k]).x0 - (v[k - 1]).x0))
          (V3.sub (v[k]).lab (v[k - 1]).lab))) := by
      rw [hfind, if_neg hk0, hlo, Option.some_bind, hhi2, Option.some_bind, if_neg hd]
    refine ⟨k, v[k - 1], v[k], by omega, hlo, hhi2, hxhi, hbefore, hres, ?_, ?_, ?_, ?_⟩
    · exact div_pos (sub_pos.mpr hlox) hdpos
    · rw [div_le_one hdpos]
      linarith
    · rintro ⟨e, he, hex⟩
      obtain ⟨m, hm, rfl⟩ := List.getElem_of_mem he
      have hkm : k = m := by
        rcases Nat.lt_trichotomy k m with h | h | h
        · have := (List.pairwise_iff_getElem.mp hasc) k m hklt hm h
          rw [hex] at this
          exact absurd this (not_lt.mpr hxhi)
        · exact h
        · have := hbefore m v[m] h (List.getElem?_eq_getElem hm)
          rw [hex] at this
          exact absurd this (lt_irrefl _)
      subst hkm
      rw [hres, hex]
      have ht : ((x : ℚ) - (v[k - 1]).x0) / ((x : ℚ) - (v[k - 1]).x0) = 1 :=
        div_self (by rw [← hex]; exact hd)
      rw [ht, lerp_one]
    · intro heq hne
      rw [hres] at heq
      have ht := lerp_eq_hi _ _ _ (Option.some.inj heq) hne
      rw [div_eq_one_iff_eq hd] at ht
      exact ⟨v[k], List.getElem_mem _, by linarith⟩

/-- Witness of C24 as amended: the ramp `three_levels` at `x = 15`. -/
theorem find_lab_interpolation_bracket_witness :
    three_levels.Pairwise (fun a b => a.x0 < b.x0) ∧
    find_lab_interpolation three_levels 15 = some ⟨35, 0, 0⟩ ∧
    ∃ (k : Nat) (lo hi : V6), 1 ≤ k ∧ three_levels[k - 1]? = some lo ∧
      three_levels[k]? = some hi ∧
      find_lab_interpolation three_levels 15 = some (V3.add lo.lab
        (V3.smul ((((15 : Int) : ℚ) - lo.x0) / (hi.x0 - lo.x0)) (V3.sub hi.lab lo.lab))) := by
  have hasc : three_levels.Pairwise (fun a b => a.x0 < b.x0) := by decide!
  obtain ⟨k, lo, hi, h1, h2, h3, _, _, h6, _⟩ :=
    (find_lab_interpolation_bracket three_levels 15 hasc).2 (gray 0 0) (gray 20 40)
      (by decide) (by decide!) (by decide!) (by decide!) (by decide!)
  exact ⟨hasc, by decide!, k, lo, hi, h1, h2, h3, h6⟩

/-- C24, a counterexample to the claim as stated: the ramp `flat_pair` has the gray levels 0
and 10, strictly ascending, and the same Lab at both; at `x = 5`, which is not a gray level
of the ramp, the result is equal to the Lab of the upper bracketing entry. -/
theorem flat_segment_returns_hi :
    flat_pair.Pairwise (fun a b => a.x0 < b.x0) ∧
    (flat_pair.getD 0 V6.zero).x0 < 5 ∧ (5 : ℚ) ≤ (flat_pair.getD 1 V6.zero).x0 ∧
    flat_pair.findIdx (fun arg => decide (arg.x0 ≥ 5)) = 1 ∧
    find_lab_interpolation flat_pair 5 = some (flat_pair.getD 1 V6.zero).lab ∧
    ¬ (∃ e ∈ flat_pair, e.x0 = 5) := by decide!

/-! ## Theorems: the table of `print_stats` -/

theorem atq_ok (v : List ℚ) (i : Nat) (h : i < v.length) : ∃ x, atq v i = .ok x := by
  unfold atq
  rw [List.getElem?_eq_getElem h]
  exact ⟨_, rfl⟩

/-- With `repeats >= 2` and an empty table of the spreads of `L*`, the first row of
`print_stats` already reads outside a vector. -/
theorem print_stats_empty_table (stats : LabStats) (hr : 2 ≤ stats.repeats)
    (h5 : stats.distributionp_5.length = 6) (h15 : stats.distributionp_15.length = 6)
    (ha5 : stats.distributionp_ab0_5.length = 6) (ha15 : stats.distributionp_ab0_15.length = 6)
    (hL : stats.distributionp_std_L = []) :
    print_stats_table stats = .error .undefined_access := by
  have hrow : print_stats_row stats 0 = .error .undefined_access := by
    unfold print_stats_row
    obtain ⟨p, hp⟩ := atq_ok percents 0 (by decide)
    obtain ⟨d5, hd5⟩ := atq_ok stats.distributionp_5 0 (by omega)
    obtain ⟨d15, hd15⟩ := atq_ok stats.distributionp_15 0 (by omega)
    obtain ⟨a5, hda5⟩ := atq_ok stats.distributionp_ab0_5 0 (by omega)
    obtain ⟨a15, hda15⟩ := atq_ok stats.distributionp_ab0_15 0 (by omega)
    rw [hp, except_ok_bind, hd5, except_ok_bind, hd15, except_ok_bind, hda5, except_ok_bind,
      hda15, except_ok_bind, if_pos hr, hL]
    rfl
  unfold print_stats_table
  have e : List.range percents.length = 0 :: (List.range' 1 5) := by decide
  rw [e, List.mapM_cons, hrow]
  rfl

theorem ramp_first_twice_groups :
    (level_stats ramp_first_twice).map DuplicateStats.rgb_lab = ramp_tint ∧
    (level_stats ramp_first_twice).map (fun x => x.lab0.n)
      = 2 :: List.replicate 51 1 ∧
    (∀ x ∈ ramp_first_twice, x.x0 = x.x1 ∧ x.x0 = x.x2) := by decide!

/-- C25, the code at a failing input: for the measurements `ramp_first_twice` (the 52 gray
levels 0, 5, ..., 255, the level 0 measured twice and every other level once)
`process_cgats_measurement_file` returns a `LabStats` with `repeats` 2, the sample count of
the first patch, and with the three tables of the spreads empty, because not every patch has
two samples; the four deltaE tables have 6 entries; and the table loop of `print_stats`,
which reads the tables of the spreads whenever `repeats >= 2`, reads outside a vector. -/
theorem repeats_without_spread_tables :
    ∃ ret, process_cgats_measurement_file mean_conversions id abs_dL level_stats
        ramp_first_twice = .ok ret ∧
      ret.repeats = 2 ∧ ret.distributionp_std_L = [] ∧ ret.distributionp_std_a = [] ∧
      ret.distributionp_std_b = [] ∧
      ret.distributionp_5.length = 6 ∧ ret.distributionp_15.length = 6 ∧
      ret.distributionp_ab0_5.length = 6 ∧ ret.distributionp_ab0_15.length = 6 ∧
      print_stats_table ret = .error .undefined_access := by
  obtain ⟨hmap, hn, hneutral⟩ := ramp_first_twice_groups
  obtain ⟨_, _, _, hsp, hfirst, hlast⟩ := ramp_tint3_groups
  have hlen : (level_stats ramp_first_twice).length = 52 := by
    rw [← List.length_map (level_stats ramp_first_twice) DuplicateStats.rgb_lab, hmap]
    exact ramp_tint_length
  have hramp := neutral_ramp_ok level_stats ramp_first_twice hneutral
    (by rw [hmap]; exact Or.inl ramp_tint_length) (by rw [hmap]; exact hfirst)
    (by rw [hmap, ramp_tint_length]; exact hlast)
    (by
      intro x hx
      rw [hmap] at hx
      rw [hmap, ramp_tint_length]
      exact hsp x hx)
  obtain ⟨ret, hret, h5, h15, ha5, ha15, _, _, hrep, _, hs2⟩ :=
    fill_stats_ok mean_conversions id abs_dL (level_stats ramp_first_twice)
      ((level_stats ramp_first_twice).map DuplicateStats.rgb_lab) (List.length_map _ _).symm
      (by rw [hmap]; exact Or.inl ramp_tint_length)
      (by
        intro pf steps hpf hs
        rw [hmap] at hpf
        exact tint_example_defined pf steps hpf hs)
  rw [← process_of_ramp mean_conversions id abs_dL level_stats ramp_first_twice _ _ hramp]
    at hret
  have hrep2 : ret.repeats = 2 := by
    rw [hrep, hn]
    rfl
  have hnot : ¬ (∀ x ∈ level_stats ramp_first_twice, 2 ≤ x.lab0.n) := by
    intro hall
    have h1 : (1 : Nat) ∈ (level_stats ramp_first_twice).map (fun x => x.lab0.n) := by
      rw [hn]
      decide
    obtain ⟨x, hx, hx1⟩ := List.mem_map.mp h1
    have := hall x hx
    omega
  obtain ⟨hL, ha, hb⟩ := hs2 hnot
  exact ⟨ret, hret, hrep2, hL, ha, hb, h5, h15, ha5, ha15,
    print_stats_empty_table ret (by rw [hrep2]) h5 h15 ha5 ha15 hL⟩

/-! ## Theorems: the indices of the percentile tables -/

end ABW
